import Mathlib

/-!
Verification development for the pathforge pathfinding library.

The Rust source is shallowly embedded: f32 costs are modelled by an
arbitrary linear ordered additive group `C` (instantiated with `ℤ` for
concrete executions and with `ℝ` where exact square roots matter),
`HashMap`s by
functions into `Option`, `BinaryHeap` by a list whose pop extracts the
first element of maximal priority under the source's `Ord`, and the
`while` loops by fuel-indexed recursion returning `none` when fuel runs
out (the Rust loop would still be running).  Wall-clock tests
(`start_time.elapsed() > timeout`) are modelled by an arbitrary boolean
oracle indexed by the iteration counter.
-/

namespace Pathforge

/-- `PathStatus` from `traits.rs`. -/
inductive PathStatus where
  | found
  | notFound
  | partTimeout
  | partMaxIter
  deriving DecidableEq, Repr

/-- `PathResult` from `traits.rs`. -/
structure PathResult (N C : Type) where
  path : List N
  cost : C
  nodesExpanded : Nat
  status : PathStatus
  deriving DecidableEq, Repr

/-- `TieBreaking` from `algorithms/astar.rs`. -/
inductive TieBreaking where
  | noTie
  | preferHigherG
  | preferLowerG
  | crossProduct
  deriving DecidableEq, Repr

/-- `AStarConfig` from `algorithms/astar.rs`; the wall-clock `timeout`
field is modelled separately by an oracle argument to the search. -/
structure AStarConfig where
  maxIterations : Option Nat
  tieBreaking : TieBreaking
  deriving DecidableEq, Repr

/-- Heap element `State` from `algorithms/astar.rs`. -/
structure HState (N C : Type) where
  node : N
  cost : C
  gScore : C
  tieBreaker : C
  deriving DecidableEq, Repr

/-- The `Ord` instance on `State`: `a` is popped before `b` iff `a.cost`
is smaller, or costs are equal and `a.tieBreaker` is larger. -/
def higherPriority [LinearOrder C] (a b : HState N C) : Bool :=
  if a.cost < b.cost then true
  else if b.cost < a.cost then false
  else if b.tieBreaker < a.tieBreaker then true
  else false

/-- Determinized model of `BinaryHeap::pop`: return a maximal-priority
element (the first such in the list) together with the remaining
elements.  The source's `Ord` leaves equal `(cost, tie_breaker)` pairs
unordered, so the real pop choice among ties depends on the heap's
internal arrangement; `popND` below models that choice faithfully.
`popMax` is a fixed admissible tie order, adequate for properties that
hold for every pop choice. -/
def popMax [LinearOrder C] : List (HState N C) → Option (HState N C × List (HState N C))
  | [] => none
  | x :: xs =>
    match popMax xs with
    | none => some (x, [])
    | some (m, rest) => if higherPriority m x then some (m, x :: rest) else some (x, xs)

/-- Finite maps modelled as functions (`HashMap` model). -/
def MapF (N V : Type) : Type := N → Option V

def MapF.empty : MapF N V := fun _ => none

def MapF.insert [DecidableEq N] (m : MapF N V) (k : N) (v : V) : MapF N V :=
  fun n => if n = k then some v else m n

/-- Transient A* state (`open_set`, `g_scores`, `came_from` plus the two
counters of `astar`). -/
structure SearchState (N C : Type) where
  openSet : List (HState N C)
  gScores : MapF N C
  cameFrom : MapF N N
  nodesExpanded : Nat
  iterations : Nat

/-- Tie-breaker value computed from the strategy (`astar.rs` lines
160-165). -/
def tieValue [LinearOrderedAddCommGroup C] (tb : TieBreaking) (g : C) : C :=
  match tb with
  | .noTie => 0
  | .preferHigherG => g
  | .preferLowerG => -g
  | .crossProduct => 0

/-- Body of the `graph.neighbors(&current, |neighbor, edge_cost| ...)`
closure in `astar` (lines 145-173): relax one outgoing edge. -/
def relax [DecidableEq N] [LinearOrderedAddCommGroup C] (h : N → N → C) (cfg : AStarConfig)
    (goal current : N) (currentG : C) (st : SearchState N C) (nc : N × C) :
    SearchState N C :=
  let tentative := currentG + nc.2
  let proceed : Bool :=
    match st.gScores nc.1 with
    | some existing => decide (tentative < existing)
    | none => true
  if proceed then
    { st with
      cameFrom := st.cameFrom.insert nc.1 current
      gScores := st.gScores.insert nc.1 tentative
      openSet :=
        ⟨nc.1, tentative + h nc.1 goal, tentative,
          tieValue cfg.tieBreaking tentative⟩ :: st.openSet }
  else st

/-- `reconstruct_path` inner loop: the chain of `came_from` parents
starting at `cur` (in pop order, i.e. before the final `reverse`). -/
def ancestorChain [DecidableEq N] (came : MapF N N) : Nat → N → Option (List N)
  | 0, _ => none
  | f + 1, cur =>
    match came cur with
    | none => some [cur]
    | some p => (ancestorChain came f p).map (fun l => cur :: l)

/-- `reconstruct_path` from `algorithms/astar.rs`. -/
def reconstructPath [DecidableEq N] (came : MapF N N) (cur : N) (cost : C)
    (nodesExpanded : Nat) (status : PathStatus) (fuel : Nat) :
    Option (PathResult N C) :=
  (ancestorChain came fuel cur).map (fun l => ⟨l.reverse, cost, nodesExpanded, status⟩)

/-- Whether the just-incremented iteration counter exceeds
`config.max_iterations`. -/
def overMaxIter (cfg : AStarConfig) (iters : Nat) : Bool :=
  match cfg.maxIterations with
  | some m => decide (iters > m)
  | none => false

/-- Whether the popped entry is stale (`g_scores` already holds a
strictly better value). -/
def isStale [DecidableEq N] [LinearOrder C] (g : MapF N C) (s : HState N C) : Bool :=
  match g s.node with
  | some best => decide (best < s.gScore)
  | none => false

/-- The main `while let Some(...) = open_set.pop()` loop of `astar`,
fuel-indexed.  `timeoutHit k` models `config.timeout` being set and
`start_time.elapsed() > timeout` at iteration `k`. -/
def astarLoop [DecidableEq N] [LinearOrderedAddCommGroup C] (adj : N → List (N × C))
    (h : N → N → C) (cfg : AStarConfig) (timeoutHit : Nat → Bool) (goal : N) :
    Nat → SearchState N C → Option (PathResult N C)
  | 0, _ => none
  | fuel + 1, st =>
    match popMax st.openSet with
    | none => some ⟨[], 0, st.nodesExpanded, .notFound⟩
    | some (s, rest) =>
      let iters := st.iterations + 1
      let st1 : SearchState N C := { st with openSet := rest, iterations := iters }
      if overMaxIter cfg iters then
        reconstructPath st1.cameFrom s.node s.gScore st1.nodesExpanded .partMaxIter (fuel + 1)
      else if timeoutHit iters then
        reconstructPath st1.cameFrom s.node s.gScore st1.nodesExpanded .partTimeout (fuel + 1)
      else if s.node = goal then
        reconstructPath st1.cameFrom s.node s.gScore st1.nodesExpanded .found (fuel + 1)
      else if isStale st1.gScores s then
        astarLoop adj h cfg timeoutHit goal fuel st1
      else
        let st2 := (adj s.node).foldl (relax h cfg goal s.node s.gScore)
          { st1 with nodesExpanded := st1.nodesExpanded + 1 }
        astarLoop adj h cfg timeoutHit goal fuel st2

/-- Initial search state of `astar`. -/
def initState [DecidableEq N] [LinearOrderedAddCommGroup C] (h : N → N → C)
    (start goal : N) : SearchState N C :=
  { openSet := [⟨start, h start goal, 0, 0⟩]
    gScores := MapF.empty.insert start 0
    cameFrom := MapF.empty
    nodesExpanded := 0
    iterations := 0 }

/-- `astar` from `algorithms/astar.rs`, fuel-indexed. -/
def astar [DecidableEq N] [LinearOrderedAddCommGroup C] (adj : N → List (N × C))
    (h : N → N → C) (start goal : N) (cfg : AStarConfig) (timeoutHit : Nat → Bool)
    (fuel : Nat) : Option (PathResult N C) :=
  astarLoop adj h cfg timeoutHit goal fuel (initState h start goal)

/-! ## Grid2D (`graphs/grid2d.rs`) -/

/-- `GridPos` from `graphs/grid2d.rs`. -/
structure GridPos where
  x : Int
  y : Int
  deriving DecidableEq, Repr

/-- `CellType` from `graphs/grid2d.rs`. -/
inductive CellType (C : Type) where
  | passable (costMult : C)
  | blocked
  deriving DecidableEq, Repr

/-- `DiagonalMode` from `graphs/grid2d.rs`. -/
inductive DiagonalMode where
  | never
  | always
  | ifNoObstacle
  | onlyIfBothOpen
  deriving DecidableEq, Repr

/-- `Grid2D` from `graphs/grid2d.rs`; the row-major `cells` vector is a
list. -/
structure Grid2D (C : Type) where
  width : Nat
  height : Nat
  cells : List (CellType C)
  diagonalMovement : DiagonalMode

/-- `Grid2D::new`. -/
def Grid2D.new [One C] (width height : Nat) (diagonalMovement : DiagonalMode) :
    Grid2D C :=
  { width := width
    height := height
    cells := List.replicate (width * height) (.passable 1)
    diagonalMovement := diagonalMovement }

/-- `Grid2D::set_blocked`. -/
def Grid2D.setBlocked [One C] (g : Grid2D C) (x y : Nat) (blocked : Bool) :
    Grid2D C :=
  if x < g.width ∧ y < g.height then
    { g with cells :=
        g.cells.set (y * g.width + x) (if blocked then .blocked else .passable 1) }
  else g

/-- `Grid2D::set_cost`. -/
def Grid2D.setCost (g : Grid2D C) (x y : Nat) (cost : C) : Grid2D C :=
  if x < g.width ∧ y < g.height then
    { g with cells := g.cells.set (y * g.width + x) (.passable cost) }
  else g

/-- Cell lookup shared by `is_blocked`/`get_cost`: out of bounds counts
as blocked. -/
def Grid2D.cellAt (g : Grid2D C) (x y : Int) : CellType C :=
  if x < 0 ∨ y < 0 then .blocked
  else if g.width ≤ x.toNat ∨ g.height ≤ y.toNat then .blocked
  else g.cells.getD (y.toNat * g.width + x.toNat) .blocked

/-- `Grid2D::is_blocked`. -/
def Grid2D.isBlocked (g : Grid2D C) (x y : Int) : Bool :=
  match g.cellAt x y with
  | .blocked => true
  | .passable _ => false

/-- `Grid2D::get_cost` restricted to the unblocked case: the cost
multiplier of the cell.  (`get_cost` returns `+inf` exactly when
`is_blocked` holds, and every caller in the source reads it only behind
a `!is_blocked` guard, so the blocked branch is given a dummy value.) -/
def Grid2D.costMult [Zero C] (g : Grid2D C) (x y : Int) : C :=
  match g.cellAt x y with
  | .passable c => c
  | .blocked => 0

/-- The cardinal direction table of `Grid2D::neighbors`. -/
def cardinalDirs : List (Int × Int) := [(0, 1), (1, 0), (0, -1), (-1, 0)]

/-- The diagonal direction table of `Grid2D::neighbors`. -/
def diagonalDirs : List (Int × Int) := [(1, 1), (1, -1), (-1, 1), (-1, -1)]

/-- The diagonal-policy check of `Grid2D::neighbors` (and of
`diagonal_movement_allowed` in `jps.rs`, which is the same test). -/
def diagAllowed (g : Grid2D C) (p : GridPos) (dx dy : Int) : Bool :=
  let c1Blocked := g.isBlocked (p.x + dx) p.y
  let c2Blocked := g.isBlocked p.x (p.y + dy)
  match g.diagonalMovement with
  | .never => false
  | .always => true
  | .ifNoObstacle => !c1Blocked || !c2Blocked
  | .onlyIfBothOpen => !c1Blocked && !c2Blocked

/-- `Grid2D::neighbors` as a list in visit order; `sqrt2` models the
`SQRT_2` diagonal cost constant. -/
def Grid2D.neighborsList [Zero C] [Mul C] (g : Grid2D C) (sqrt2 : C) (p : GridPos) :
    List (GridPos × C) :=
  let card := cardinalDirs.filterMap (fun d =>
    let nx := p.x + d.1
    let ny := p.y + d.2
    if g.isBlocked nx ny then none
    else some (⟨nx, ny⟩, g.costMult nx ny))
  let diag :=
    if g.diagonalMovement ≠ .never then
      diagonalDirs.filterMap (fun d =>
        let nx := p.x + d.1
        let ny := p.y + d.2
        if g.isBlocked nx ny then none
        else if diagAllowed g p d.1 d.2 then
          some (⟨nx, ny⟩, g.costMult nx ny * sqrt2)
        else none)
    else []
  card ++ diag

/-- The Bresenham loop of `Grid2D::can_traverse`, fuel-indexed. -/
def bresenhamLoop (g : Grid2D C) (x1 y1 sx sy dx dy : Int) :
    Nat → Int → Int → Int → Bool
  | 0, _, _, _ => false
  | fuel + 1, x, y, err =>
    if x = x1 ∧ y = y1 then !g.isBlocked x y
    else if g.isBlocked x y then false
    else
      let e2 := 2 * err
      let err1 := if e2 > -dy then err - dy else err
      let x1n := if e2 > -dy then x + sx else x
      let err2 := if e2 < dx then err1 + dx else err1
      let y1n := if e2 < dx then y + sy else y
      bresenhamLoop g x1 y1 sx sy dx dy fuel x1n y1n err2

/-- `Grid2D::can_traverse` (Bresenham line-of-sight); the fuel
`|dx| + |dy| + 1` covers every iteration the Rust loop can make. -/
def Grid2D.canTraverse (g : Grid2D C) (a b : GridPos) : Bool :=
  let dx := (b.x - a.x).natAbs
  let dy := (b.y - a.y).natAbs
  let sx : Int := if a.x < b.x then 1 else -1
  let sy : Int := if a.y < b.y then 1 else -1
  bresenhamLoop g b.x b.y sx sy (dx : Int) (dy : Int) (dx + dy + 1) a.x a.y ((dx : Int) - (dy : Int))

/-- Push condition of the A* relaxation, in the claim's vocabulary:
no best_g exists for the neighbor, or the tentative g improves on it. -/
def pushCond [LT C] (st : SearchState N C) (n : N) (tentative : C) : Prop :=
  st.gScores n = none ∨ ∃ e, st.gScores n = some e ∧ tentative < e

/-- Invariant of the A* loop state used for path validity: the start
keeps g = 0 and no parent, all recorded g values are non-negative,
every parent link corresponds to an emitted edge, and every node with a
g entry other than the start has a parent. -/
structure AStarInv [LinearOrderedAddCommGroup C] (adj : N → List (N × C)) (start : N)
    (st : SearchState N C) : Prop where
  startG : st.gScores start = some 0
  startNoParent : st.cameFrom start = none
  openNonneg : ∀ s ∈ st.openSet, 0 ≤ s.gScore
  gNonneg : ∀ n c, st.gScores n = some c → 0 ≤ c
  cameEdge : ∀ n p, st.cameFrom n = some p → ∃ c, (n, c) ∈ adj p
  gDom : ∀ n, st.gScores n ≠ none → n = start ∨ st.cameFrom n ≠ none
  openInG : ∀ s ∈ st.openSet, st.gScores s.node ≠ none
  cameInG : ∀ n p, st.cameFrom n = some p → st.gScores p ≠ none

/-! ## PathCache (`cache.rs`) -/

/-- `CachedPath` from `cache.rs`; `Instant` timestamps are modelled as
natural numbers. -/
structure CachedPath (N C : Type) where
  result : PathResult N C
  created : Nat
  hits : Nat
  deriving DecidableEq, Repr

/-- `PathCache` from `cache.rs`; the `HashMap` is an association list
keyed by `(start, goal)`. -/
structure PathCache (N C : Type) where
  cache : List ((N × N) × CachedPath N C)
  maxEntries : Nat
  maxAge : Nat
  deriving DecidableEq, Repr

/-- `PathCache::invalidate_region`: retain only entries whose start,
goal and path nodes all fail the predicate. -/
def PathCache.invalidateRegion [DecidableEq N] (pc : PathCache N C) (pred : N → Bool) :
    PathCache N C :=
  { pc with
    cache := pc.cache.filter (fun kv =>
      if pred kv.1.1 || pred kv.1.2 then false
      else kv.2.result.path.all (fun n => !pred n)) }

/-! ## FlowField (`algorithms/flowfield.rs`) -/

/-- `Direction` from `flowfield.rs`. -/
inductive Direction where
  | none
  | n
  | ne
  | e
  | se
  | s
  | sw
  | w
  | nw
  deriving DecidableEq, Repr

/-- Heap element `State` from `flowfield.rs` (the Dijkstra frontier). -/
structure FFState (C : Type) where
  cost : C
  pos : GridPos
  deriving DecidableEq, Repr

/-- Model of the flowfield `BinaryHeap::pop`: its `Ord` reverses the
cost comparison, so the pop returns a minimal-cost element (the first
such in the list). -/
def popFF [LinearOrder C] : List (FFState C) → Option (FFState C × List (FFState C))
  | [] => none
  | x :: xs =>
    match popFF xs with
    | none => some (x, [])
    | some (m, rest) => if m.cost < x.cost then some (m, x :: rest) else some (x, xs)

/-- `FlowField` from `flowfield.rs`; `f32::INFINITY` entries of the
integration buffer are modelled by `⊤` in `WithTop C`. -/
structure FlowField (C : Type) where
  width : Nat
  height : Nat
  integration : List (WithTop C)
  flow : List Direction
  deriving DecidableEq, Repr

/-- `FlowField::idx`. -/
def FlowField.idx (width x y : Nat) : Nat := y * width + x

/-- The Dijkstra integration loop of `FlowField::compute`,
fuel-indexed. -/
def ffLoop [LinearOrderedAddCommGroup C] [Mul C] (g : Grid2D C) (sqrt2 : C)
    (width height : Nat) :
    Nat → List (FFState C) → List (WithTop C) → List Bool → Option (List (WithTop C))
  | 0, _, _, _ => none
  | fuel + 1, frontier, integration, visited =>
    match popFF frontier with
    | Option.none => some integration
    | Option.some (st, rest) =>
      let idx := FlowField.idx width st.pos.x.toNat st.pos.y.toNat
      if visited.getD idx false || decide ((st.cost : WithTop C) > integration.getD idx ⊤) then
        ffLoop g sqrt2 width height fuel rest integration visited
      else
        let visited2 := visited.set idx true
        let step : List (WithTop C) × List (FFState C) :=
          (g.neighborsList sqrt2 st.pos).foldl
          (fun (acc : List (WithTop C) × List (FFState C)) nc =>
            if g.isBlocked nc.1.x nc.1.y then acc
            else
              let nextCost := st.cost + nc.2
              if nc.1.x < 0 ∨ nc.1.y < 0 ∨ width ≤ nc.1.x.toNat ∨ height ≤ nc.1.y.toNat then
                acc
              else
                let nIdx := FlowField.idx width nc.1.x.toNat nc.1.y.toNat
                if (nextCost : WithTop C) < acc.1.getD nIdx ⊤ then
                  (acc.1.set nIdx (nextCost : WithTop C), ⟨nextCost, nc.1⟩ :: acc.2)
                else acc)
          (integration, rest)
        ffLoop g sqrt2 width height fuel step.2 step.1 visited2

/-- `FlowField::neighbor_dirs`. -/
def neighborDirs (diag : DiagonalMode) : List (Int × Int × Direction) :=
  match diag with
  | .never => [(0, -1, .n), (1, 0, .e), (0, 1, .s), (-1, 0, .w)]
  | _ => [(0, -1, .n), (1, -1, .ne), (1, 0, .e), (1, 1, .se),
          (0, 1, .s), (-1, 1, .sw), (-1, 0, .w), (-1, -1, .nw)]

/-- The per-cell direction choice of the flow pass of
`FlowField::compute` (the loop over `neighbor_dirs` tracking
`best_dir`/`best_cost`). -/
def flowChoose [LinearOrderedAddCommGroup C] (g : Grid2D C)
    (integration : List (WithTop C)) (width height x y : Nat) : Direction :=
  ((neighborDirs g.diagonalMovement).foldl
    (fun (acc : Direction × WithTop C) ddd =>
      let nx := (x : Int) + ddd.1
      let ny := (y : Int) + ddd.2.1
      if nx < 0 ∨ ny < 0 ∨ width ≤ nx.toNat ∨ height ≤ ny.toNat then acc
      else if g.isBlocked nx ny then acc
      else
        let nCost := integration.getD (FlowField.idx width nx.toNat ny.toNat) ⊤
        if nCost < acc.2 then (ddd.2.2, nCost) else acc)
    (Direction.none, integration.getD (FlowField.idx width x y) ⊤)).1

/-- The flow pass of `FlowField::compute`.  The source's double loop
writes `flow[y*width+x]` for every `y < height`, `x < width`; this
enumerates the same cells by their row-major index. -/
def flowPass [LinearOrderedAddCommGroup C] (g : Grid2D C)
    (integration : List (WithTop C)) (width height : Nat) : List Direction :=
  (List.range (width * height)).map (fun idx =>
    let x := idx % width
    let y := idx / width
    if integration.getD idx ⊤ = ⊤ ∨ g.isBlocked x y then Direction.none
    else flowChoose g integration width height x y)

/-- `FlowField::compute`, fuel-indexed for the Dijkstra loop. -/
def FlowField.compute [LinearOrderedAddCommGroup C] [Mul C] (fuel : Nat) (g : Grid2D C)
    (sqrt2 : C) (goal : GridPos) : Option (FlowField C) :=
  let width := g.width
  let height := g.height
  let len := width * height
  let integration0 : List (WithTop C) := List.replicate len ⊤
  let flow0 : List Direction := List.replicate len Direction.none
  if goal.x < 0 ∨ goal.y < 0 ∨ width ≤ goal.x.toNat ∨ height ≤ goal.y.toNat ∨
      g.isBlocked goal.x goal.y then
    some ⟨width, height, integration0, flow0⟩
  else
    let goalIdx := FlowField.idx width goal.x.toNat goal.y.toNat
    let integration1 := integration0.set goalIdx ((0 : C) : WithTop C)
    match ffLoop g sqrt2 width height fuel [⟨0, goal⟩] integration1
      (List.replicate len false) with
    | Option.none => none
    | Option.some integration =>
      some ⟨width, height, integration, flowPass g integration width height⟩

/-! ## Jump-Point Search (`algorithms/jps.rs`) -/

/-- `is_walkable` from `jps.rs`. -/
def isWalkable (g : Grid2D C) (x y : Int) : Bool := !g.isBlocked x y

/-- `distance` from `jps.rs` (octile distance with the `SQRT_2`
constant passed as `sqrt2`). -/
def jpsDistance [LinearOrderedCommRing C] (sqrt2 : C) (a b : GridPos) : C :=
  let dx : C := ((a.x - b.x).natAbs : C)
  let dy : C := ((a.y - b.y).natAbs : C)
  (sqrt2 - 1) * min dx dy + max dx dy

/-- `jump` from `jps.rs`, fuel-indexed; the walkability guard stops the
Rust recursion within `width + height` steps, which the callers' fuel
covers. -/
def jump (g : Grid2D C) (goal : GridPos) :
    Nat → Int → Int → GridPos → Option GridPos
  | 0, _, _, _ => none
  | fuel + 1, dx, dy, current =>
    let nextX := current.x + dx
    let nextY := current.y + dy
    if ¬ isWalkable g nextX nextY then none
    else if dx ≠ 0 ∧ dy ≠ 0 ∧ ¬ diagAllowed g current dx dy then none
    else
      let nextNode : GridPos := ⟨nextX, nextY⟩
      if nextNode = goal then some nextNode
      else if dx ≠ 0 ∧ dy ≠ 0 then
        if (¬ isWalkable g (nextX - dx) nextY ∧ isWalkable g (nextX - dx) (nextY + dy)) ∨
            (¬ isWalkable g nextX (nextY - dy) ∧ isWalkable g (nextX + dx) (nextY - dy)) then
          some nextNode
        else if (jump g goal fuel dx 0 nextNode).isSome ∨
            (jump g goal fuel 0 dy nextNode).isSome then
          some nextNode
        else jump g goal fuel dx dy nextNode
      else if dx ≠ 0 then
        if (¬ isWalkable g nextX (nextY + 1) ∧ isWalkable g (nextX + dx) (nextY + 1)) ∨
            (¬ isWalkable g nextX (nextY - 1) ∧ isWalkable g (nextX + dx) (nextY - 1)) then
          some nextNode
        else jump g goal fuel dx dy nextNode
      else
        if (¬ isWalkable g (nextX + 1) nextY ∧ isWalkable g (nextX + 1) (nextY + dy)) ∨
            (¬ isWalkable g (nextX - 1) nextY ∧ isWalkable g (nextX - 1) (nextY + dy)) then
          some nextNode
        else jump g goal fuel dx dy nextNode

/-- `prune_neighbors` from `jps.rs`. -/
def pruneNeighbors (g : Grid2D C) (current : GridPos) (parent : Option GridPos) :
    List GridPos :=
  match parent with
  | Option.none =>
    ([(0, 1), (1, 0), (0, -1), (-1, 0), (1, 1), (1, -1), (-1, 1), (-1, -1)] :
        List (Int × Int)).filterMap (fun d =>
      if isWalkable g (current.x + d.1) (current.y + d.2) then
        if d.1 ≠ 0 ∧ d.2 ≠ 0 then
          if diagAllowed g current d.1 d.2 then
            some ⟨current.x + d.1, current.y + d.2⟩
          else none
        else some ⟨current.x + d.1, current.y + d.2⟩
      else none)
  | Option.some p =>
    let dx := (current.x - p.x).sign
    let dy := (current.y - p.y).sign
    if dx ≠ 0 ∧ dy ≠ 0 then
      (if isWalkable g (current.x + dx) (current.y + dy) ∧ diagAllowed g current dx dy then
        [(⟨current.x + dx, current.y + dy⟩ : GridPos)] else []) ++
      (if isWalkable g (current.x + dx) current.y then
        [(⟨current.x + dx, current.y⟩ : GridPos)] else []) ++
      (if isWalkable g current.x (current.y + dy) then
        [(⟨current.x, current.y + dy⟩ : GridPos)] else []) ++
      (if ¬ isWalkable g (current.x - dx) current.y ∧
          isWalkable g (current.x - dx) (current.y + dy) ∧
          diagAllowed g ⟨current.x - dx, current.y⟩ 0 dy ∧
          diagAllowed g current (-dx) dy then
        [(⟨current.x - dx, current.y + dy⟩ : GridPos)] else []) ++
      (if ¬ isWalkable g current.x (current.y - dy) ∧
          isWalkable g (current.x + dx) (current.y - dy) ∧
          diagAllowed g current dx (-dy) then
        [(⟨current.x + dx, current.y - dy⟩ : GridPos)] else [])
    else if dx ≠ 0 then
      (if isWalkable g (current.x + dx) current.y then
        [(⟨current.x + dx, current.y⟩ : GridPos)] else []) ++
      (if ¬ isWalkable g current.x (current.y + 1) ∧
          isWalkable g (current.x + dx) (current.y + 1) ∧
          diagAllowed g current dx 1 then
        [(⟨current.x + dx, current.y + 1⟩ : GridPos)] else []) ++
      (if ¬ isWalkable g current.x (current.y - 1) ∧
          isWalkable g (current.x + dx) (current.y - 1) ∧
          diagAllowed g current dx (-1) then
        [(⟨current.x + dx, current.y - 1⟩ : GridPos)] else [])
    else
      (if isWalkable g current.x (current.y + dy) then
        [(⟨current.x, current.y + dy⟩ : GridPos)] else []) ++
      (if ¬ isWalkable g (current.x + 1) current.y ∧
          isWalkable g (current.x + 1) (current.y + dy) ∧
          diagAllowed g current 1 dy then
        [(⟨current.x + 1, current.y + dy⟩ : GridPos)] else []) ++
      (if ¬ isWalkable g (current.x - 1) current.y ∧
          isWalkable g (current.x - 1) (current.y + dy) ∧
          diagAllowed g current (-1) dy then
        [(⟨current.x - 1, current.y + dy⟩ : GridPos)] else [])

/-- `find_successors` from `jps.rs`; each `jump` march gets fuel
`width + height + 2`, enough for any straight run across the grid. -/
def findSuccessors (g : Grid2D C) (current : GridPos) (parent : Option GridPos)
    (goal : GridPos) : List GridPos :=
  (pruneNeighbors g current parent).filterMap (fun n =>
    jump g goal (g.width + g.height + 2) (n.x - current.x) (n.y - current.y) current)

/-- The main loop of `jps` from `jps.rs`: identical skeleton to `astar`,
but expanding jump points with octile edge costs (the expansion body is
the same relaxation as `astar`, with edge cost
`distance(current, neighbor)`). -/
def jpsLoop [DecidableEq GridPos] [LinearOrderedCommRing C] (g : Grid2D C) (sqrt2 : C)
    (h : GridPos → GridPos → C) (cfg : AStarConfig) (timeoutHit : Nat → Bool)
    (goal : GridPos) : Nat → SearchState GridPos C → Option (PathResult GridPos C)
  | 0, _ => none
  | fuel + 1, st =>
    match popMax st.openSet with
    | Option.none => some ⟨[], 0, st.nodesExpanded, .notFound⟩
    | Option.some (s, rest) =>
      let iters := st.iterations + 1
      let st1 : SearchState GridPos C := { st with openSet := rest, iterations := iters }
      if overMaxIter cfg iters then
        reconstructPath st1.cameFrom s.node s.gScore st1.nodesExpanded .partMaxIter (fuel + 1)
      else if timeoutHit iters then
        reconstructPath st1.cameFrom s.node s.gScore st1.nodesExpanded .partTimeout (fuel + 1)
      else if s.node = goal then
        reconstructPath st1.cameFrom s.node s.gScore st1.nodesExpanded .found (fuel + 1)
      else if isStale st1.gScores s then
        jpsLoop g sqrt2 h cfg timeoutHit goal fuel st1
      else
        let parent := st1.cameFrom s.node
        let st2 := (findSuccessors g s.node parent goal).foldl
          (fun acc n => relax h cfg goal s.node s.gScore acc (n, jpsDistance sqrt2 s.node n))
          { st1 with nodesExpanded := st1.nodesExpanded + 1 }
        jpsLoop g sqrt2 h cfg timeoutHit goal fuel st2

/-- `jps` from `jps.rs`, fuel-indexed. -/
def jps [LinearOrderedCommRing C] (g : Grid2D C) (sqrt2 : C) (h : GridPos → GridPos → C)
    (start goal : GridPos) (cfg : AStarConfig) (timeoutHit : Nat → Bool) (fuel : Nat) :
    Option (PathResult GridPos C) :=
  jpsLoop g sqrt2 h cfg timeoutHit goal fuel (initState h start goal)

/-! ## HierarchicalGrid (`graphs/hierarchical.rs`) -/

/-- Non-negative cost multipliers, the Graph contract's requirement on
edge costs, phrased on `Grid2D`. -/
def GridNonneg [LinearOrderedAddCommGroup C] (g : Grid2D C) : Prop :=
  ∀ x y : Int, 0 ≤ g.costMult x y

/-- `Manhattan` heuristic from `heuristics.rs` on grid positions (the
`z` component of a `GridPos` is 0). -/
def manhattan [LinearOrderedCommRing C] (a b : GridPos) : C :=
  ((a.x - b.x).natAbs : C) + ((a.y - b.y).natAbs : C)

/-- `AbstractEdge` from `hierarchical.rs`; `AbstractNodeId` is the index
into `nodes`. -/
structure AbstractEdge (C : Type) where
  target : Nat
  cost : C
  path : List GridPos
  deriving DecidableEq, Repr

/-- `HierarchicalGrid` from `hierarchical.rs`.  `cluster_nodes` is an
association list keyed by cluster coordinates, in key insertion order
(one realizable `HashMap` iteration order). -/
structure HierarchicalGrid (C : Type) where
  baseGrid : Grid2D C
  clusterSize : Nat
  nodes : List GridPos
  edges : MapF Nat (List (AbstractEdge C))
  clusterNodes : List ((Nat × Nat) × List Nat)

/-- Lookup in the cluster-nodes association list. -/
def clusterLookup (cn : List ((Nat × Nat) × List Nat)) (k : Nat × Nat) :
    Option (List Nat) :=
  (cn.find? (fun kv => kv.1 = k)).map (fun kv => kv.2)

/-- `cluster_nodes.entry(k).or_default().push(id)`. -/
def clusterPush (cn : List ((Nat × Nat) × List Nat)) (k : Nat × Nat) (id : Nat) :
    List ((Nat × Nat) × List Nat) :=
  if (cn.find? (fun kv => kv.1 = k)).isSome then
    cn.map (fun kv => if kv.1 = k then (kv.1, kv.2 ++ [id]) else kv)
  else cn ++ [(k, [id])]

/-- `HierarchicalGrid::add_node`. -/
def addNode (hp : HierarchicalGrid C) (pos : GridPos) : HierarchicalGrid C × Nat :=
  let id := hp.nodes.length
  ({ hp with
      nodes := hp.nodes ++ [pos]
      edges := hp.edges.insert id []
      clusterNodes := clusterPush hp.clusterNodes
        (pos.x.toNat / hp.clusterSize, pos.y.toNat / hp.clusterSize) id }, id)

/-- `HierarchicalGrid::add_edge`. -/
def addEdge (hp : HierarchicalGrid C) (src dst : Nat) (cost : C)
    (path : List GridPos) : HierarchicalGrid C :=
  { hp with
    edges := hp.edges.insert src ((hp.edges src).getD [] ++ [⟨dst, cost, path⟩]) }

/-- `HierarchicalGrid::create_entrance`. -/
def createEntrance [One C] (hp : HierarchicalGrid C) (startI endI fixed : Nat)
    (isVertical : Bool) (neighborFixed : Nat) : HierarchicalGrid C :=
  let mid := (startI + endI) / 2
  let pos1 : GridPos :=
    if isVertical then ⟨fixed, mid⟩ else ⟨mid, fixed⟩
  let pos2 : GridPos :=
    if isVertical then ⟨neighborFixed, mid⟩ else ⟨mid, neighborFixed⟩
  let r1 := addNode hp pos1
  let r2 := addNode r1.1 pos2
  addEdge (addEdge r2.1 r1.2 r2.2 1 [pos1, pos2]) r2.2 r1.2 1 [pos2, pos1]

/-- One index step of the `detect_entrances` scan. -/
def detectStep [One C] (fixed : Nat) (isVertical : Bool) (neighborCoord : Nat)
    (acc : HierarchicalGrid C × Option Nat) (i : Nat) :
    HierarchicalGrid C × Option Nat :=
  let c1x : Nat := if isVertical then fixed else i
  let c1y : Nat := if isVertical then i else fixed
  let c2x : Nat := if isVertical then neighborCoord else i
  let c2y : Nat := if isVertical then i else neighborCoord
  let passable := !acc.1.baseGrid.isBlocked c1x c1y && !acc.1.baseGrid.isBlocked c2x c2y
  if passable then
    match acc.2 with
    | some _ => acc
    | none => (acc.1, some i)
  else
    match acc.2 with
    | some s => (createEntrance acc.1 s (i - 1) fixed isVertical neighborCoord, none)
    | none => acc

/-- `HierarchicalGrid::detect_entrances`. -/
def detectEntrances [One C] (hp : HierarchicalGrid C) (fixed rangeStart rangeEnd : Nat)
    (isVertical : Bool) (neighborCoord : Nat) : HierarchicalGrid C :=
  let res := (List.range' rangeStart (rangeEnd - rangeStart)).foldl
    (detectStep fixed isVertical neighborCoord) (hp, none)
  match res.2 with
  | some s => createEntrance res.1 s (rangeEnd - 1) fixed isVertical neighborCoord
  | none => res.1

/-- `HierarchicalGrid::build_abstract_nodes`. -/
def buildAbstractNodes [One C] (hp : HierarchicalGrid C) : HierarchicalGrid C :=
  let w := hp.baseGrid.width
  let h := hp.baseGrid.height
  let cs := hp.clusterSize
  let clusterCols := (w + cs - 1) / cs
  let clusterRows := (h + cs - 1) / cs
  let hp1 := (List.range clusterRows).foldl (fun acc cy =>
    (List.range (clusterCols - 1)).foldl (fun acc2 cx =>
      let px := (cx + 1) * cs - 1
      let pxNext := px + 1
      if w ≤ pxNext then acc2
      else detectEntrances acc2 px (cy * cs) (min ((cy + 1) * cs) h) true pxNext)
      acc) hp
  (List.range (clusterRows - 1)).foldl (fun acc cy =>
    (List.range clusterCols).foldl (fun acc2 cx =>
      let py := (cy + 1) * cs - 1
      let pyNext := py + 1
      if h ≤ pyNext then acc2
      else detectEntrances acc2 py (cx * cs) (min ((cx + 1) * cs) w) false pyNext)
      acc) hp1

/-- `HierarchicalGrid::process_cluster`: intra-cluster A* between every
pair of the cluster's abstract nodes (Manhattan heuristic, default
config). -/
def processCluster [LinearOrderedCommRing C] (hp : HierarchicalGrid C) (sqrt2 : C)
    (fuel : Nat) (coords : Nat × Nat) : List (Nat × Nat × C × List GridPos) :=
  match clusterLookup hp.clusterNodes coords with
  | Option.none => []
  | Option.some ids =>
    if 2 ≤ ids.length then
      (List.range ids.length).flatMap (fun i =>
        (List.range' (i + 1) (ids.length - (i + 1))).flatMap (fun j =>
          let idA := ids.getD i 0
          let idB := ids.getD j 0
          let posA := hp.nodes.getD idA ⟨0, 0⟩
          let posB := hp.nodes.getD idB ⟨0, 0⟩
          match astar (hp.baseGrid.neighborsList sqrt2) manhattan posA posB
            ⟨none, .preferHigherG⟩ (fun _ => false) fuel with
          | Option.some r =>
            if r.status = .found then
              [(idA, idB, r.cost, r.path), (idB, idA, r.cost, r.path.reverse)]
            else []
          | Option.none => []))
    else []

/-- `HierarchicalGrid::build_intra_cluster_edges`.  The parallel and
serial branches of the source produce the same list (rayon's
`par_iter().flat_map().collect()` preserves input order), so a single
serial model covers both. -/
def buildIntraClusterEdges [LinearOrderedCommRing C] (hp : HierarchicalGrid C)
    (sqrt2 : C) (fuel : Nat) : HierarchicalGrid C :=
  let clusters := hp.clusterNodes.map (fun kv => kv.1)
  let newEdges := clusters.flatMap (processCluster hp sqrt2 fuel)
  newEdges.foldl (fun acc e => addEdge acc e.1 e.2.1 e.2.2.1 e.2.2.2) hp

/-- `HierarchicalGrid::new` (construction plus `preprocess`). -/
def HierarchicalGrid.new [LinearOrderedCommRing C] (baseGrid : Grid2D C)
    (clusterSize : Nat) (sqrt2 : C) (fuel : Nat) : HierarchicalGrid C :=
  buildIntraClusterEdges
    (buildAbstractNodes ⟨baseGrid, clusterSize, [], MapF.empty, []⟩) sqrt2 fuel

/-- Invariant of the hierarchical-grid construction: node positions are
passable, cluster membership lists hold valid ids, and every stored
edge has a concrete path from its source node's position to its target
node's position through passable cells. -/
structure HGInv [LinearOrderedAddCommGroup C] (hp : HierarchicalGrid C) : Prop where
  nodesPassable : ∀ p ∈ hp.nodes, hp.baseGrid.isBlocked p.x p.y = false
  clusterIds : ∀ kv ∈ hp.clusterNodes, ∀ id ∈ kv.2, id < hp.nodes.length
  edgeOk : ∀ src l, hp.edges src = some l → ∀ e ∈ l,
    e.target < hp.nodes.length ∧ src < hp.nodes.length ∧
    e.path.head? = hp.nodes[src]? ∧
    e.path.getLast? = hp.nodes[e.target]? ∧
    ∀ q ∈ e.path, hp.baseGrid.isBlocked q.x q.y = false

/-- The passability test of one border index in `detect_entrances`
(both cells on either side of the border are passable). -/
def entrancePair (g : Grid2D C) (fixed : Nat) (isVertical : Bool)
    (neighborCoord i : Nat) : Bool :=
  !g.isBlocked (if isVertical then fixed else i : Nat) (if isVertical then i else fixed : Nat) &&
  !g.isBlocked (if isVertical then neighborCoord else i : Nat)
    (if isVertical then i else neighborCoord : Nat)

/-! ## BudgetedPathfinder (`budget.rs`) -/

/-- `ComputeStatus` from `budget.rs`. -/
inductive ComputeStatus (N C : Type) where
  | notStarted
  | inProgress
  | complete (result : PathResult N C)
  deriving DecidableEq, Repr

/-- `BudgetedPathfinder` from `budget.rs` (its heap element `State` and
`Ord` are identical to `astar.rs`, so the same heap model is used). -/
structure BudgetedPathfinder (N C : Type) where
  openSet : List (HState N C)
  gScores : MapF N C
  cameFrom : MapF N N
  goal : Option N
  config : AStarConfig
  nodesExpanded : Nat
  iterations : Nat
  status : ComputeStatus N C
  lastPart : Option (PathResult N C)

/-- `BudgetedPathfinder::new`. -/
def BudgetedPathfinder.new (config : AStarConfig) : BudgetedPathfinder N C :=
  ⟨[], MapF.empty, MapF.empty, none, config, 0, 0, .notStarted, none⟩

/-- `BudgetedPathfinder::start`. -/
def BudgetedPathfinder.start [DecidableEq N] [LinearOrderedAddCommGroup C]
    (bp : BudgetedPathfinder N C) (s goal : N) (h : N → N → C) :
    BudgetedPathfinder N C :=
  { bp with
    openSet := [⟨s, h s goal, 0, 0⟩]
    gScores := MapF.empty.insert s 0
    cameFrom := MapF.empty
    nodesExpanded := 0
    iterations := 0
    lastPart := none
    goal := some goal
    status := .inProgress }

/-- `BudgetedPathfinder::reconstruct_path`: unlike the blocking kernel,
the cost is read back from `g_scores` at the node reconstruction started
from (the last element after the reverse), defaulting to 0. -/
def budgetReconstruct [DecidableEq N] [Zero C] (g : MapF N C) (came : MapF N N)
    (cur : N) (nodesExpanded : Nat) (status : PathStatus) (fuel : Nat) :
    Option (PathResult N C) :=
  (ancestorChain came fuel cur).map (fun l =>
    ⟨l.reverse, ((l.reverse.getLast?).bind g).getD 0, nodesExpanded, status⟩)

/-- The `while let Some(...) = self.open_set.pop()` loop of
`BudgetedPathfinder::step`, fuel-indexed, under the determinized tie
order of `popMax`.  `budgetHit k` models `start_time.elapsed() > budget`
at (global) iteration `k`; the check runs only when
`iterations % 10 == 0`.  On suspension the popped node is re-pushed
unchanged; here it is restored at the front of its tie class, so the
resumed pop returns it again — the real `BinaryHeap` push (`sift_up`
stops on non-strict comparisons) may instead leave it below an
equal-priority peer.  See `budgetStepLoopND` for the faithful
nondeterministic-tie model.  The expansion body is the same relaxation
closure as `astar` (budget.rs lines 128-147), so it reuses `relax`. -/
def budgetStepLoop [DecidableEq N] [LinearOrderedAddCommGroup C]
    (adj : N → List (N × C)) (h : N → N → C) (budgetHit : Nat → Bool) (goal : N) :
    Nat → BudgetedPathfinder N C → Option (Bool × BudgetedPathfinder N C)
  | 0, _ => none
  | fuel + 1, bp =>
    match popMax bp.openSet with
    | Option.none =>
      some (true, { bp with
        status := .complete ⟨[], 0, bp.nodesExpanded, .notFound⟩
        lastPart := none })
    | Option.some (s, rest) =>
      let iters := bp.iterations + 1
      if iters % 10 == 0 && budgetHit iters then
        match budgetReconstruct bp.gScores bp.cameFrom s.node bp.nodesExpanded
          .partTimeout (fuel + 1) with
        | Option.none => none
        | Option.some pr =>
          some (false, { bp with
            openSet := s :: rest
            iterations := iters
            lastPart := some pr })
      else if s.node = goal then
        match budgetReconstruct bp.gScores bp.cameFrom s.node bp.nodesExpanded
          .found (fuel + 1) with
        | Option.none => none
        | Option.some res =>
          some (true, { bp with
            openSet := rest
            iterations := iters
            status := .complete res
            lastPart := some res })
      else if isStale bp.gScores s then
        budgetStepLoop adj h budgetHit goal fuel
          { bp with openSet := rest, iterations := iters }
      else
        let sst := (adj s.node).foldl (relax h bp.config goal s.node s.gScore)
          ⟨rest, bp.gScores, bp.cameFrom, bp.nodesExpanded + 1, iters⟩
        budgetStepLoop adj h budgetHit goal fuel
          { bp with
            openSet := sst.openSet
            gScores := sst.gScores
            cameFrom := sst.cameFrom
            nodesExpanded := sst.nodesExpanded
            iterations := sst.iterations }

/-- `BudgetedPathfinder::step` (the guards before the loop). -/
def budgetStep [DecidableEq N] [LinearOrderedAddCommGroup C]
    (adj : N → List (N × C)) (h : N → N → C) (budgetHit : Nat → Bool)
    (bp : BudgetedPathfinder N C) (fuel : Nat) :
    Option (Bool × BudgetedPathfinder N C) :=
  match bp.status with
  | .complete _ => some (true, bp)
  | _ =>
    match bp.goal with
    | Option.none => some (true, bp)
    | Option.some goal => budgetStepLoop adj h budgetHit goal fuel bp

/-- `BudgetedPathfinder::take_result`. -/
def BudgetedPathfinder.takeResult (bp : BudgetedPathfinder N C) :
    Option (PathResult N C) :=
  match bp.status with
  | .complete res => some res
  | _ => none

/-- Driving `step` repeatedly until it returns `true` (per-step budget
oracles indexed by the remaining step count). -/
def driveSteps [DecidableEq N] [LinearOrderedAddCommGroup C]
    (adj : N → List (N × C)) (h : N → N → C) (oracle : Nat → Nat → Bool)
    (innerFuel : Nat) : Nat → BudgetedPathfinder N C →
    Option (BudgetedPathfinder N C)
  | 0, _ => none
  | k + 1, bp =>
    match budgetStep adj h (oracle k) bp innerFuel with
    | Option.none => none
    | Option.some (true, bp2) => some bp2
    | Option.some (false, bp2) => driveSteps adj h oracle innerFuel k bp2

/-- The cost-alignment invariant for C2: recorded g values bound heap
g values from below, the best recorded g of the goal is witnessed on the
frontier, and goal entries carry `f = g + h(goal, goal)`. -/
structure CostInv [LinearOrderedAddCommGroup C] (h : N → N → C) (goal : N)
    (openSet : List (HState N C)) (gScores : MapF N C) : Prop where
  heapDom : ∀ e ∈ openSet, ∃ v, gScores e.node = some v ∧ v ≤ e.gScore
  goalWitness : ∀ v, gScores goal = some v →
    ∃ e ∈ openSet, e.node = goal ∧ e.gScore = v
  goalCost : ∀ e ∈ openSet, e.node = goal → e.cost = e.gScore + h goal goal

/-! ## Theta* (`algorithms/theta.rs`) -/

/-- The relaxation closure of `theta_star` (theta.rs lines 109-160):
with line of sight from the popped node's parent, relax through the
parent with the heuristic as distance; otherwise relax the plain edge. -/
def thetaRelax [DecidableEq N] [LinearOrderedAddCommGroup C] (h : N → N → C)
    (canTrav : N → N → Bool) (cfg : AStarConfig)
    (goal current parentOfCurrent : N) (currentG : C)
    (st : SearchState N C) (nc : N × C) : SearchState N C :=
  let newPG : N × C :=
    if parentOfCurrent ≠ current ∧ canTrav parentOfCurrent nc.1 = true then
      (parentOfCurrent, ((st.gScores parentOfCurrent).getD 0) + h parentOfCurrent nc.1)
    else (current, currentG + nc.2)
  let proceed : Bool :=
    match st.gScores nc.1 with
    | some existing => decide (newPG.2 < existing)
    | none => true
  if proceed then
    { st with
      cameFrom := st.cameFrom.insert nc.1 newPG.1
      gScores := st.gScores.insert nc.1 newPG.2
      openSet := ⟨nc.1, newPG.2 + h nc.1 goal, newPG.2,
        tieValue cfg.tieBreaking newPG.2⟩ :: st.openSet }
  else st

/-- The reconstruction chain of `theta.rs`: like `ancestorChain` but the
walk also stops when a node's parent is the node itself (the start
self-loop sentinel). -/
def thetaChain [DecidableEq N] (came : MapF N N) : Nat → N → Option (List N)
  | 0, _ => none
  | f + 1, cur =>
    match came cur with
    | none => some [cur]
    | some p =>
      if p = cur then some [cur]
      else (thetaChain came f p).map (fun l => cur :: l)

/-- `reconstruct_path` from `theta.rs`. -/
def thetaReconstruct [DecidableEq N] (came : MapF N N) (cur : N) (cost : C)
    (nodesExpanded : Nat) (status : PathStatus) (fuel : Nat) :
    Option (PathResult N C) :=
  (thetaChain came fuel cur).map (fun l => ⟨l.reverse, cost, nodesExpanded, status⟩)

/-- The main loop of `theta_star`, fuel-indexed. -/
def thetaLoop [DecidableEq N] [LinearOrderedAddCommGroup C] (adj : N → List (N × C))
    (h : N → N → C) (canTrav : N → N → Bool) (cfg : AStarConfig)
    (timeoutHit : Nat → Bool) (goal : N) :
    Nat → SearchState N C → Option (PathResult N C)
  | 0, _ => none
  | fuel + 1, st =>
    match popMax st.openSet with
    | none => some ⟨[], 0, st.nodesExpanded, .notFound⟩
    | some (s, rest) =>
      let iters := st.iterations + 1
      let st1 : SearchState N C := { st with openSet := rest, iterations := iters }
      if overMaxIter cfg iters then
        thetaReconstruct st1.cameFrom s.node s.gScore st1.nodesExpanded
          .partMaxIter (fuel + 1)
      else if timeoutHit iters then
        thetaReconstruct st1.cameFrom s.node s.gScore st1.nodesExpanded
          .partTimeout (fuel + 1)
      else if s.node = goal then
        thetaReconstruct st1.cameFrom s.node s.gScore st1.nodesExpanded
          .found (fuel + 1)
      else if isStale st1.gScores s then
        thetaLoop adj h canTrav cfg timeoutHit goal fuel st1
      else
        let parentOfCurrent := (st1.cameFrom s.node).getD s.node
        let st2 := (adj s.node).foldl
          (thetaRelax h canTrav cfg goal s.node parentOfCurrent s.gScore)
          { st1 with nodesExpanded := st1.nodesExpanded + 1 }
        thetaLoop adj h canTrav cfg timeoutHit goal fuel st2

/-- Initial search state of `theta_star`: like `astar` but the start's
parent is the start itself. -/
def thetaInit [DecidableEq N] [LinearOrderedAddCommGroup C] (h : N → N → C)
    (start goal : N) : SearchState N C :=
  { openSet := [⟨start, h start goal, 0, 0⟩]
    gScores := MapF.empty.insert start 0
    cameFrom := MapF.empty.insert start start
    nodesExpanded := 0
    iterations := 0 }

/-- `theta_star` from `algorithms/theta.rs`, fuel-indexed. -/
def thetaStar [DecidableEq N] [LinearOrderedAddCommGroup C] (adj : N → List (N × C))
    (h : N → N → C) (canTrav : N → N → Bool) (start goal : N) (cfg : AStarConfig)
    (timeoutHit : Nat → Bool) (fuel : Nat) : Option (PathResult N C) :=
  thetaLoop adj h canTrav cfg timeoutHit goal fuel (thetaInit h start goal)

/-- Loop invariant of `theta_star` on a graph where the start has line
of sight to every emitted neighbor: every recorded node has parent
`start` and `g = h start ·`, frontier entries carry the recorded g, a
recorded goal is witnessed on the frontier, and recorded nodes are
frontier-witnessed or fully expanded. -/
structure ThetaInv [DecidableEq N] [LinearOrderedAddCommGroup C]
    (adj : N → List (N × C)) (h : N → N → C) (start goal : N) (S : List N)
    (st : SearchState N C) : Prop where
  cameStart : st.cameFrom start = some start
  gStart : st.gScores start = some 0
  gVal : ∀ n v, st.gScores n = some v → v = h start n
  cameDom : ∀ n, st.gScores n ≠ none → st.cameFrom n = some start
  openG : ∀ e ∈ st.openSet, st.gScores e.node = some e.gScore
  gInS : ∀ n, st.gScores n ≠ none → n ∈ S
  goalW : st.gScores goal ≠ none → ∃ e ∈ st.openSet, e.node = goal
  closedOrOpen : ∀ n, st.gScores n ≠ none →
    (∃ e ∈ st.openSet, e.node = n) ∨ ∀ nc ∈ adj n, st.gScores nc.1 ≠ none

/-- `ThetaInv` weakened during the expansion of `cur`: `cur` itself is
exempt from the frontier-or-expanded alternative. -/
structure ThetaExpInv [DecidableEq N] [LinearOrderedAddCommGroup C]
    (adj : N → List (N × C)) (h : N → N → C) (start goal : N) (S : List N)
    (cur : N) (st : SearchState N C) : Prop where
  cameStart : st.cameFrom start = some start
  gStart : st.gScores start = some 0
  gVal : ∀ n v, st.gScores n = some v → v = h start n
  cameDom : ∀ n, st.gScores n ≠ none → st.cameFrom n = some start
  openG : ∀ e ∈ st.openSet, st.gScores e.node = some e.gScore
  gInS : ∀ n, st.gScores n ≠ none → n ∈ S
  goalW : st.gScores goal ≠ none → ∃ e ∈ st.openSet, e.node = goal
  closedOrOpen : ∀ n, st.gScores n ≠ none → n = cur ∨
    (∃ e ∈ st.openSet, e.node = n) ∨ ∀ nc ∈ adj n, st.gScores nc.1 ≠ none

/-- Termination measure for the Theta* run on the all-line-of-sight
graph: frontier size plus twice the unrecorded portion of `S`. -/
def thetaMeasure [DecidableEq N] (S : List N) (st : SearchState N C) : Nat :=
  st.openSet.length + 2 * (S.filter (fun n => (st.gScores n).isNone)).length

/-! ## Nondeterministic heap semantics

`BinaryHeap`'s `Ord` on `State` compares only `(cost, tie_breaker)`, so
equal-priority elements are returned in an order that depends on the
heap's internal arrangement (e.g. `push` after `pop` leaves the
re-pushed element below an equal-priority peer, because `sift_up` stops
on non-strict comparisons).  `popND` models `pop` faithfully as a
choice, by an oracle index, of ANY maximal-priority element: every
arrangement-determined behaviour of the real heap corresponds to some
oracle. -/

/-- Remove the element at index `i`. -/
def popAt {α : Type} (l : List α) (i : Nat) : Option (α × List α) :=
  match l[i]? with
  | some a => some (a, l.eraseIdx i)
  | none => none

/-- The picked element is maximal: nothing in the heap has strictly
higher priority. -/
def maxOk [LinearOrder C] (l : List (HState N C)) (a : HState N C) : Bool :=
  l.all (fun x => !(higherPriority x a))

/-- `BinaryHeap::pop` with nondeterministic tie resolution: the oracle
index selects any maximal element (with a first-maximal fallback, so
that every oracle describes an admissible heap behaviour). -/
def popND [LinearOrder C] (l : List (HState N C)) (pick : Nat) :
    Option (HState N C × List (HState N C)) :=
  match popAt l pick with
  | some (a, rest) => if maxOk l a then some (a, rest) else popMax l
  | none => popMax l

/-- The `astar` main loop under nondeterministic tie resolution; the
choice list doubles as fuel, one entry consumed per pop. -/
def astarLoopND [DecidableEq N] [LinearOrderedAddCommGroup C]
    (adj : N → List (N × C)) (h : N → N → C) (cfg : AStarConfig)
    (timeoutHit : Nat → Bool) (goal : N) :
    List Nat → SearchState N C → Option (PathResult N C)
  | [], _ => none
  | c :: cs, st =>
    match popND st.openSet c with
    | none => some ⟨[], 0, st.nodesExpanded, .notFound⟩
    | some (s, rest) =>
      let iters := st.iterations + 1
      let st1 : SearchState N C := { st with openSet := rest, iterations := iters }
      if overMaxIter cfg iters then
        reconstructPath st1.cameFrom s.node s.gScore st1.nodesExpanded
          .partMaxIter (cs.length + 1)
      else if timeoutHit iters then
        reconstructPath st1.cameFrom s.node s.gScore st1.nodesExpanded
          .partTimeout (cs.length + 1)
      else if s.node = goal then
        reconstructPath st1.cameFrom s.node s.gScore st1.nodesExpanded
          .found (cs.length + 1)
      else if isStale st1.gScores s then
        astarLoopND adj h cfg timeoutHit goal cs st1
      else
        let st2 := (adj s.node).foldl (relax h cfg goal s.node s.gScore)
          { st1 with nodesExpanded := st1.nodesExpanded + 1 }
        astarLoopND adj h cfg timeoutHit goal cs st2

/-- `astar` under nondeterministic tie resolution. -/
def astarND [DecidableEq N] [LinearOrderedAddCommGroup C]
    (adj : N → List (N × C)) (h : N → N → C) (start goal : N)
    (cfg : AStarConfig) (timeoutHit : Nat → Bool) (choices : List Nat) :
    Option (PathResult N C) :=
  astarLoopND adj h cfg timeoutHit goal choices (initState h start goal)

/-- The `BudgetedPathfinder::step` loop under nondeterministic tie
resolution.  As in the source, the suspended node is pushed back into
the heap; in this multiset semantics its list position does not
restrict which maximal element the resumed pop may return. -/
def budgetStepLoopND [DecidableEq N] [LinearOrderedAddCommGroup C]
    (adj : N → List (N × C)) (h : N → N → C) (budgetHit : Nat → Bool) (goal : N) :
    List Nat → BudgetedPathfinder N C → Option (Bool × BudgetedPathfinder N C)
  | [], _ => none
  | c :: cs, bp =>
    match popND bp.openSet c with
    | Option.none =>
      some (true, { bp with
        status := .complete ⟨[], 0, bp.nodesExpanded, .notFound⟩
        lastPart := none })
    | Option.some (s, rest) =>
      let iters := bp.iterations + 1
      if iters % 10 == 0 && budgetHit iters then
        match budgetReconstruct bp.gScores bp.cameFrom s.node bp.nodesExpanded
          .partTimeout (cs.length + 1) with
        | Option.none => none
        | Option.some pr =>
          some (false, { bp with
            openSet := s :: rest
            iterations := iters
            lastPart := some pr })
      else if s.node = goal then
        match budgetReconstruct bp.gScores bp.cameFrom s.node bp.nodesExpanded
          .found (cs.length + 1) with
        | Option.none => none
        | Option.some res =>
          some (true, { bp with
            openSet := rest
            iterations := iters
            status := .complete res
            lastPart := some res })
      else if isStale bp.gScores s then
        budgetStepLoopND adj h budgetHit goal cs
          { bp with openSet := rest, iterations := iters }
      else
        let sst := (adj s.node).foldl (relax h bp.config goal s.node s.gScore)
          ⟨rest, bp.gScores, bp.cameFrom, bp.nodesExpanded + 1, iters⟩
        budgetStepLoopND adj h budgetHit goal cs
          { bp with
            openSet := sst.openSet
            gScores := sst.gScores
            cameFrom := sst.cameFrom
            nodesExpanded := sst.nodesExpanded
            iterations := sst.iterations }

/-- `BudgetedPathfinder::step` under nondeterministic tie resolution. -/
def budgetStepND [DecidableEq N] [LinearOrderedAddCommGroup C]
    (adj : N → List (N × C)) (h : N → N → C) (budgetHit : Nat → Bool)
    (bp : BudgetedPathfinder N C) (choices : List Nat) :
    Option (Bool × BudgetedPathfinder N C) :=
  match bp.status with
  | .complete _ => some (true, bp)
  | _ =>
    match bp.goal with
    | Option.none => some (true, bp)
    | Option.some goal => budgetStepLoopND adj h budgetHit goal choices bp

/-- Driving `step` to completion under nondeterministic tie resolution
(per-step choice lists and budget oracles, indexed by the remaining
step count). -/
def driveStepsND [DecidableEq N] [LinearOrderedAddCommGroup C]
    (adj : N → List (N × C)) (h : N → N → C) (oracle : Nat → List Nat)
    (budgetOracle : Nat → Nat → Bool) : Nat → BudgetedPathfinder N C →
    Option (BudgetedPathfinder N C)
  | 0, _ => none
  | k + 1, bp =>
    match budgetStepND adj h (budgetOracle k) bp (oracle k) with
    | Option.none => none
    | Option.some (true, bp2) => some bp2
    | Option.some (false, bp2) => driveStepsND adj h oracle budgetOracle k bp2

/-! ## Theorems -/

/-! ### Heap-model lemmas -/

theorem popMax_eq_none_iff [LinearOrder C] (l : List (HState N C)) :
    popMax l = none ↔ l = [] := by
  cases l with
  | nil => simp [popMax]
  | cons x xs =>
    simp only [popMax]
    cases hx : popMax xs with
    | none => simp
    | some p => cases p with
      | mk m rest => by_cases hm : higherPriority m x <;> simp [hm]

theorem popMax_mem [LinearOrder C] {l : List (HState N C)} {s : HState N C}
    {rest : List (HState N C)} (hp : popMax l = some (s, rest)) : s ∈ l := by
  induction l generalizing s rest with
  | nil => simp [popMax] at hp
  | cons x xs ih =>
    simp only [popMax] at hp
    cases hx : popMax xs with
    | none => rw [hx] at hp; simp at hp; simp [hp.1]
    | some p =>
      obtain ⟨m, r⟩ := p
      rw [hx] at hp
      by_cases hm : higherPriority m x
      · simp [hm] at hp
        exact List.mem_cons_of_mem x (hp.1 ▸ ih hx)
      · simp [hm] at hp
        simp [hp.1]

theorem popMax_rest_mem [LinearOrder C] {l : List (HState N C)} {s : HState N C}
    {rest : List (HState N C)} (hp : popMax l = some (s, rest)) :
    ∀ x ∈ rest, x ∈ l := by
  induction l generalizing s rest with
  | nil => simp [popMax] at hp
  | cons x xs ih =>
    simp only [popMax] at hp
    cases hx : popMax xs with
    | none => rw [hx] at hp; simp at hp; simp [hp.2]
    | some p =>
      obtain ⟨m, r⟩ := p
      rw [hx] at hp
      by_cases hm : higherPriority m x
      · simp [hm] at hp
        intro y hy
        rw [← hp.2] at hy
        rcases List.mem_cons.mp hy with h1 | h2
        · simp [h1]
        · exact List.mem_cons_of_mem x (ih hx y h2)
      · simp [hm] at hp
        intro y hy
        exact List.mem_cons_of_mem x (hp.2 ▸ hy)

/-! ### Relaxation frontier-membership lemmas -/

theorem relax_openSet_mem [DecidableEq N] [LinearOrderedAddCommGroup C]
    {h : N → N → C} {cfg : AStarConfig} {goal current : N} {currentG : C}
    {st : SearchState N C} {nc : N × C} {s : HState N C}
    (hs : s ∈ (relax h cfg goal current currentG st nc).openSet) :
    s ∈ st.openSet ∨ s.node = nc.1 := by
  unfold relax at hs
  by_cases hp : (match st.gScores nc.1 with
    | some existing => decide (currentG + nc.2 < existing)
    | none => true) = true
  · rw [if_pos hp] at hs
    rcases List.mem_cons.mp hs with h1 | h2
    · right; rw [h1]
    · left; exact h2
  · rw [if_neg hp] at hs
    left; exact hs

theorem foldl_relax_openSet_mem [DecidableEq N] [LinearOrderedAddCommGroup C]
    {h : N → N → C} {cfg : AStarConfig} {goal current : N} {currentG : C}
    {l : List (N × C)} {st : SearchState N C} {s : HState N C}
    (hs : s ∈ (l.foldl (relax h cfg goal current currentG) st).openSet) :
    s ∈ st.openSet ∨ ∃ c, (s.node, c) ∈ l := by
  induction l generalizing st with
  | nil => exact Or.inl hs
  | cons nc tl ih =>
    rcases ih hs with h1 | ⟨c, h2⟩
    · rcases relax_openSet_mem h1 with h3 | h4
      · exact Or.inl h3
      · exact Or.inr ⟨nc.2, by rw [h4]; simp⟩
    · exact Or.inr ⟨c, List.mem_cons_of_mem nc h2⟩

/-- C4 (amended): in the A* expansion step, a neighbor is pushed with
`f = tentative_g + h` (parent and best_g recorded) exactly when
`tentative_g` IS strictly less than the known best_g for that neighbor,
or no best_g exists for it; otherwise the state is left unchanged. -/
theorem astar_relax_push_characterization [DecidableEq N] [LinearOrderedAddCommGroup C]
    (h : N → N → C) (cfg : AStarConfig) (goal current : N) (currentG : C)
    (st : SearchState N C) (n : N) (c : C) :
    (pushCond st n (currentG + c) →
      relax h cfg goal current currentG st (n, c) =
        { st with
          cameFrom := st.cameFrom.insert n current
          gScores := st.gScores.insert n (currentG + c)
          openSet :=
            ⟨n, currentG + c + h n goal, currentG + c,
              tieValue cfg.tieBreaking (currentG + c)⟩ :: st.openSet }) ∧
    (¬ pushCond st n (currentG + c) →
      relax h cfg goal current currentG st (n, c) = st) := by
  constructor
  · intro hp
    unfold relax
    rcases hp with hnone | ⟨e, he, hlt⟩
    · simp [hnone]
    · simp [he, hlt]
  · intro hp
    unfold relax
    rw [pushCond, not_or] at hp
    obtain ⟨h1, h2⟩ := hp
    match hg : st.gScores n with
    | none => exact absurd hg h1
    | some e =>
      push_neg at h2
      have := h2 e hg
      simp [hg, not_lt.mpr this]

/-- Witness for C4's amended theorem at a concrete input. -/
theorem astar_relax_push_characterization_witness :
    (pushCond (C := ℤ) ⟨[], MapF.empty, MapF.empty, 0, 0⟩ (3 : ℤ) ((2 : ℤ) + 3)) ∧
    relax (fun _ _ => (0 : ℤ)) ⟨none, .noTie⟩ (9 : ℤ) 0 2
        ⟨[], MapF.empty, MapF.empty, 0, 0⟩ ((3 : ℤ), (3 : ℤ)) =
      { cameFrom := (MapF.empty (N := ℤ)).insert 3 0
        gScores := (MapF.empty (N := ℤ)).insert 3 ((2 : ℤ) + 3)
        openSet := [⟨3, (2 : ℤ) + 3 + 0, (2 : ℤ) + 3, tieValue .noTie ((2 : ℤ) + 3)⟩]
        nodesExpanded := 0
        iterations := 0 } := by
  have hcond : pushCond (C := ℤ) ⟨[], MapF.empty, MapF.empty, 0, 0⟩ (3 : ℤ) ((2 : ℤ) + 3) :=
    Or.inl rfl
  exact ⟨hcond,
    (astar_relax_push_characterization (fun _ _ => (0 : ℤ)) ⟨none, .noTie⟩ 9 0 2
      ⟨[], MapF.empty, MapF.empty, 0, 0⟩ 3 3).1 hcond⟩

/-- C4 counterexample: the claim as stated (push exactly when
`tentative_g` is NOT strictly less than the known best_g) fails: with
best_g = 5 and tentative_g = 2 + 3 = 5 (not strictly less), the source
does not push, leaving the frontier unchanged. -/
theorem astar_relax_claim_counterexample :
    (MapF.empty.insert (3 : ℤ) (5 : ℤ)) 3 = some 5 ∧
    ¬ ((2 : ℤ) + 3 < 5) ∧
    (relax (fun _ _ => (0 : ℤ)) ⟨none, .noTie⟩ 9 0 2
        ⟨[], MapF.empty.insert (3 : ℤ) (5 : ℤ), MapF.empty, 0, 0⟩ (3, 3)).openSet = [] := by
  refine ⟨rfl, by decide, ?_⟩
  unfold relax
  simp [MapF.insert]

/-- C10: `set_blocked`/`set_cost` with out-of-bounds coordinates leave
the cells array entirely unchanged (and cannot panic: the bounds guard
precedes the write); in-bounds coordinates rewrite exactly the addressed
row-major cell and no other. -/
theorem grid2d_set_frame [One C] (g : Grid2D C) (x y : Nat) (b : Bool) (c : C) :
    ((g.width ≤ x ∨ g.height ≤ y) →
      (g.setBlocked x y b).cells = g.cells ∧ (g.setCost x y c).cells = g.cells) ∧
    (x < g.width → y < g.height →
      (g.setBlocked x y b).cells =
        g.cells.set (y * g.width + x) (if b then .blocked else .passable 1) ∧
      (g.setCost x y c).cells = g.cells.set (y * g.width + x) (.passable c) ∧
      ∀ j, j ≠ y * g.width + x →
        (g.setBlocked x y b).cells.getD j .blocked = g.cells.getD j .blocked ∧
        (g.setCost x y c).cells.getD j .blocked = g.cells.getD j .blocked) := by
  constructor
  · intro hoob
    have hng : ¬ (x < g.width ∧ y < g.height) := by
      rcases hoob with hx | hy
      · exact fun hc => absurd hc.1 (not_lt.mpr hx)
      · exact fun hc => absurd hc.2 (not_lt.mpr hy)
    rw [Grid2D.setBlocked, Grid2D.setCost, if_neg hng, if_neg hng]
    exact ⟨rfl, rfl⟩
  · intro hx hy
    have hg : x < g.width ∧ y < g.height := ⟨hx, hy⟩
    rw [Grid2D.setBlocked, Grid2D.setCost, if_pos hg, if_pos hg]
    refine ⟨rfl, rfl, fun j hj => ?_⟩
    constructor <;>
      simp [List.getD, List.getElem?_set_ne (Ne.symm hj)]

/-- Witness for C10 at a concrete grid. -/
theorem grid2d_set_frame_witness :
    ((2 : Nat) < 3 ∧ (1 : Nat) < 2) ∧
    ((Grid2D.new (C := ℤ) 3 2 .never).setBlocked 2 1 true).cells =
      (Grid2D.new (C := ℤ) 3 2 .never).cells.set (1 * 3 + 2) .blocked := by
  refine ⟨⟨by decide, by decide⟩, ?_⟩
  have := (grid2d_set_frame (Grid2D.new (C := ℤ) 3 2 .never) 2 1 true 0).2
    (by decide) (by decide)
  simpa using this.1

/-- Nodes emitted by `Grid2D::neighbors` are never blocked (the visit is
guarded by `!is_blocked`). -/
theorem neighborsList_not_blocked [Zero C] [Mul C] {g : Grid2D C} {sqrt2 : C}
    {p m : GridPos} {c : C} (hm : (m, c) ∈ g.neighborsList sqrt2 p) :
    g.isBlocked m.x m.y = false := by
  unfold Grid2D.neighborsList at hm
  rcases List.mem_append.mp hm with hcard | hdiag
  · obtain ⟨d, _, hd⟩ := List.mem_filterMap.mp hcard
    by_cases hb : g.isBlocked (p.x + d.1) (p.y + d.2)
    · simp [hb] at hd
    · simp [hb] at hd
      rw [← hd.1]
      simpa using hb
  · by_cases hdm : g.diagonalMovement ≠ .never
    · rw [if_pos hdm] at hdiag
      obtain ⟨d, _, hd⟩ := List.mem_filterMap.mp hdiag
      by_cases hb : g.isBlocked (p.x + d.1) (p.y + d.2)
      · simp [hb] at hd
      · by_cases ha : diagAllowed g p d.1 d.2
        · simp [hb, ha] at hd
          rw [← hd.1]
          simpa using hb
        · simp [hb, ha] at hd
    · rw [if_neg hdm] at hdiag
      simp at hdiag

/-- If the goal can never be emitted by the adjacency function and is
not on the frontier, a limit-free A* run can only drain the frontier:
any result it returns is `NotFound` with an empty path and zero cost. -/
theorem astarLoop_goal_unreachable [DecidableEq N] [LinearOrderedAddCommGroup C]
    {adj : N → List (N × C)} {h : N → N → C} {tb : TieBreaking}
    {timeoutHit : Nat → Bool} {goal : N} {fuel : Nat} {st : SearchState N C}
    {r : PathResult N C}
    (hto : ∀ k, timeoutHit k = false)
    (hadj : ∀ n m c, (m, c) ∈ adj n → m ≠ goal)
    (hopen : ∀ s ∈ st.openSet, s.node ≠ goal)
    (hrun : astarLoop adj h ⟨none, tb⟩ timeoutHit goal fuel st = some r) :
    r.status = .notFound ∧ r.path = [] ∧ r.cost = 0 := by
  induction fuel generalizing st with
  | zero => simp [astarLoop] at hrun
  | succ fuel ih =>
    rw [astarLoop] at hrun
    cases hpop : popMax st.openSet with
    | none =>
      rw [hpop] at hrun
      simp at hrun
      rw [← hrun]
      exact ⟨rfl, rfl, rfl⟩
    | some p =>
      obtain ⟨s, rest⟩ := p
      rw [hpop] at hrun
      have hsg : s.node ≠ goal := hopen s (popMax_mem hpop)
      simp only [overMaxIter, hto, if_neg, Bool.false_eq_true, if_false] at hrun
      rw [if_neg hsg] at hrun
      by_cases hstale : isStale st.gScores s = true
      · rw [if_pos hstale] at hrun
        exact ih (fun s2 hs2 => hopen s2 (popMax_rest_mem hpop s2 hs2)) hrun
      · rw [if_neg hstale] at hrun
        refine ih ?_ hrun
        intro s2 hs2
        rcases foldl_relax_openSet_mem hs2 with h1 | ⟨c, h2⟩
        · exact hopen s2 (popMax_rest_mem hpop s2 h1)
        · exact hadj s.node s2.node c h2

/-- C3 (amended): if the GOAL cell is blocked or out of bounds and the
start differs from the goal, then any terminating limit-free `astar` run
on the grid returns `NotFound` with an empty path.  (A blocked or
out-of-bounds START gives no such guarantee, see the counterexample.) -/
theorem astar_goal_blocked_not_found [LinearOrderedAddCommGroup C] [Mul C]
    (g : Grid2D C) (sqrt2 : C) (h : GridPos → GridPos → C) (start goal : GridPos)
    (tb : TieBreaking) (fuel : Nat) (r : PathResult GridPos C)
    (hblock : g.isBlocked goal.x goal.y = true)
    (hne : start ≠ goal)
    (hrun : astar (g.neighborsList sqrt2) h start goal ⟨none, tb⟩
      (fun _ => false) fuel = some r) :
    r.status = .notFound ∧ r.path = [] := by
  have hadj : ∀ n m c, (m, c) ∈ g.neighborsList sqrt2 n → m ≠ goal := by
    intro n m c hm heq
    rw [heq] at hm
    rw [neighborsList_not_blocked hm] at hblock
    exact Bool.false_ne_true hblock
  have hopen : ∀ s ∈ (initState (C := C) h start goal).openSet, s.node ≠ goal := by
    intro s hs
    simp [initState] at hs
    rw [hs]
    exact hne
  have := astarLoop_goal_unreachable (fun _ => rfl) hadj hopen hrun
  exact ⟨this.1, this.2.1⟩

/-- Witness for C3's amended theorem: a 2x1 grid with the goal blocked. -/
theorem astar_goal_blocked_not_found_witness :
    ((Grid2D.new (C := ℤ) 2 1 .never).setBlocked 1 0 true).isBlocked 1 0 = true ∧
    (⟨0, 0⟩ : GridPos) ≠ ⟨1, 0⟩ ∧
    ∃ r : PathResult GridPos ℤ,
      astar (((Grid2D.new (C := ℤ) 2 1 .never).setBlocked 1 0 true).neighborsList 1)
        (fun _ _ => 0) ⟨0, 0⟩ ⟨1, 0⟩ ⟨none, .preferHigherG⟩ (fun _ => false) 10 = some r ∧
      r.status = .notFound ∧ r.path = [] := by
  refine ⟨by decide, by decide, ⟨⟨[], 0, 1, .notFound⟩, by decide, ?_⟩⟩
  exact astar_goal_blocked_not_found
    ((Grid2D.new (C := ℤ) 2 1 .never).setBlocked 1 0 true) 1 (fun _ _ => 0)
    ⟨0, 0⟩ ⟨1, 0⟩ .preferHigherG 10 ⟨[], 0, 1, .notFound⟩
    (by decide) (by decide) (by decide)

/-- C3 counterexample: with the START cell blocked, `astar` still finds
and returns a path (status `Found`, non-empty path), because `neighbors`
only filters blocked target cells; the claim predicts `NotFound` with an
empty path. -/
theorem astar_blocked_start_found_counterexample :
    ((Grid2D.new (C := ℤ) 2 1 .never).setBlocked 0 0 true).isBlocked 0 0 = true ∧
    astar (((Grid2D.new (C := ℤ) 2 1 .never).setBlocked 0 0 true).neighborsList 1)
        (fun _ _ => 0) ⟨0, 0⟩ ⟨1, 0⟩ ⟨none, .preferHigherG⟩ (fun _ => false) 10 =
      some ⟨[⟨0, 0⟩, ⟨1, 0⟩], 1, 1, .found⟩ := by decide

theorem MapF.insert_lookup_eq [DecidableEq N] (m : MapF N V) (k : N) (v : V) :
    (m.insert k v) k = some v := by
  simp [MapF.insert]

theorem MapF.insert_lookup_ne [DecidableEq N] (m : MapF N V) (k : N) (v : V)
    {n : N} (h : n ≠ k) : (m.insert k v) n = m n := by
  simp [MapF.insert, h]

/-! ### A* invariant preservation -/

theorem relax_case_split [DecidableEq N] [LinearOrderedAddCommGroup C]
    (h : N → N → C) (cfg : AStarConfig) (goal current : N) (currentG : C)
    (st : SearchState N C) (nc : N × C) :
    (pushCond st nc.1 (currentG + nc.2) ∧
      relax h cfg goal current currentG st nc =
        { st with
          cameFrom := st.cameFrom.insert nc.1 current
          gScores := st.gScores.insert nc.1 (currentG + nc.2)
          openSet :=
            ⟨nc.1, currentG + nc.2 + h nc.1 goal, currentG + nc.2,
              tieValue cfg.tieBreaking (currentG + nc.2)⟩ :: st.openSet }) ∨
    (¬ pushCond st nc.1 (currentG + nc.2) ∧
      relax h cfg goal current currentG st nc = st) := by
  unfold relax
  cases hg : st.gScores nc.1 with
  | none =>
    left
    refine ⟨Or.inl hg, ?_⟩
    simp [hg]
  | some e =>
    by_cases hlt : currentG + nc.2 < e
    · left
      refine ⟨Or.inr ⟨e, hg, hlt⟩, ?_⟩
      simp [hg, hlt]
    · right
      constructor
      · rintro (h1 | ⟨e2, he2, hlt2⟩)
        · rw [hg] at h1; exact Option.noConfusion h1
        · rw [hg] at he2
          exact hlt (Option.some_injective _ he2 ▸ hlt2)
      · simp [hg, hlt]

theorem relax_preserves_inv [DecidableEq N] [LinearOrderedAddCommGroup C]
    {adj : N → List (N × C)} {start : N} {h : N → N → C} {cfg : AStarConfig}
    {goal current : N} {currentG : C} {st : SearchState N C} {nc : N × C}
    (inv : AStarInv adj start st)
    (hc : 0 ≤ nc.2) (hcg : 0 ≤ currentG) (hedge : nc ∈ adj current)
    (hcur : st.gScores current ≠ none) :
    AStarInv adj start (relax h cfg goal current currentG st nc) ∧
    (relax h cfg goal current currentG st nc).gScores current ≠ none := by
  rcases relax_case_split h cfg goal current currentG st nc with ⟨hp, heq⟩ | ⟨_, heq⟩
  · -- push case: the neighbor cannot be the start
    have hns : nc.1 ≠ start := by
      intro hfalse
      rw [hfalse] at hp
      rcases hp with h1 | ⟨e, he, hlt⟩
      · rw [inv.startG] at h1; exact Option.noConfusion h1
      · rw [inv.startG] at he
        have : (0 : C) ≤ currentG + nc.2 := add_nonneg hcg hc
        rw [← Option.some_injective _ he] at hlt
        exact absurd hlt (not_lt.mpr this)
    rw [heq]
    refine ⟨⟨?_, ?_, ?_, ?_, ?_, ?_, ?_, ?_⟩, ?_⟩ <;> dsimp only
    · rw [MapF.insert_lookup_ne _ _ _ (fun hh => hns hh.symm), inv.startG]
    · rw [MapF.insert_lookup_ne _ _ _ (fun hh => hns hh.symm), inv.startNoParent]
    · intro s hs
      rcases List.mem_cons.mp hs with h1 | h2
      · rw [h1]; exact add_nonneg hcg hc
      · exact inv.openNonneg s h2
    · intro n c hgn
      by_cases hn : n = nc.1
      · rw [hn, MapF.insert_lookup_eq] at hgn
        rw [← Option.some_injective _ hgn]
        exact add_nonneg hcg hc
      · rw [MapF.insert_lookup_ne _ _ _ hn] at hgn
        exact inv.gNonneg n c hgn
    · intro n p hcn
      by_cases hn : n = nc.1
      · rw [hn, MapF.insert_lookup_eq] at hcn
        refine ⟨nc.2, ?_⟩
        rw [← Option.some_injective _ hcn, hn]
        simpa using hedge
      · rw [MapF.insert_lookup_ne _ _ _ hn] at hcn
        exact inv.cameEdge n p hcn
    · intro n hgn
      by_cases hn : n = nc.1
      · right
        rw [hn, MapF.insert_lookup_eq]
        exact Option.noConfusion
      · rw [MapF.insert_lookup_ne _ _ _ hn] at hgn
        rcases inv.gDom n hgn with h1 | h2
        · exact Or.inl h1
        · right
          rw [MapF.insert_lookup_ne _ _ _ hn]
          exact h2
    · intro s hs
      by_cases hn : s.node = nc.1
      · rw [hn, MapF.insert_lookup_eq]
        exact Option.noConfusion
      · rw [MapF.insert_lookup_ne _ _ _ hn]
        rcases List.mem_cons.mp hs with h1 | h2
        · exact absurd (congrArg HState.node h1) hn
        · exact inv.openInG s h2
    · intro n p hcn
      by_cases hp2 : p = nc.1
      · rw [hp2, MapF.insert_lookup_eq]
        exact Option.noConfusion
      · rw [MapF.insert_lookup_ne _ _ _ hp2]
        by_cases hn : n = nc.1
        · rw [hn, MapF.insert_lookup_eq] at hcn
          have : p = current := (Option.some_injective _ hcn).symm
          rw [this]
          exact hcur
        · rw [MapF.insert_lookup_ne _ _ _ hn] at hcn
          exact inv.cameInG n p hcn
    · by_cases hn : current = nc.1
      · rw [hn, MapF.insert_lookup_eq]
        exact Option.noConfusion
      · rw [MapF.insert_lookup_ne _ _ _ hn]
        exact hcur
  · rw [heq]
    exact ⟨inv, hcur⟩

theorem foldl_relax_preserves_inv [DecidableEq N] [LinearOrderedAddCommGroup C]
    {adj : N → List (N × C)} {start : N} {h : N → N → C} {cfg : AStarConfig}
    {goal current : N} {currentG : C}
    (hcg : 0 ≤ currentG)
    (hnonneg : ∀ n m c, (m, c) ∈ adj n → 0 ≤ c) :
    ∀ (l : List (N × C)) (st : SearchState N C), (∀ nc ∈ l, nc ∈ adj current) →
      AStarInv adj start st → st.gScores current ≠ none →
      AStarInv adj start (l.foldl (relax h cfg goal current currentG) st)
  | [], st, _, inv, _ => inv
  | nc :: tl, st, hsub, inv, hcur => by
    have hstep : AStarInv adj start (relax h cfg goal current currentG st nc) ∧
        (relax h cfg goal current currentG st nc).gScores current ≠ none :=
      relax_preserves_inv inv
        (hnonneg current nc.1 nc.2 (by simpa using hsub nc (by simp)))
        hcg (hsub nc (by simp)) hcur
    exact foldl_relax_preserves_inv hcg hnonneg tl _
      (fun x hx => hsub x (List.mem_cons_of_mem nc hx)) hstep.1 hstep.2

/-- Specification of the reconstruction chain: it starts at `cur`,
consecutive elements are parent links, and it ends at a node without a
parent that is either `cur` itself or the target of some parent link. -/
theorem ancestorChain_spec [DecidableEq N] (came : MapF N N) :
    ∀ (fuel : Nat) (cur : N) (l : List N), ancestorChain came fuel cur = some l →
      l.head? = some cur ∧
      List.Chain' (fun a b => came a = some b) l ∧
      ∃ last, l.getLast? = some last ∧ came last = none ∧
        (last = cur ∨ ∃ a, came a = some last)
  | 0, cur, l => by simp [ancestorChain]
  | fuel + 1, cur, l => by
    intro hl
    rw [ancestorChain] at hl
    cases hc : came cur with
    | none =>
      rw [hc] at hl
      simp at hl
      subst hl
      exact ⟨rfl, List.chain'_singleton cur, cur, rfl, hc, Or.inl rfl⟩
    | some p =>
      rw [hc] at hl
      obtain ⟨l2, hl2, heq⟩ := Option.map_eq_some'.mp hl
      obtain ⟨hhead, hchain, last, hlast, hln, hlc⟩ := ancestorChain_spec came fuel p l2 hl2
      subst heq
      cases l2 with
      | nil => exact absurd hhead (by simp)
      | cons a t =>
        have hap : a = p := by simpa using hhead
        subst hap
        refine ⟨rfl, List.chain'_cons'.mpr ⟨fun y hy => ?_, hchain⟩, last, ?_, hln, ?_⟩
        · have : a = y := by simpa using hy
          rw [← this]
          exact hc
        · rw [List.getLast?_cons_cons]
          exact hlast
        · rcases hlc with h1 | h2
          · exact Or.inr ⟨cur, h1 ▸ hc⟩
          · exact Or.inr h2

/-- Main loop lemma for C1: under the invariant, if the loop returns a
`Found` result, the path runs from `start` to `goal` along edges emitted
by the adjacency function. -/
theorem astarLoop_found_path_valid [DecidableEq N] [LinearOrderedAddCommGroup C]
    {adj : N → List (N × C)} {h : N → N → C} {cfg : AStarConfig}
    {timeoutHit : Nat → Bool} {start goal : N} {fuel : Nat}
    {st : SearchState N C} {r : PathResult N C}
    (hnonneg : ∀ n m c, (m, c) ∈ adj n → 0 ≤ c)
    (inv : AStarInv adj start st)
    (hrun : astarLoop adj h cfg timeoutHit goal fuel st = some r)
    (hfound : r.status = .found) :
    r.path.head? = some start ∧ r.path.getLast? = some goal ∧
    List.Chain' (fun a b => ∃ c, (b, c) ∈ adj a) r.path := by
  induction fuel generalizing st with
  | zero => simp [astarLoop] at hrun
  | succ fuel ih =>
    rw [astarLoop] at hrun
    cases hpop : popMax st.openSet with
    | none =>
      rw [hpop] at hrun
      simp at hrun
      rw [← hrun] at hfound
      exact absurd hfound (by simp)
    | some pr =>
      obtain ⟨s, rest⟩ := pr
      rw [hpop] at hrun
      dsimp only at hrun
      by_cases hover : overMaxIter cfg (st.iterations + 1) = true
      · rw [if_pos hover] at hrun
        obtain ⟨l, _, hr⟩ := Option.map_eq_some'.mp hrun
        rw [← hr] at hfound
        exact absurd hfound (by simp)
      · rw [if_neg hover] at hrun
        by_cases htime : timeoutHit (st.iterations + 1) = true
        · rw [if_pos htime] at hrun
          obtain ⟨l, _, hr⟩ := Option.map_eq_some'.mp hrun
          rw [← hr] at hfound
          exact absurd hfound (by simp)
        · rw [if_neg htime] at hrun
          by_cases hgoal : s.node = goal
          · rw [if_pos hgoal] at hrun
            obtain ⟨l, hl, hr⟩ := Option.map_eq_some'.mp hrun
            obtain ⟨hhead, hchain, last, hlast, hln, hlc⟩ :=
              ancestorChain_spec st.cameFrom (fuel + 1) s.node l hl
            have hsg : st.gScores s.node ≠ none := inv.openInG s (popMax_mem hpop)
            have hlaststart : last = start := by
              have hlg : st.gScores last ≠ none := by
                rcases hlc with h1 | ⟨a, ha⟩
                · rw [h1]; exact hsg
                · exact inv.cameInG a last ha
              rcases inv.gDom last hlg with h1 | h2
              · exact h1
              · exact absurd hln h2
            have hpath : r.path = l.reverse := by rw [← hr]
            refine ⟨?_, ?_, ?_⟩
            · rw [hpath, List.head?_reverse, hlast, hlaststart]
            · rw [hpath, List.getLast?_reverse, hhead, hgoal]
            · rw [hpath]
              rw [List.chain'_reverse]
              refine List.Chain'.imp ?_ hchain
              intro a b hab
              exact inv.cameEdge a b hab
          · rw [if_neg hgoal] at hrun
            by_cases hstale : isStale st.gScores s = true
            · rw [if_pos hstale] at hrun
              refine ih ?_ hrun
              exact ⟨inv.startG, inv.startNoParent,
                fun x hx => inv.openNonneg x (popMax_rest_mem hpop x hx),
                inv.gNonneg, inv.cameEdge, inv.gDom,
                fun x hx => inv.openInG x (popMax_rest_mem hpop x hx), inv.cameInG⟩
            · rw [if_neg hstale] at hrun
              refine ih ?_ hrun
              have hmem := popMax_mem hpop
              refine foldl_relax_preserves_inv (inv.openNonneg s hmem) hnonneg
                (adj s.node) _ (fun nc hnc => hnc) ?_ (inv.openInG s hmem)
              exact ⟨inv.startG, inv.startNoParent,
                fun x hx => inv.openNonneg x (popMax_rest_mem hpop x hx),
                inv.gNonneg, inv.cameEdge, inv.gDom,
                fun x hx => inv.openInG x (popMax_rest_mem hpop x hx), inv.cameInG⟩

/-- The initial A* state satisfies the invariant. -/
theorem initState_inv [DecidableEq N] [LinearOrderedAddCommGroup C]
    (adj : N → List (N × C)) (h : N → N → C) (start goal : N) :
    AStarInv adj start (initState (C := C) h start goal) := by
  refine ⟨?_, ?_, ?_, ?_, ?_, ?_, ?_, ?_⟩ <;> dsimp only [initState]
  · exact MapF.insert_lookup_eq _ _ _
  · rfl
  · intro s hs
    have : s = ⟨start, h start goal, 0, 0⟩ := by simpa using hs
    rw [this]
  · intro n c hg
    by_cases hn : n = start
    · rw [hn, MapF.insert_lookup_eq] at hg
      rw [← Option.some_injective _ hg]
    · rw [MapF.insert_lookup_ne _ _ _ hn] at hg
      exact absurd hg (by simp [MapF.empty])
  · intro n p hc
    exact absurd hc (by simp [MapF.empty])
  · intro n hg
    by_cases hn : n = start
    · exact Or.inl hn
    · rw [MapF.insert_lookup_ne _ _ _ hn] at hg
      exact absurd rfl hg
  · intro s hs
    have : s = ⟨start, h start goal, 0, 0⟩ := by simpa using hs
    rw [this, MapF.insert_lookup_eq]
    exact Option.noConfusion
  · intro n p hc
    exact absurd hc (by simp [MapF.empty])

/-- C1: for every graph (with non-negative edge costs, per the Graph
contract), heuristic, start, goal and config, a `Found` result of
`astar` has `path[0] = start`, `path.back = goal`, and every consecutive
pair `(a, b)` of the path is a single graph edge (`b` is emitted by
`neighbors a`). -/
theorem astar_found_path_valid [DecidableEq N] [LinearOrderedAddCommGroup C]
    (adj : N → List (N × C)) (h : N → N → C) (start goal : N) (cfg : AStarConfig)
    (timeoutHit : Nat → Bool) (fuel : Nat) (r : PathResult N C)
    (hnonneg : ∀ n m c, (m, c) ∈ adj n → 0 ≤ c)
    (hrun : astar adj h start goal cfg timeoutHit fuel = some r)
    (hfound : r.status = .found) :
    r.path.head? = some start ∧ r.path.getLast? = some goal ∧
    List.Chain' (fun a b => ∃ c, (b, c) ∈ adj a) r.path :=
  astarLoop_found_path_valid hnonneg (initState_inv adj h start goal) hrun hfound

/-- Witness for C1 on a two-node graph. -/
theorem astar_found_path_valid_witness :
    (∀ n m c, (m, c) ∈ (if n = (0 : ℤ) then [((1 : ℤ), (5 : ℤ))] else []) → 0 ≤ c) ∧
    ∃ r : PathResult ℤ ℤ,
      astar (fun n => if n = 0 then [(1, 5)] else []) (fun _ _ => 0) 0 1
        ⟨none, .preferHigherG⟩ (fun _ => false) 5 = some r ∧
      r.status = .found ∧
      r.path.head? = some 0 ∧ r.path.getLast? = some 1 ∧
      List.Chain' (fun a b => ∃ c,
        (b, c) ∈ (if a = (0 : ℤ) then [((1 : ℤ), (5 : ℤ))] else [])) r.path := by
  have hnonneg : ∀ n m c, (m, c) ∈ (if n = (0 : ℤ) then [((1 : ℤ), (5 : ℤ))] else []) → 0 ≤ c := by
    intro n m c hm
    by_cases hn : n = 0
    · rw [if_pos hn] at hm
      simp at hm
      rw [hm.2]
      decide
    · rw [if_neg hn] at hm
      exact absurd hm (by simp)
  refine ⟨hnonneg, ⟨[0, 1], 5, 1, .found⟩, by decide, rfl, ?_⟩
  exact astar_found_path_valid (fun n => if n = 0 then [(1, 5)] else [])
    (fun _ _ => 0) 0 1 ⟨none, .preferHigherG⟩ (fun _ => false) 5
    ⟨[0, 1], 5, 1, .found⟩ hnonneg (by decide) rfl

/-- C8: after `invalidate_region(p)`, the cache contains exactly the
previously cached entries for which `p` is false on the start key, false
on the goal key, and false on every node of the cached path. -/
theorem pathCache_invalidateRegion_mem [DecidableEq N] [DecidableEq C]
    (pc : PathCache N C) (pred : N → Bool) (kv : (N × N) × CachedPath N C) :
    kv ∈ (pc.invalidateRegion pred).cache ↔
      kv ∈ pc.cache ∧ pred kv.1.1 = false ∧ pred kv.1.2 = false ∧
        ∀ n ∈ kv.2.result.path, pred n = false := by
  unfold PathCache.invalidateRegion
  rw [List.mem_filter]
  constructor
  · rintro ⟨hmem, hkeep⟩
    by_cases hsg : (pred kv.1.1 || pred kv.1.2) = true
    · rw [if_pos hsg] at hkeep
      exact absurd hkeep (by simp)
    · rw [if_neg hsg] at hkeep
      rw [Bool.or_eq_true, not_or] at hsg
      refine ⟨hmem, Bool.not_eq_true _ ▸ hsg.1, Bool.not_eq_true _ ▸ hsg.2, ?_⟩
      intro n hn
      have := List.all_eq_true.mp hkeep n hn
      simpa using this
  · rintro ⟨hmem, hs, hg, hpath⟩
    refine ⟨hmem, ?_⟩
    rw [if_neg (by simp [hs, hg])]
    rw [List.all_eq_true]
    intro n hn
    simp [hpath n hn]

/-! ### FlowField lemmas -/

theorem rangeMap_getD {α : Type} (f : Nat → α) (n i : Nat) (d : α) (h : i < n) :
    ((List.range n).map f).getD i d = f i := by
  simp [List.getD, List.getElem?_map, List.getElem?_range, h]

theorem replicate_getD {α : Type} (n i : Nat) (a d : α) (h : i < n) :
    (List.replicate n a).getD i d = a := by
  simp [List.getD, List.getElem?_replicate, h]

theorem getD_eq_getElem {α : Type} (l : List α) (i : Nat) (d : α) (h : i < l.length) :
    l.getD i d = l[i] := by
  simp [List.getD, List.getElem?_eq_getElem h]

/-- The property tracked through the flow-pass fold: the best cost never
exceeds the cell's own integration value, and a non-`none` direction
records an in-bounds unblocked neighbor of strictly smaller
integration. -/
def FlowBest [LinearOrderedAddCommGroup C] (g : Grid2D C)
    (integration : List (WithTop C)) (width height x y : Nat)
    (acc : Direction × WithTop C) : Prop :=
  acc.2 ≤ integration.getD (FlowField.idx width x y) ⊤ ∧
  (acc.1 ≠ .none → ∃ dx dy,
    (dx, dy, acc.1) ∈ neighborDirs g.diagonalMovement ∧
    ¬((x : Int) + dx < 0 ∨ (y : Int) + dy < 0 ∨
      width ≤ ((x : Int) + dx).toNat ∨ height ≤ ((y : Int) + dy).toNat) ∧
    g.isBlocked ((x : Int) + dx) ((y : Int) + dy) = false ∧
    integration.getD (FlowField.idx width ((x : Int) + dx).toNat ((y : Int) + dy).toNat) ⊤
      = acc.2 ∧
    acc.2 < integration.getD (FlowField.idx width x y) ⊤)

theorem flowFold_invariant [LinearOrderedAddCommGroup C] {g : Grid2D C}
    {integration : List (WithTop C)} {width height x y : Nat} :
    ∀ (dirs : List (Int × Int × Direction)) (acc : Direction × WithTop C),
      (∀ d ∈ dirs, d ∈ neighborDirs g.diagonalMovement) →
      FlowBest g integration width height x y acc →
      FlowBest g integration width height x y (dirs.foldl
        (fun (acc : Direction × WithTop C) ddd =>
          let nx := (x : Int) + ddd.1
          let ny := (y : Int) + ddd.2.1
          if nx < 0 ∨ ny < 0 ∨ width ≤ nx.toNat ∨ height ≤ ny.toNat then acc
          else if g.isBlocked nx ny then acc
          else
            let nCost := integration.getD (FlowField.idx width nx.toNat ny.toNat) ⊤
            if nCost < acc.2 then (ddd.2.2, nCost) else acc) acc)
  | [], acc, _, hacc => hacc
  | ddd :: tl, acc, hsub, hacc => by
    refine flowFold_invariant tl _ (fun d hd => hsub d (List.mem_cons_of_mem ddd hd)) ?_
    dsimp only
    by_cases h1 : (x : Int) + ddd.1 < 0 ∨ (y : Int) + ddd.2.1 < 0 ∨
        width ≤ ((x : Int) + ddd.1).toNat ∨ height ≤ ((y : Int) + ddd.2.1).toNat
    · rw [if_pos h1]; exact hacc
    · rw [if_neg h1]
      by_cases h2 : g.isBlocked ((x : Int) + ddd.1) ((y : Int) + ddd.2.1) = true
      · rw [if_pos h2]; exact hacc
      · rw [if_neg h2]
        by_cases h3 : integration.getD
            (FlowField.idx width ((x : Int) + ddd.1).toNat ((y : Int) + ddd.2.1).toNat) ⊤ < acc.2
        · rw [if_pos h3]
          refine ⟨le_of_lt (lt_of_lt_of_le h3 hacc.1), fun _ => ?_⟩
          exact ⟨ddd.1, ddd.2.1, by simpa using hsub ddd (by simp), h1,
            Bool.not_eq_true _ ▸ h2, rfl, lt_of_lt_of_le h3 hacc.1⟩
        · rw [if_neg h3]; exact hacc

theorem flowChoose_spec [LinearOrderedAddCommGroup C] (g : Grid2D C)
    (integration : List (WithTop C)) (width height x y : Nat)
    (hne : flowChoose g integration width height x y ≠ .none) :
    ∃ dx dy, (dx, dy, flowChoose g integration width height x y) ∈
        neighborDirs g.diagonalMovement ∧
      ¬((x : Int) + dx < 0 ∨ (y : Int) + dy < 0 ∨
        width ≤ ((x : Int) + dx).toNat ∨ height ≤ ((y : Int) + dy).toNat) ∧
      g.isBlocked ((x : Int) + dx) ((y : Int) + dy) = false ∧
      integration.getD (FlowField.idx width ((x : Int) + dx).toNat ((y : Int) + dy).toNat) ⊤ <
        integration.getD (FlowField.idx width x y) ⊤ := by
  have hinv := @flowFold_invariant C _ g integration width height x y
    (neighborDirs g.diagonalMovement)
    (Direction.none, integration.getD (FlowField.idx width x y) ⊤)
    (fun d hd => hd) ⟨le_refl _, fun hc => absurd rfl hc⟩
  obtain ⟨dx, dy, hmem, hb, hblk, heq, hlt⟩ := hinv.2 hne
  exact ⟨dx, dy, hmem, hb, hblk, heq ▸ hlt⟩

/-- C5: in a computed flow field, every cell with finite integration and
a non-`none` flow direction points at an in-bounds, unblocked neighbor
whose integration value is strictly smaller. -/
theorem flowfield_monotone [LinearOrderedAddCommGroup C] [Mul C] (fuel : Nat)
    (g : Grid2D C) (sqrt2 : C) (goal : GridPos) (ff : FlowField C)
    (hrun : FlowField.compute fuel g sqrt2 goal = some ff)
    (x y : Nat) (hx : x < g.width) (hy : y < g.height)
    (hfin : ff.integration.getD (FlowField.idx g.width x y) ⊤ ≠ ⊤)
    (hdir : ff.flow.getD (FlowField.idx g.width x y) .none ≠ .none) :
    ∃ dx dy, (dx, dy, ff.flow.getD (FlowField.idx g.width x y) .none) ∈
        neighborDirs g.diagonalMovement ∧
      ¬((x : Int) + dx < 0 ∨ (y : Int) + dy < 0 ∨
        g.width ≤ ((x : Int) + dx).toNat ∨ g.height ≤ ((y : Int) + dy).toNat) ∧
      g.isBlocked ((x : Int) + dx) ((y : Int) + dy) = false ∧
      ff.integration.getD
          (FlowField.idx g.width ((x : Int) + dx).toNat ((y : Int) + dy).toNat) ⊤ <
        ff.integration.getD (FlowField.idx g.width x y) ⊤ := by
  have hidx : FlowField.idx g.width x y < g.width * g.height := by
    have h1 : FlowField.idx g.width x y < (y + 1) * g.width := by
      rw [FlowField.idx, Nat.succ_mul]
      omega
    have h2 : (y + 1) * g.width ≤ g.height * g.width :=
      Nat.mul_le_mul_right _ hy
    rw [Nat.mul_comm g.width g.height]
    omega
  unfold FlowField.compute at hrun
  by_cases hearly : goal.x < 0 ∨ goal.y < 0 ∨ g.width ≤ goal.x.toNat ∨
      g.height ≤ goal.y.toNat ∨ g.isBlocked goal.x goal.y = true
  · rw [if_pos hearly] at hrun
    have hff : ff.flow = List.replicate (g.width * g.height) Direction.none := by
      rw [← Option.some_injective _ hrun]
    rw [hff, replicate_getD _ _ _ _ hidx] at hdir
    exact absurd rfl hdir
  · rw [if_neg hearly] at hrun
    dsimp only at hrun
    cases hloop : ffLoop g sqrt2 g.width g.height fuel [⟨0, goal⟩]
      ((List.replicate (g.width * g.height) ⊤).set
        (FlowField.idx g.width goal.x.toNat goal.y.toNat) ((0 : C) : WithTop C))
      (List.replicate (g.width * g.height) false) with
    | none => rw [hloop] at hrun; exact absurd hrun (by simp)
    | some integ =>
      rw [hloop] at hrun
      have hffi : ff.integration = integ := by rw [← Option.some_injective _ hrun]
      have hfff : ff.flow = flowPass g integ g.width g.height := by
        rw [← Option.some_injective _ hrun]
      have hxmod : FlowField.idx g.width x y % g.width = x := by
        rw [FlowField.idx, Nat.mul_comm, Nat.mul_add_mod, Nat.mod_eq_of_lt hx]
      have hydiv : FlowField.idx g.width x y / g.width = y := by
        rw [FlowField.idx, Nat.mul_comm, Nat.mul_add_div (by omega), Nat.div_eq_of_lt hx,
          Nat.add_zero]
      have hflowval : ff.flow.getD (FlowField.idx g.width x y) .none =
          (if integ.getD (FlowField.idx g.width x y) ⊤ = ⊤ ∨
              g.isBlocked (x : Int) (y : Int) then Direction.none
            else flowChoose g integ g.width g.height x y) := by
        rw [hfff, flowPass, rangeMap_getD _ _ _ _ hidx]
        dsimp only
        rw [hxmod, hydiv]
      rw [hflowval] at hdir
      by_cases hcase : integ.getD (FlowField.idx g.width x y) ⊤ = ⊤ ∨
          g.isBlocked (x : Int) (y : Int) = true
      · rw [if_pos hcase] at hdir
        exact absurd rfl hdir
      · rw [if_neg hcase] at hdir
        obtain ⟨dx, dy, hmem, hb, hblk, hlt⟩ :=
          flowChoose_spec g integ g.width g.height x y hdir
        rw [hflowval, if_neg hcase, hffi]
        exact ⟨dx, dy, hmem, hb, hblk, hlt⟩

/-- Witness for C5 on a free 2x1 grid with goal (1,0): cell (0,0) flows
east toward the goal. -/
theorem flowfield_monotone_witness :
    ∃ ff : FlowField ℤ,
      FlowField.compute 10 (Grid2D.new (C := ℤ) 2 1 .never) 1 ⟨1, 0⟩ = some ff ∧
      ff.integration.getD (FlowField.idx 2 0 0) ⊤ ≠ ⊤ ∧
      ff.flow.getD (FlowField.idx 2 0 0) .none ≠ .none ∧
      ∃ dx dy, (dx, dy, ff.flow.getD (FlowField.idx 2 0 0) .none) ∈
          neighborDirs (Grid2D.new (C := ℤ) 2 1 .never).diagonalMovement ∧
        ff.integration.getD
            (FlowField.idx 2 ((0 : Int) + dx).toNat ((0 : Int) + dy).toNat) ⊤ <
          ff.integration.getD (FlowField.idx 2 0 0) ⊤ := by
  refine ⟨⟨2, 1, [((1 : ℤ) : WithTop ℤ), ((0 : ℤ) : WithTop ℤ)], [.e, .none]⟩,
    by decide, by decide, by decide, ?_⟩
  obtain ⟨dx, dy, hmem, _, _, hlt⟩ := flowfield_monotone 10
    (Grid2D.new (C := ℤ) 2 1 .never) 1 ⟨1, 0⟩
    ⟨2, 1, [((1 : ℤ) : WithTop ℤ), ((0 : ℤ) : WithTop ℤ)], [.e, .none]⟩
    (by decide) 0 0 (by decide) (by decide) (by decide) (by decide)
  exact ⟨dx, dy, hmem, hlt⟩

/-- C9: the edge cost `jps` assigns from the current node to each
returned jump point is the octile distance
`(sqrt2 - 1) * min(|dx|, |dy|) + max(|dx|, |dy|)`. -/
theorem jps_edge_cost_octile [LinearOrderedCommRing C] (sqrt2 : C) (g : Grid2D C)
    (current : GridPos) (parent : Option GridPos) (goal : GridPos) (n : GridPos)
    (hn : n ∈ findSuccessors g current parent goal) :
    jpsDistance sqrt2 current n =
      (sqrt2 - 1) * min |(current.x : C) - (n.x : C)| |(current.y : C) - (n.y : C)| +
        max |(current.x : C) - (n.x : C)| |(current.y : C) - (n.y : C)| := by
  unfold jpsDistance
  have hx : (((current.x - n.x).natAbs : Nat) : C) = |(current.x : C) - (n.x : C)| := by
    rw [Int.cast_natAbs, Int.cast_abs]
    push_cast
    ring
  have hy : (((current.y - n.y).natAbs : Nat) : C) = |(current.y : C) - (n.y : C)| := by
    rw [Int.cast_natAbs, Int.cast_abs]
    push_cast
    ring
  rw [hx, hy]

/-- Witness for C9: on a free 3x1 grid, `(2,0)` is a jump point returned
from `(0,0)`. -/
theorem jps_edge_cost_octile_witness :
    (⟨2, 0⟩ : GridPos) ∈
      findSuccessors (Grid2D.new (C := ℤ) 3 1 .never) ⟨0, 0⟩ none ⟨2, 0⟩ ∧
    jpsDistance (2 : ℤ) ⟨0, 0⟩ ⟨2, 0⟩ =
      ((2 : ℤ) - 1) *
          min |(((0 : Int) : ℤ)) - (((2 : Int) : ℤ))| |(((0 : Int) : ℤ)) - (((0 : Int) : ℤ))| +
        max |(((0 : Int) : ℤ)) - (((2 : Int) : ℤ))| |(((0 : Int) : ℤ)) - (((0 : Int) : ℤ))| := by
  refine ⟨by decide, ?_⟩
  exact jps_edge_cost_octile 2 (Grid2D.new (C := ℤ) 3 1 .never) ⟨0, 0⟩ none ⟨2, 0⟩ ⟨2, 0⟩
    (by decide)

/-! ### HierarchicalGrid lemmas -/

theorem foldl_induction {α β : Type} (P : α → Prop) (f : α → β → α) (l : List β)
    (a : α) (ha : P a) (hf : ∀ x a2, x ∈ l → P a2 → P (f a2 x)) : P (l.foldl f a) := by
  induction l generalizing a with
  | nil => exact ha
  | cons x tl ih =>
    exact ih (f a x) (hf x a (by simp) ha) (fun y a2 hy => hf y a2 (by simp [hy]))

theorem head_chain_mem {α : Type} {R : α → α → Prop} :
    ∀ (l : List α) (hd : α), l.head? = some hd → List.Chain' R l →
      ∀ x ∈ l, x = hd ∨ ∃ a, R a x
  | [], hd, hh, _, x, hx => by simp at hx
  | [a], hd, hh, _, x, hx => by
    have ha : a = hd := by simpa using hh
    have hxa : x = a := by simpa using hx
    exact Or.inl (hxa ▸ ha)
  | a :: b :: tl, hd, hh, hchain, x, hx => by
    have ha : a = hd := by simpa using hh
    rcases List.mem_cons.mp hx with h1 | h2
    · exact Or.inl (h1.trans ha)
    · have hc := List.chain'_cons.mp hchain
      rcases head_chain_mem (b :: tl) b rfl hc.2 x h2 with h3 | ⟨c, hc2⟩
      · exact Or.inr ⟨a, h3 ▸ hc.1⟩
      · exact Or.inr ⟨c, hc2⟩

theorem neighborsList_cost_nonneg [LinearOrderedCommRing C] {g : Grid2D C}
    {sqrt2 : C} (hg : GridNonneg g) (hs : 0 ≤ sqrt2) :
    ∀ p m c, (m, c) ∈ g.neighborsList sqrt2 p → 0 ≤ c := by
  intro p m c hm
  unfold Grid2D.neighborsList at hm
  rcases List.mem_append.mp hm with hcard | hdiag
  · obtain ⟨d, _, hd⟩ := List.mem_filterMap.mp hcard
    by_cases hb : g.isBlocked (p.x + d.1) (p.y + d.2)
    · simp [hb] at hd
    · simp [hb] at hd
      rw [← hd.2]
      exact hg _ _
  · by_cases hdm : g.diagonalMovement ≠ .never
    · rw [if_pos hdm] at hdiag
      obtain ⟨d, _, hd⟩ := List.mem_filterMap.mp hdiag
      by_cases hb : g.isBlocked (p.x + d.1) (p.y + d.2)
      · simp [hb] at hd
      · by_cases ha : diagAllowed g p d.1 d.2
        · simp [hb, ha] at hd
          rw [← hd.2]
          exact mul_nonneg (hg _ _) hs
        · simp [hb, ha] at hd
    · rw [if_neg hdm] at hdiag
      simp at hdiag

/-- Path facts for a `Found` grid A* run whose start cell is passable:
endpoints as requested and every path cell passable. -/
theorem astar_grid_found_facts [LinearOrderedCommRing C] {g : Grid2D C} {sqrt2 : C}
    (hg : GridNonneg g) (hs : 0 ≤ sqrt2) {h : GridPos → GridPos → C}
    {start goal : GridPos} {cfg : AStarConfig} {timeoutHit : Nat → Bool} {fuel : Nat}
    {r : PathResult GridPos C}
    (hrun : astar (g.neighborsList sqrt2) h start goal cfg timeoutHit fuel = some r)
    (hf : r.status = .found) (hstart : g.isBlocked start.x start.y = false) :
    r.path.head? = some start ∧ r.path.getLast? = some goal ∧
    ∀ q ∈ r.path, g.isBlocked q.x q.y = false := by
  obtain ⟨hhead, hlast, hchain⟩ := astarLoop_found_path_valid
    (fun n m c hm => neighborsList_cost_nonneg hg hs n m c hm)
    (initState_inv (g.neighborsList sqrt2) h start goal) hrun hf
  refine ⟨hhead, hlast, fun q hq => ?_⟩
  rcases head_chain_mem r.path start hhead hchain q hq with h1 | ⟨a, c, hac⟩
  · rw [h1]
    exact hstart
  · exact neighborsList_not_blocked hac

theorem clusterPush_ids {cn : List ((Nat × Nat) × List Nat)} {k : Nat × Nat} {id : Nat}
    {kv : (Nat × Nat) × List Nat} (hkv : kv ∈ clusterPush cn k id) :
    ∀ j ∈ kv.2, (∃ kv0 ∈ cn, j ∈ kv0.2) ∨ j = id := by
  intro j hj
  unfold clusterPush at hkv
  by_cases hfind : ((cn.find? (fun kv => kv.1 = k)).isSome : Prop)
  · rw [if_pos hfind] at hkv
    obtain ⟨kv0, hkv0, heq⟩ := List.mem_map.mp hkv
    by_cases hk : kv0.1 = k
    · rw [if_pos hk] at heq
      rw [← heq] at hj
      rcases List.mem_append.mp hj with h1 | h2
      · exact Or.inl ⟨kv0, hkv0, h1⟩
      · exact Or.inr (by simpa using h2)
    · rw [if_neg hk] at heq
      exact Or.inl ⟨kv0, hkv0, heq ▸ hj⟩
  · rw [if_neg hfind] at hkv
    rcases List.mem_append.mp hkv with h1 | h2
    · exact Or.inl ⟨kv, h1, hj⟩
    · have : kv = (k, [id]) := by simpa using h2
      rw [this] at hj
      exact Or.inr (by simpa using hj)

theorem addNode_inv [LinearOrderedAddCommGroup C] {hp : HierarchicalGrid C}
    {pos : GridPos} (inv : HGInv hp)
    (hpos : hp.baseGrid.isBlocked pos.x pos.y = false) :
    HGInv (addNode hp pos).1 := by
  refine ⟨?_, ?_, ?_⟩
  · intro p hp2
    rcases List.mem_append.mp hp2 with h1 | h2
    · exact inv.nodesPassable p h1
    · have : p = pos := by simpa using h2
      rw [this]
      exact hpos
  · intro kv hkv j hj
    have hlen : (addNode hp pos).1.nodes.length = hp.nodes.length + 1 := by
      simp [addNode]
    rw [hlen]
    rcases clusterPush_ids hkv j hj with ⟨kv0, hkv0, hj0⟩ | hje
    · exact Nat.lt_succ_of_lt (inv.clusterIds kv0 hkv0 j hj0)
    · rw [hje]
      exact Nat.lt_succ_self _
  · intro src l hl e he
    by_cases hsrc : src = hp.nodes.length
    · rw [show (addNode hp pos).1.edges = hp.edges.insert hp.nodes.length [] from rfl,
        hsrc, MapF.insert_lookup_eq] at hl
      rw [← Option.some_injective _ hl] at he
      simp at he
    · rw [show (addNode hp pos).1.edges = hp.edges.insert hp.nodes.length [] from rfl,
        MapF.insert_lookup_ne _ _ _ hsrc] at hl
      obtain ⟨ht, hs, hh, hlast, hpass⟩ := inv.edgeOk src l hl e he
      have hlen : (addNode hp pos).1.nodes.length = hp.nodes.length + 1 := by
        simp [addNode]
      have hnodes : (addNode hp pos).1.nodes = hp.nodes ++ [pos] := rfl
      refine ⟨hlen ▸ Nat.lt_succ_of_lt ht, hlen ▸ Nat.lt_succ_of_lt hs, ?_, ?_, ?_⟩
      · rw [hnodes, List.getElem?_append, if_pos hs]
        exact hh
      · rw [hnodes, List.getElem?_append, if_pos ht]
        exact hlast
      · exact hpass

theorem addEdge_inv [LinearOrderedAddCommGroup C] {hp : HierarchicalGrid C}
    {src dst : Nat} {cost : C} {path : List GridPos} (inv : HGInv hp)
    (hsrc : src < hp.nodes.length) (hdst : dst < hp.nodes.length)
    (hhead : path.head? = hp.nodes[src]?) (hlast : path.getLast? = hp.nodes[dst]?)
    (hpass : ∀ q ∈ path, hp.baseGrid.isBlocked q.x q.y = false) :
    HGInv (addEdge hp src dst cost path) := by
  refine ⟨inv.nodesPassable, inv.clusterIds, ?_⟩
  intro src2 l hl e he
  by_cases hs2 : src2 = src
  · rw [show (addEdge hp src dst cost path).edges =
        hp.edges.insert src ((hp.edges src).getD [] ++ [⟨dst, cost, path⟩]) from rfl,
      hs2, MapF.insert_lookup_eq] at hl
    rw [← Option.some_injective _ hl] at he
    rcases List.mem_append.mp he with h1 | h2
    · cases hold : hp.edges src with
      | none => rw [hold] at h1; simp at h1
      | some l0 =>
        rw [hold] at h1
        simp only [Option.getD_some] at h1
        exact hs2 ▸ inv.edgeOk src l0 hold e h1
    · have : e = ⟨dst, cost, path⟩ := by simpa using h2
      rw [this, hs2]
      exact ⟨hdst, hsrc, hhead, hlast, hpass⟩
  · rw [show (addEdge hp src dst cost path).edges =
        hp.edges.insert src ((hp.edges src).getD [] ++ [⟨dst, cost, path⟩]) from rfl,
      MapF.insert_lookup_ne _ _ _ hs2] at hl
    exact inv.edgeOk src2 l hl e he

theorem createEntrance_inv [One C] [LinearOrderedAddCommGroup C]
    {hp : HierarchicalGrid C} {startI endI fixed : Nat} {isVertical : Bool}
    {neighborFixed : Nat} (inv : HGInv hp)
    (hpos1 : hp.baseGrid.isBlocked
      (if isVertical then (⟨fixed, (startI + endI) / 2⟩ : GridPos)
        else ⟨(startI + endI) / 2, fixed⟩).x
      (if isVertical then (⟨fixed, (startI + endI) / 2⟩ : GridPos)
        else ⟨(startI + endI) / 2, fixed⟩).y = false)
    (hpos2 : hp.baseGrid.isBlocked
      (if isVertical then (⟨neighborFixed, (startI + endI) / 2⟩ : GridPos)
        else ⟨(startI + endI) / 2, neighborFixed⟩).x
      (if isVertical then (⟨neighborFixed, (startI + endI) / 2⟩ : GridPos)
        else ⟨(startI + endI) / 2, neighborFixed⟩).y = false) :
    HGInv (createEntrance hp startI endI fixed isVertical neighborFixed) := by
  unfold createEntrance
  dsimp only
  set mid := (startI + endI) / 2 with hmid
  set pos1 : GridPos :=
    if isVertical then ⟨fixed, mid⟩ else ⟨mid, fixed⟩ with hpos1def
  set pos2 : GridPos :=
    if isVertical then ⟨neighborFixed, mid⟩ else ⟨mid, neighborFixed⟩ with hpos2def
  have inv1 : HGInv (addNode hp pos1).1 := addNode_inv inv hpos1
  have hbase1 : (addNode hp pos1).1.baseGrid = hp.baseGrid := rfl
  have inv2 : HGInv (addNode (addNode hp pos1).1 pos2).1 :=
    addNode_inv inv1 (hbase1 ▸ hpos2)
  have hnodes2 : (addNode (addNode hp pos1).1 pos2).1.nodes =
      hp.nodes ++ [pos1, pos2] := by
    show (hp.nodes ++ [pos1]) ++ [pos2] = hp.nodes ++ [pos1, pos2]
    rw [List.append_assoc]
    rfl
  have hbase2 : (addNode (addNode hp pos1).1 pos2).1.baseGrid = hp.baseGrid := rfl
  have hid1 : (addNode hp pos1).2 = hp.nodes.length := rfl
  have hid2 : (addNode (addNode hp pos1).1 pos2).2 = hp.nodes.length + 1 := by
    show ((addNode hp pos1).1.nodes).length = hp.nodes.length + 1
    show (hp.nodes ++ [pos1]).length = hp.nodes.length + 1
    simp
  have hlen2 : (addNode (addNode hp pos1).1 pos2).1.nodes.length =
      hp.nodes.length + 2 := by
    rw [hnodes2]
    simp
  have hget1 : (addNode (addNode hp pos1).1 pos2).1.nodes[hp.nodes.length]? =
      some pos1 := by
    rw [hnodes2, List.getElem?_append, if_neg (by omega)]
    simp
  have hget2 : (addNode (addNode hp pos1).1 pos2).1.nodes[hp.nodes.length + 1]? =
      some pos2 := by
    rw [hnodes2, List.getElem?_append, if_neg (by omega)]
    simp
  rw [hid1, hid2]
  have inv3 : HGInv (addEdge (addNode (addNode hp pos1).1 pos2).1
      hp.nodes.length (hp.nodes.length + 1) 1 [pos1, pos2]) := by
    refine addEdge_inv inv2 (by omega) (by omega) ?_ ?_ ?_
    · rw [hget1]; rfl
    · rw [hget2]; rfl
    · intro q hq
      rw [hbase2]
      rcases List.mem_cons.mp hq with h1 | h2
      · rw [h1]; exact hpos1
      · have : q = pos2 := by simpa using h2
        rw [this]; exact hpos2
  have hedges3 : (addEdge (addNode (addNode hp pos1).1 pos2).1
      hp.nodes.length (hp.nodes.length + 1) 1 [pos1, pos2]).nodes =
      hp.nodes ++ [pos1, pos2] := hnodes2
  refine addEdge_inv inv3 ?_ ?_ ?_ ?_ ?_
  · rw [hedges3]; simp
  · rw [hedges3]; simp
  · rw [hedges3, List.getElem?_append, if_neg (by omega)]
    simp
  · rw [hedges3, List.getElem?_append, if_neg (by omega)]
    simp
  · intro q hq
    rcases List.mem_cons.mp hq with h1 | h2
    · rw [h1]; exact hpos2
    · have : q = pos1 := by simpa using h2
      rw [this]; exact hpos1

theorem createEntrance_baseGrid [One C] (hp : HierarchicalGrid C)
    (startI endI fixed : Nat) (isVertical : Bool) (neighborFixed : Nat) :
    (createEntrance hp startI endI fixed isVertical neighborFixed).baseGrid =
      hp.baseGrid := rfl

theorem detectLoop_inv [One C] [LinearOrderedAddCommGroup C]
    (fixed : Nat) (isVertical : Bool) (neighborCoord : Nat) :
    ∀ (count k : Nat) (hp : HierarchicalGrid C) (sIdx : Option Nat),
      HGInv hp →
      (∀ s, sIdx = some s → s < k ∧ ∀ i, s ≤ i → i < k →
        entrancePair hp.baseGrid fixed isVertical neighborCoord i = true) →
      HGInv ((List.range' k count).foldl (detectStep fixed isVertical neighborCoord)
        (hp, sIdx)).1 ∧
      ((List.range' k count).foldl (detectStep fixed isVertical neighborCoord)
        (hp, sIdx)).1.baseGrid = hp.baseGrid ∧
      (∀ s, ((List.range' k count).foldl (detectStep fixed isVertical neighborCoord)
          (hp, sIdx)).2 = some s → s < k + count ∧ ∀ i, s ≤ i → i < k + count →
        entrancePair hp.baseGrid fixed isVertical neighborCoord i = true)
  | 0, k, hp, sIdx, inv, hspan => by
    refine ⟨inv, rfl, fun s hs => ?_⟩
    obtain ⟨h1, h2⟩ := hspan s hs
    exact ⟨by omega, fun i hi1 hi2 => h2 i hi1 (by omega)⟩
  | count + 1, k, hp, sIdx, inv, hspan => by
    rw [show List.range' k (count + 1) = k :: List.range' (k + 1) count from
      List.range'_succ k count 1]
    rw [List.foldl_cons]
    cases sIdx with
    | none =>
      have hstep : detectStep fixed isVertical neighborCoord (hp, none) k =
          if entrancePair hp.baseGrid fixed isVertical neighborCoord k then
            (hp, some k) else (hp, none) := rfl
      rw [hstep]
      by_cases hpass : entrancePair hp.baseGrid fixed isVertical neighborCoord k = true
      · rw [if_pos hpass]
        have := detectLoop_inv fixed isVertical neighborCoord count (k + 1) hp (some k)
          inv (fun s hs => by
            have hsk : k = s := by simpa using hs
            subst hsk
            exact ⟨by omega, fun i hi1 hi2 => by
              have : i = k := by omega
              rw [this]
              exact hpass⟩)
        refine ⟨this.1, this.2.1, fun s hs => ?_⟩
        obtain ⟨h1, h2⟩ := this.2.2 s hs
        exact ⟨by omega, fun i hi1 hi2 => h2 i hi1 (by omega)⟩
      · rw [if_neg hpass]
        have := detectLoop_inv fixed isVertical neighborCoord count (k + 1) hp none
          inv (fun s hs => by simp at hs)
        refine ⟨this.1, this.2.1, fun s hs => ?_⟩
        obtain ⟨h1, h2⟩ := this.2.2 s hs
        exact ⟨by omega, fun i hi1 hi2 => h2 i hi1 (by omega)⟩
    | some s0 =>
      have hstep : detectStep fixed isVertical neighborCoord (hp, some s0) k =
          if entrancePair hp.baseGrid fixed isVertical neighborCoord k then
            (hp, some s0)
          else (createEntrance hp s0 (k - 1) fixed isVertical neighborCoord, none) := rfl
      rw [hstep]
      by_cases hpass : entrancePair hp.baseGrid fixed isVertical neighborCoord k = true
      · rw [if_pos hpass]
        have := detectLoop_inv fixed isVertical neighborCoord count (k + 1) hp (some s0)
          inv (fun s hs => by
            have hss : s0 = s := by simpa using hs
            subst hss
            obtain ⟨h1, h2⟩ := hspan s0 rfl
            exact ⟨by omega, fun i hi1 hi2 => by
              by_cases hik : i < k
              · exact h2 i hi1 hik
              · have : i = k := by omega
                rw [this]
                exact hpass⟩)
        refine ⟨this.1, this.2.1, fun s hs => ?_⟩
        obtain ⟨h1, h2⟩ := this.2.2 s hs
        exact ⟨by omega, fun i hi1 hi2 => h2 i hi1 (by omega)⟩
      · rw [if_neg hpass]
        obtain ⟨hs0k, hsp⟩ := hspan s0 rfl
        have hk1 : 1 ≤ k := by omega
        have hmid1 : s0 ≤ (s0 + (k - 1)) / 2 := by omega
        have hmid2 : (s0 + (k - 1)) / 2 < k := by omega
        have hpair := hsp ((s0 + (k - 1)) / 2) hmid1 hmid2
        rw [entrancePair, Bool.and_eq_true, Bool.not_eq_true', Bool.not_eq_true'] at hpair
        have hinv2 : HGInv (createEntrance hp s0 (k - 1) fixed isVertical
            neighborCoord) := by
          refine createEntrance_inv inv ?_ ?_
          · cases isVertical with
            | true => simpa using hpair.1
            | false => simpa using hpair.1
          · cases isVertical with
            | true => simpa using hpair.2
            | false => simpa using hpair.2
        have hbg : (createEntrance hp s0 (k - 1) fixed isVertical
            neighborCoord).baseGrid = hp.baseGrid := rfl
        have := detectLoop_inv fixed isVertical neighborCoord count (k + 1)
          (createEntrance hp s0 (k - 1) fixed isVertical neighborCoord) none
          hinv2 (fun s hs => by simp at hs)
        refine ⟨this.1, this.2.1.trans hbg, fun s hs => ?_⟩
        obtain ⟨h1, h2⟩ := this.2.2 s hs
        refine ⟨by omega, fun i hi1 hi2 => ?_⟩
        have := h2 i hi1 (by omega)
        rw [hbg] at this
        exact this

theorem detectEntrances_inv [One C] [LinearOrderedAddCommGroup C]
    {hp : HierarchicalGrid C} (fixed rangeStart rangeEnd : Nat) (isVertical : Bool)
    (neighborCoord : Nat) (inv : HGInv hp) :
    HGInv (detectEntrances hp fixed rangeStart rangeEnd isVertical neighborCoord) ∧
    (detectEntrances hp fixed rangeStart rangeEnd isVertical
      neighborCoord).baseGrid = hp.baseGrid := by
  unfold detectEntrances
  dsimp only
  have hloop := detectLoop_inv fixed isVertical neighborCoord
    (rangeEnd - rangeStart) rangeStart hp none inv (fun s hs => by simp at hs)
  cases hres : ((List.range' rangeStart (rangeEnd - rangeStart)).foldl
      (detectStep fixed isVertical neighborCoord) (hp, none)).2 with
  | none =>
    exact ⟨hloop.1, hloop.2.1⟩
  | some s =>
    by_cases hrs : rangeEnd ≤ rangeStart
    · rw [Nat.sub_eq_zero_of_le hrs] at hres
      exact absurd hres (by simp [List.range'])
    · obtain ⟨hinvf, hbg, hspan⟩ := hloop
      obtain ⟨hslt, hsp⟩ := hspan s hres
      have hsre : s < rangeEnd := by omega
      have hpair := hsp ((s + (rangeEnd - 1)) / 2) (by omega) (by omega)
      rw [entrancePair, Bool.and_eq_true, Bool.not_eq_true', Bool.not_eq_true'] at hpair
      have hinvc : HGInv (createEntrance
          ((List.range' rangeStart (rangeEnd - rangeStart)).foldl
            (detectStep fixed isVertical neighborCoord) (hp, none)).1
          s (rangeEnd - 1) fixed isVertical neighborCoord) := by
        refine createEntrance_inv hinvf ?_ ?_
        · rw [hbg]
          cases isVertical with
          | true => simpa using hpair.1
          | false => simpa using hpair.1
        · rw [hbg]
          cases isVertical with
          | true => simpa using hpair.2
          | false => simpa using hpair.2
      exact ⟨hinvc, hbg⟩

theorem buildAbstractNodes_inv [One C] [LinearOrderedAddCommGroup C]
    {hp : HierarchicalGrid C} (inv : HGInv hp) :
    HGInv (buildAbstractNodes hp) ∧
    (buildAbstractNodes hp).baseGrid = hp.baseGrid := by
  unfold buildAbstractNodes
  dsimp only
  have hV : HGInv ((List.range ((hp.baseGrid.height + hp.clusterSize - 1) /
        hp.clusterSize)).foldl (fun acc cy =>
        (List.range ((hp.baseGrid.width + hp.clusterSize - 1) / hp.clusterSize - 1)).foldl
          (fun acc2 cx =>
            if hp.baseGrid.width ≤ (cx + 1) * hp.clusterSize - 1 + 1 then acc2
            else detectEntrances acc2 ((cx + 1) * hp.clusterSize - 1)
              (cy * hp.clusterSize) (min ((cy + 1) * hp.clusterSize) hp.baseGrid.height)
              true ((cx + 1) * hp.clusterSize - 1 + 1)) acc) hp) ∧
      ((List.range ((hp.baseGrid.height + hp.clusterSize - 1) /
        hp.clusterSize)).foldl (fun acc cy =>
        (List.range ((hp.baseGrid.width + hp.clusterSize - 1) / hp.clusterSize - 1)).foldl
          (fun acc2 cx =>
            if hp.baseGrid.width ≤ (cx + 1) * hp.clusterSize - 1 + 1 then acc2
            else detectEntrances acc2 ((cx + 1) * hp.clusterSize - 1)
              (cy * hp.clusterSize) (min ((cy + 1) * hp.clusterSize) hp.baseGrid.height)
              true ((cx + 1) * hp.clusterSize - 1 + 1)) acc) hp).baseGrid =
        hp.baseGrid := by
    refine foldl_induction
      (fun acc : HierarchicalGrid C => HGInv acc ∧ acc.baseGrid = hp.baseGrid)
      _ _ _ ⟨inv, rfl⟩ ?_
    intro cy acc _ hacc
    refine foldl_induction
      (fun acc : HierarchicalGrid C => HGInv acc ∧ acc.baseGrid = hp.baseGrid)
      _ _ _ hacc ?_
    intro cx acc2 _ hacc2
    by_cases hb : hp.baseGrid.width ≤ (cx + 1) * hp.clusterSize - 1 + 1
    · rw [if_pos hb]; exact hacc2
    · rw [if_neg hb]
      have := detectEntrances_inv ((cx + 1) * hp.clusterSize - 1)
        (cy * hp.clusterSize) (min ((cy + 1) * hp.clusterSize) hp.baseGrid.height)
        true ((cx + 1) * hp.clusterSize - 1 + 1) hacc2.1
      exact ⟨this.1, this.2.trans hacc2.2⟩
  refine foldl_induction
    (fun acc : HierarchicalGrid C => HGInv acc ∧ acc.baseGrid = hp.baseGrid)
    _ _ _ hV ?_
  intro cy acc _ hacc
  refine foldl_induction
    (fun acc : HierarchicalGrid C => HGInv acc ∧ acc.baseGrid = hp.baseGrid)
    _ _ _ hacc ?_
  intro cx acc2 _ hacc2
  by_cases hb : hp.baseGrid.height ≤ (cy + 1) * hp.clusterSize - 1 + 1
  · rw [if_pos hb]; exact hacc2
  · rw [if_neg hb]
    have := detectEntrances_inv ((cy + 1) * hp.clusterSize - 1)
      (cx * hp.clusterSize) (min ((cx + 1) * hp.clusterSize) hp.baseGrid.width)
      false ((cy + 1) * hp.clusterSize - 1 + 1) hacc2.1
    exact ⟨this.1, this.2.trans hacc2.2⟩

theorem processCluster_spec [LinearOrderedCommRing C] {hp : HierarchicalGrid C}
    {sqrt2 : C} {fuel : Nat} {coords : Nat × Nat}
    (inv : HGInv hp) (hg : GridNonneg hp.baseGrid) (hs : 0 ≤ sqrt2) :
    ∀ t ∈ processCluster hp sqrt2 fuel coords,
      t.1 < hp.nodes.length ∧ t.2.1 < hp.nodes.length ∧
      t.2.2.2.head? = hp.nodes[t.1]? ∧
      t.2.2.2.getLast? = hp.nodes[t.2.1]? ∧
      ∀ q ∈ t.2.2.2, hp.baseGrid.isBlocked q.x q.y = false := by
  intro t ht
  unfold processCluster at ht
  cases hcl : clusterLookup hp.clusterNodes coords with
  | none => rw [hcl] at ht; simp at ht
  | some ids =>
    rw [hcl] at ht
    dsimp only at ht
    by_cases hlen : 2 ≤ ids.length
    · rw [if_pos hlen] at ht
      obtain ⟨i, hi, ht2⟩ := List.mem_flatMap.mp ht
      obtain ⟨j, hj, ht3⟩ := List.mem_flatMap.mp ht2
      have hids : ∀ id ∈ ids, id < hp.nodes.length := by
        unfold clusterLookup at hcl
        cases hfind : hp.clusterNodes.find? (fun kv => kv.1 = coords) with
        | none => rw [hfind] at hcl; simp at hcl
        | some kv =>
          rw [hfind] at hcl
          simp at hcl
          intro id hid
          refine inv.clusterIds kv (List.mem_of_find?_eq_some hfind) id ?_
          rw [hcl]
          exact hid
      have hi2 : i < ids.length := List.mem_range.mp hi
      have hj2 : j < ids.length := by
        have := List.mem_range'_1.mp hj
        omega
      have hA : ids.getD i 0 < hp.nodes.length := by
        refine hids _ ?_
        rw [getD_eq_getElem _ _ _ hi2]
        exact List.getElem_mem hi2
      have hB : ids.getD j 0 < hp.nodes.length := by
        refine hids _ ?_
        rw [getD_eq_getElem _ _ _ hj2]
        exact List.getElem_mem hj2
      have hgA : hp.nodes[ids.getD i 0]? = some (hp.nodes.getD (ids.getD i 0) ⟨0, 0⟩) := by
        rw [List.getElem?_eq_getElem hA, getD_eq_getElem _ _ _ hA]
      have hgB : hp.nodes[ids.getD j 0]? = some (hp.nodes.getD (ids.getD j 0) ⟨0, 0⟩) := by
        rw [List.getElem?_eq_getElem hB, getD_eq_getElem _ _ _ hB]
      have hpassA : hp.baseGrid.isBlocked (hp.nodes.getD (ids.getD i 0) ⟨0, 0⟩).x
          (hp.nodes.getD (ids.getD i 0) ⟨0, 0⟩).y = false := by
        rw [getD_eq_getElem _ _ _ hA]
        exact inv.nodesPassable _ (List.getElem_mem hA)
      cases hrun : astar (hp.baseGrid.neighborsList sqrt2) manhattan
          (hp.nodes.getD (ids.getD i 0) ⟨0, 0⟩) (hp.nodes.getD (ids.getD j 0) ⟨0, 0⟩)
          ⟨none, .preferHigherG⟩ (fun _ => false) fuel with
      | none => rw [hrun] at ht3; simp at ht3
      | some r =>
        rw [hrun] at ht3
        dsimp only at ht3
        by_cases hf : r.status = .found
        · rw [if_pos hf] at ht3
          obtain ⟨hhead, hlast, hpass⟩ := astar_grid_found_facts hg hs hrun hf hpassA
          rcases List.mem_cons.mp ht3 with h1 | h2
          · rw [h1]
            exact ⟨hA, hB, by rw [hgA]; exact hhead, by rw [hgB]; exact hlast, hpass⟩
          · have h2e : t = (ids.getD j 0, ids.getD i 0, r.cost, r.path.reverse) := by
              simpa using h2
            rw [h2e]
            refine ⟨hB, hA, ?_, ?_, ?_⟩
            · rw [hgB, List.head?_reverse]
              exact hlast
            · rw [hgA, List.getLast?_reverse]
              exact hhead
            · intro q hq
              exact hpass q (List.mem_reverse.mp hq)
        · rw [if_neg hf] at ht3
          simp at ht3
    · rw [if_neg hlen] at ht
      simp at ht

theorem buildIntraClusterEdges_inv [LinearOrderedCommRing C] {hp : HierarchicalGrid C}
    {sqrt2 : C} {fuel : Nat} (inv : HGInv hp) (hg : GridNonneg hp.baseGrid)
    (hs : 0 ≤ sqrt2) :
    HGInv (buildIntraClusterEdges hp sqrt2 fuel) ∧
    (buildIntraClusterEdges hp sqrt2 fuel).baseGrid = hp.baseGrid ∧
    (buildIntraClusterEdges hp sqrt2 fuel).nodes = hp.nodes := by
  unfold buildIntraClusterEdges
  dsimp only
  have hres := foldl_induction
    (fun acc : HierarchicalGrid C =>
      HGInv acc ∧ acc.nodes = hp.nodes ∧ acc.baseGrid = hp.baseGrid)
    (fun acc e => addEdge acc e.1 e.2.1 e.2.2.1 e.2.2.2)
    ((hp.clusterNodes.map (fun kv => kv.1)).flatMap (processCluster hp sqrt2 fuel))
    hp ⟨inv, rfl, rfl⟩ ?_
  · exact ⟨hres.1, hres.2.2, hres.2.1⟩
  · intro x acc hx hacc
    obtain ⟨c, _, hx2⟩ := List.mem_flatMap.mp hx
    obtain ⟨h1, h2, h3, h4, h5⟩ := processCluster_spec inv hg hs x hx2
    refine ⟨?_, hacc.2.1, hacc.2.2⟩
    refine addEdge_inv hacc.1 (hacc.2.1 ▸ h1) (hacc.2.1 ▸ h2) ?_ ?_ ?_
    · rw [hacc.2.1]; exact h3
    · rw [hacc.2.1]; exact h4
    · intro q hq
      rw [hacc.2.2]
      exact h5 q hq

/-- C6: every abstract edge stored by `HierarchicalGrid::new` carries a
concrete path whose first element is the source node's position, whose
last element is the target node's position, and whose cells are all
passable in the base grid.  (`GridNonneg`/`0 ≤ sqrt2` are the Graph
contract's non-negative edge costs.) -/
theorem hierarchical_edge_valid [LinearOrderedCommRing C]
    (base : Grid2D C) (cs : Nat) (sqrt2 : C) (fuel : Nat)
    (hg : GridNonneg base) (hs : 0 ≤ sqrt2)
    (src : Nat) (l : List (AbstractEdge C)) (e : AbstractEdge C)
    (hl : (HierarchicalGrid.new base cs sqrt2 fuel).edges src = some l) (he : e ∈ l) :
    e.path.head? = (HierarchicalGrid.new base cs sqrt2 fuel).nodes[src]? ∧
    e.path.getLast? = (HierarchicalGrid.new base cs sqrt2 fuel).nodes[e.target]? ∧
    ∀ q ∈ e.path, base.isBlocked q.x q.y = false := by
  have inv0 : HGInv (⟨base, cs, [], MapF.empty, []⟩ : HierarchicalGrid C) := by
    refine ⟨?_, ?_, ?_⟩
    · intro p hp2; simp at hp2
    · intro kv hkv; simp at hkv
    · intro src2 l2 hl2; exact absurd hl2 (by simp [MapF.empty])
  obtain ⟨inv1, hbg1⟩ :=
    @buildAbstractNodes_inv C _ _ ⟨base, cs, [], MapF.empty, []⟩ inv0
  have hg1 : GridNonneg (buildAbstractNodes
      (⟨base, cs, [], MapF.empty, []⟩ : HierarchicalGrid C)).baseGrid := by
    rw [hbg1]; exact hg
  obtain ⟨inv2, hbg2, _⟩ := @buildIntraClusterEdges_inv C _ _ sqrt2 fuel
    inv1 hg1 hs
  obtain ⟨_, _, hh, hlast, hpass⟩ := inv2.edgeOk src l hl e he
  refine ⟨hh, hlast, fun q hq => ?_⟩
  have := hpass q hq
  rw [hbg2, hbg1] at this
  exact this

theorem cellAt_new [One C] (w h : Nat) (dm : DiagonalMode) (x y : Int) :
    (Grid2D.new (C := C) w h dm).cellAt x y = .blocked ∨
    (Grid2D.new (C := C) w h dm).cellAt x y = .passable 1 := by
  unfold Grid2D.cellAt
  by_cases h1 : x < 0 ∨ y < 0
  · rw [if_pos h1]
    exact Or.inl rfl
  · rw [if_neg h1]
    by_cases h2 : (Grid2D.new (C := C) w h dm).width ≤ x.toNat ∨
        (Grid2D.new (C := C) w h dm).height ≤ y.toNat
    · rw [if_pos h2]
      exact Or.inl rfl
    · rw [if_neg h2]
      show (List.replicate (w * h) (CellType.passable (1 : C))).getD _ .blocked = _ ∨
        (List.replicate (w * h) (CellType.passable (1 : C))).getD _ .blocked = _
      rcases Nat.lt_or_ge (y.toNat * (Grid2D.new (C := C) w h dm).width + x.toNat)
          (w * h) with h3 | h3
      · rw [replicate_getD _ _ _ _ h3]
        exact Or.inr rfl
      · left
        rw [show (Grid2D.new (C := C) w h dm).width = w from rfl] at h3 ⊢
        simp [List.getD, List.getElem?_replicate, Nat.not_lt.mpr h3]

theorem gridNonneg_new [LinearOrderedCommRing C] (w h : Nat) (dm : DiagonalMode) :
    GridNonneg (Grid2D.new (C := C) w h dm) := by
  intro x y
  rcases cellAt_new (C := C) w h dm x y with hc | hc <;>
    simp [Grid2D.costMult, hc]

/-- Witness for C6 on a 4x1 grid with cluster size 2: one entrance pair
with its two inter-cluster edges. -/
theorem hierarchical_edge_valid_witness :
    (HierarchicalGrid.new (Grid2D.new (C := ℤ) 4 1 .never) 2 1 20).edges 0 =
      some [⟨1, 1, [⟨1, 0⟩, ⟨2, 0⟩]⟩] ∧
    ((⟨1, 1, [⟨1, 0⟩, ⟨2, 0⟩]⟩ : AbstractEdge ℤ).path.head? =
      (HierarchicalGrid.new (Grid2D.new (C := ℤ) 4 1 .never) 2 1 20).nodes[0]? ∧
    (⟨1, 1, [⟨1, 0⟩, ⟨2, 0⟩]⟩ : AbstractEdge ℤ).path.getLast? =
      (HierarchicalGrid.new (Grid2D.new (C := ℤ) 4 1 .never) 2 1
        20).nodes[(⟨1, 1, [⟨1, 0⟩, ⟨2, 0⟩]⟩ : AbstractEdge ℤ).target]? ∧
    ∀ q ∈ (⟨1, 1, [⟨1, 0⟩, ⟨2, 0⟩]⟩ : AbstractEdge ℤ).path,
      (Grid2D.new (C := ℤ) 4 1 .never).isBlocked q.x q.y = false) := by
  refine ⟨by decide, ?_⟩
  exact hierarchical_edge_valid (Grid2D.new (C := ℤ) 4 1 .never) 2 1 20
    (gridNonneg_new 4 1 .never) (by decide) 0 [⟨1, 1, [⟨1, 0⟩, ⟨2, 0⟩]⟩]
    ⟨1, 1, [⟨1, 0⟩, ⟨2, 0⟩]⟩ (by decide) (by decide)

/-! ### Heap-order lemmas for the budget/blocking equivalence (C2) -/

theorem higherPriority_iff [LinearOrder C] (a b : HState N C) :
    higherPriority a b = true ↔
      (a.cost < b.cost ∨ (a.cost = b.cost ∧ b.tieBreaker < a.tieBreaker)) := by
  unfold higherPriority
  split_ifs with h1 h2 h3
  · simp [h1]
  · simp only [false_iff]
    push_neg
    refine ⟨not_lt.mp h1, fun he => absurd h2 (by rw [he]; exact lt_irrefl _)⟩
  · have he : a.cost = b.cost := le_antisymm (not_lt.mp h2) (not_lt.mp h1)
    simp [he, h3]
  · have he : a.cost = b.cost := le_antisymm (not_lt.mp h2) (not_lt.mp h1)
    simp [he, h3]

theorem higherPriority_irrefl [LinearOrder C] (a : HState N C) :
    higherPriority a a ≠ true := by
  intro h
  rw [higherPriority_iff] at h
  rcases h with h | ⟨-, h⟩ <;> exact lt_irrefl _ h

theorem higherPriority_asymm [LinearOrder C] {a b : HState N C}
    (h : higherPriority a b = true) : higherPriority b a ≠ true := by
  intro h2
  rw [higherPriority_iff] at h h2
  rcases h with h | ⟨he, ht⟩ <;> rcases h2 with h2 | ⟨he2, ht2⟩
  · exact lt_asymm h h2
  · exact absurd h (by rw [he2]; exact lt_irrefl _)
  · exact absurd h2 (by rw [he]; exact lt_irrefl _)
  · exact lt_asymm ht ht2

theorem higherPriority_resolve [LinearOrder C] {x m a : HState N C}
    (h1 : higherPriority x m ≠ true) (h2 : higherPriority m a ≠ true) :
    higherPriority x a ≠ true := by
  intro hxa
  rw [Ne, higherPriority_iff] at h1 h2
  rw [higherPriority_iff] at hxa
  push_neg at h1 h2
  obtain ⟨hmx, h1t⟩ := h1
  obtain ⟨ham, h2t⟩ := h2
  rcases hxa with hlt | ⟨heq, htb⟩
  · exact absurd hlt (not_lt.mpr (le_trans ham hmx))
  · have hxm : x.cost = m.cost := le_antisymm (le_trans (le_of_eq heq) ham) hmx
    have hma : m.cost = a.cost := le_antisymm (le_trans hmx (le_of_eq heq)) ham
    have t1 : x.tieBreaker ≤ m.tieBreaker := h1t hxm
    have t2 : m.tieBreaker ≤ a.tieBreaker := h2t hma
    exact absurd htb (not_lt.mpr (le_trans t1 t2))

theorem popMax_max [LinearOrder C] :
    ∀ {l : List (HState N C)} {s : HState N C} {rest : List (HState N C)},
      popMax l = some (s, rest) → ∀ x ∈ l, higherPriority x s ≠ true := by
  intro l
  induction l with
  | nil => intro s rest h; simp [popMax] at h
  | cons a as ih =>
    intro s rest h x hx
    simp only [popMax] at h
    cases hm : popMax as with
    | none =>
      rw [hm] at h
      have has : as = [] := (popMax_eq_none_iff as).mp hm
      subst has
      simp only [Option.some.injEq, Prod.mk.injEq] at h
      obtain ⟨rfl, rfl⟩ := h
      simp only [List.mem_singleton] at hx
      subst hx
      exact higherPriority_irrefl _
    | some ms =>
      obtain ⟨m, r⟩ := ms
      rw [hm] at h
      dsimp only at h
      by_cases hcmp : higherPriority m a = true
      · rw [if_pos hcmp] at h
        simp only [Option.some.injEq, Prod.mk.injEq] at h
        obtain ⟨rfl, rfl⟩ := h
        rcases List.mem_cons.mp hx with rfl | hx2
        · exact higherPriority_asymm hcmp
        · exact ih hm x hx2
      · rw [if_neg hcmp] at h
        simp only [Option.some.injEq, Prod.mk.injEq] at h
        obtain ⟨rfl, rfl⟩ := h
        rcases List.mem_cons.mp hx with rfl | hx2
        · exact higherPriority_irrefl _
        · exact higherPriority_resolve (ih hm x hx2) hcmp

theorem popMax_perm [LinearOrder C] :
    ∀ {l : List (HState N C)} {s : HState N C} {rest : List (HState N C)},
      popMax l = some (s, rest) → l.Perm (s :: rest) := by
  intro l
  induction l with
  | nil => intro s rest h; simp [popMax] at h
  | cons a as ih =>
    intro s rest h
    simp only [popMax] at h
    cases hm : popMax as with
    | none =>
      rw [hm] at h
      have has : as = [] := (popMax_eq_none_iff as).mp hm
      subst has
      simp only [Option.some.injEq, Prod.mk.injEq] at h
      obtain ⟨rfl, rfl⟩ := h
      exact List.Perm.refl _
    | some ms =>
      obtain ⟨m, r⟩ := ms
      rw [hm] at h
      dsimp only at h
      by_cases hcmp : higherPriority m a = true
      · rw [if_pos hcmp] at h
        simp only [Option.some.injEq, Prod.mk.injEq] at h
        obtain ⟨rfl, rfl⟩ := h
        exact ((ih hm).cons a).trans (List.Perm.swap _ _ _)
      · rw [if_neg hcmp] at h
        simp only [Option.some.injEq, Prod.mk.injEq] at h
        obtain ⟨rfl, rfl⟩ := h
        exact List.Perm.refl _

theorem popMax_cons_max [LinearOrder C] {s : HState N C} {xs : List (HState N C)}
    (h : ∀ x ∈ xs, higherPriority x s ≠ true) :
    popMax (s :: xs) = some (s, xs) := by
  simp only [popMax]
  cases hm : popMax xs with
  | none =>
    have := (popMax_eq_none_iff xs).mp hm
    subst this
    rfl
  | some ms =>
    obtain ⟨m, r⟩ := ms
    dsimp only
    rw [if_neg (h m (popMax_mem hm))]

/-! ### CostInv preservation and astarLoop unfolding (C2) -/

theorem costInv_perm [DecidableEq N] [LinearOrderedAddCommGroup C]
    {h : N → N → C} {goal : N} {l l' : List (HState N C)} {g : MapF N C}
    (hperm : l.Perm l') (inv : CostInv h goal l g) : CostInv h goal l' g := by
  refine ⟨?_, ?_, ?_⟩
  · intro e he; exact inv.heapDom e (hperm.mem_iff.mpr he)
  · intro v hv
    rcases inv.goalWitness v hv with ⟨e, he, hen, heg⟩
    exact ⟨e, hperm.mem_iff.mp he, hen, heg⟩
  · intro e he hen; exact inv.goalCost e (hperm.mem_iff.mpr he) hen

theorem costInv_pop [DecidableEq N] [LinearOrderedAddCommGroup C]
    {h : N → N → C} {goal : N} {l rest : List (HState N C)} {s : HState N C}
    {g : MapF N C} (hpop : popMax l = some (s, rest)) (hne : s.node ≠ goal)
    (inv : CostInv h goal l g) : CostInv h goal rest g := by
  refine ⟨?_, ?_, ?_⟩
  · intro e he; exact inv.heapDom e (popMax_rest_mem hpop e he)
  · intro v hv
    rcases inv.goalWitness v hv with ⟨e, he, hen, heg⟩
    have he2 : e ∈ s :: rest := (popMax_perm hpop).mem_iff.mp he
    rcases List.mem_cons.mp he2 with rfl | he3
    · exact absurd hen hne
    · exact ⟨e, he3, hen, heg⟩
  · intro e he hen; exact inv.goalCost e (popMax_rest_mem hpop e he) hen

theorem relax_preserves_costInv [DecidableEq N] [LinearOrderedAddCommGroup C]
    {h : N → N → C} {cfg : AStarConfig} {goal current : N} {currentG : C}
    {st : SearchState N C} {nc : N × C}
    (inv : CostInv h goal st.openSet st.gScores) :
    CostInv h goal (relax h cfg goal current currentG st nc).openSet
      (relax h cfg goal current currentG st nc).gScores := by
  rcases relax_case_split h cfg goal current currentG st nc with ⟨hp, heq⟩ | ⟨-, heq⟩
  · rw [heq]
    refine ⟨?_, ?_, ?_⟩ <;> dsimp only
    · intro e he
      rcases List.mem_cons.mp he with rfl | he2
      · exact ⟨currentG + nc.2, by dsimp only; rw [MapF.insert_lookup_eq], le_refl _⟩
      · rcases inv.heapDom e he2 with ⟨v, hv, hle⟩
        by_cases hn : e.node = nc.1
        · refine ⟨currentG + nc.2, by rw [hn, MapF.insert_lookup_eq], ?_⟩
          rcases hp with hnone | ⟨ex, hex, hlt⟩
          · rw [hn, hnone] at hv; exact Option.noConfusion hv
          · rw [hn, hex] at hv
            exact le_of_lt (lt_of_lt_of_le (Option.some_injective _ hv ▸ hlt) hle)
        · exact ⟨v, by rw [MapF.insert_lookup_ne _ _ _ hn]; exact hv, hle⟩
    · intro v hv
      by_cases hg : goal = nc.1
      · rw [hg, MapF.insert_lookup_eq] at hv
        refine ⟨_, List.mem_cons_self _ _, ?_, ?_⟩
        · exact hg.symm
        · exact Option.some_injective _ hv
      · rw [MapF.insert_lookup_ne _ _ _ hg] at hv
        rcases inv.goalWitness v hv with ⟨e, he, hen, heg⟩
        exact ⟨e, List.mem_cons_of_mem _ he, hen, heg⟩
    · intro e he hen
      rcases List.mem_cons.mp he with rfl | he2
      · dsimp only at hen ⊢
        rw [hen]
      · exact inv.goalCost e he2 hen
  · rw [heq]; exact inv

theorem foldl_relax_preserves_costInv [DecidableEq N] [LinearOrderedAddCommGroup C]
    {h : N → N → C} {cfg : AStarConfig} {goal current : N} {currentG : C} :
    ∀ (l : List (N × C)) (st : SearchState N C),
      CostInv h goal st.openSet st.gScores →
      CostInv h goal (l.foldl (relax h cfg goal current currentG) st).openSet
        (l.foldl (relax h cfg goal current currentG) st).gScores
  | [], _, inv => inv
  | nc :: tl, st, inv =>
    foldl_relax_preserves_costInv tl _ (relax_preserves_costInv inv)


/-- At a pop of the goal node, the recorded g of the goal equals the
popped entry's g: the frontier witness of the recorded value cannot have
strictly higher priority than the popped maximum. -/
theorem costInv_found_gScore [DecidableEq N] [LinearOrderedAddCommGroup C]
    {h : N → N → C} {goal : N} {l rest : List (HState N C)} {s : HState N C}
    {g : MapF N C} (hpop : popMax l = some (s, rest)) (hgoal : s.node = goal)
    (inv : CostInv h goal l g) : g goal = some s.gScore := by
  rcases inv.heapDom s (popMax_mem hpop) with ⟨v, hv, hle⟩
  rw [hgoal] at hv
  rcases inv.goalWitness v hv with ⟨e, he, hen, heg⟩
  have hmax := popMax_max hpop e he
  have hce := inv.goalCost e he hen
  have hcs := inv.goalCost s (popMax_mem hpop) hgoal
  rw [Ne, higherPriority_iff] at hmax
  push_neg at hmax
  obtain ⟨hc1, -⟩ := hmax
  rw [hce, hcs, heg] at hc1
  have hle2 : s.gScore ≤ v := le_of_add_le_add_right hc1
  rw [hv]
  exact congrArg some (le_antisymm hle hle2)

theorem astarLoop_step_empty [DecidableEq N] [LinearOrderedAddCommGroup C]
    (adj : N → List (N × C)) (h : N → N → C) (cfg : AStarConfig)
    (timeoutHit : Nat → Bool) (goal : N) (fuel : Nat) (st : SearchState N C)
    (hpop : popMax st.openSet = none) :
    astarLoop adj h cfg timeoutHit goal (fuel + 1) st =
      some ⟨[], 0, st.nodesExpanded, .notFound⟩ := by
  rw [astarLoop, hpop]

theorem astarLoop_step_expand [DecidableEq N] [LinearOrderedAddCommGroup C]
    (adj : N → List (N × C)) (h : N → N → C) (tb : TieBreaking) (goal : N)
    (fuel : Nat) (st : SearchState N C) {s : HState N C} {rest : List (HState N C)}
    (hpop : popMax st.openSet = some (s, rest)) :
    astarLoop adj h ⟨none, tb⟩ (fun _ => false) goal (fuel + 1) st =
      (if s.node = goal then
        reconstructPath st.cameFrom s.node s.gScore st.nodesExpanded .found (fuel + 1)
      else if isStale st.gScores s then
        astarLoop adj h ⟨none, tb⟩ (fun _ => false) goal fuel
          ⟨rest, st.gScores, st.cameFrom, st.nodesExpanded, st.iterations + 1⟩
      else
        astarLoop adj h ⟨none, tb⟩ (fun _ => false) goal fuel
          ((adj s.node).foldl (relax h ⟨none, tb⟩ goal s.node s.gScore)
            ⟨rest, st.gScores, st.cameFrom, st.nodesExpanded + 1,
              st.iterations + 1⟩)) := by
  rw [astarLoop, hpop]
  rfl

theorem astarLoop_pop_aligned [DecidableEq N] [LinearOrderedAddCommGroup C]
    (adj : N → List (N × C)) (h : N → N → C) (tb : TieBreaking) (goal : N)
    {l rest : List (HState N C)} {s : HState N C}
    (hpop : popMax l = some (s, rest)) (f : Nat) (g : MapF N C) (came : MapF N N)
    (ne it : Nat) :
    astarLoop adj h ⟨none, tb⟩ (fun _ => false) goal f ⟨s :: rest, g, came, ne, it⟩ =
      astarLoop adj h ⟨none, tb⟩ (fun _ => false) goal f ⟨l, g, came, ne, it⟩ := by
  cases f with
  | zero => rfl
  | succ f =>
    have hpop2 : popMax (s :: rest) = some (s, rest) :=
      popMax_cons_max (fun x hx => popMax_max hpop x (popMax_rest_mem hpop x hx))
    rw [astarLoop_step_expand adj h tb goal f ⟨s :: rest, g, came, ne, it⟩ hpop2,
      astarLoop_step_expand adj h tb goal f ⟨l, g, came, ne, it⟩ hpop]

theorem relax_keeps_iterations [DecidableEq N] [LinearOrderedAddCommGroup C]
    (h : N → N → C) (cfg : AStarConfig) (goal current : N) (currentG : C)
    (st : SearchState N C) (nc : N × C) :
    relax h cfg goal current currentG st nc =
      { relax h cfg goal current currentG
          ⟨st.openSet, st.gScores, st.cameFrom, st.nodesExpanded, 0⟩ nc with
        iterations := st.iterations } := by
  rcases relax_case_split h cfg goal current currentG st nc with ⟨hp, heq⟩ | ⟨hp, heq⟩
  · rcases relax_case_split h cfg goal current currentG
      ⟨st.openSet, st.gScores, st.cameFrom, st.nodesExpanded, 0⟩ nc with
      ⟨hp2, heq2⟩ | ⟨hp2, heq2⟩
    · rw [heq, heq2]
    · exact absurd hp hp2
  · rcases relax_case_split h cfg goal current currentG
      ⟨st.openSet, st.gScores, st.cameFrom, st.nodesExpanded, 0⟩ nc with
      ⟨hp2, heq2⟩ | ⟨hp2, heq2⟩
    · exact absurd hp2 hp
    · rw [heq, heq2]

theorem foldl_relax_setIter [DecidableEq N] [LinearOrderedAddCommGroup C]
    (h : N → N → C) (cfg : AStarConfig) (goal current : N) (currentG : C) :
    ∀ (l : List (N × C)) (o : List (HState N C)) (g : MapF N C) (came : MapF N N)
      (ne i i' : Nat),
      l.foldl (relax h cfg goal current currentG) ⟨o, g, came, ne, i⟩ =
        { l.foldl (relax h cfg goal current currentG) ⟨o, g, came, ne, i'⟩ with
          iterations := i }
  | [], o, g, came, ne, i, i' => rfl
  | nc :: tl, o, g, came, ne, i, i' => by
    rw [List.foldl_cons, List.foldl_cons,
      relax_keeps_iterations h cfg goal current currentG ⟨o, g, came, ne, i⟩ nc,
      relax_keeps_iterations h cfg goal current currentG ⟨o, g, came, ne, i'⟩ nc]
    dsimp only
    exact foldl_relax_setIter h cfg goal current currentG tl _ _ _ _ i i'

/-- One `step` call simulates a segment of the blocking `astar` loop: a
completing call yields a result some `astarLoop` run returns from the
same search state, and a suspending call leaves a state whose `astarLoop`
runs produce the same results as the pre-call state's. -/
theorem budgetStepLoop_sim [DecidableEq N] [LinearOrderedAddCommGroup C]
    (adj : N → List (N × C)) (h : N → N → C) (budgetHit : Nat → Bool) (goal : N)
    (tb : TieBreaking) :
    ∀ (fuel : Nat) (bp : BudgetedPathfinder N C) (done : Bool)
      (bp2 : BudgetedPathfinder N C),
      bp.config = ⟨none, tb⟩ →
      CostInv h goal bp.openSet bp.gScores →
      budgetStepLoop adj h budgetHit goal fuel bp = some (done, bp2) →
      bp2.config = bp.config ∧ bp2.goal = bp.goal ∧
      (done = true →
        ∃ res, bp2.status = ComputeStatus.complete res ∧
          ∃ f, ∀ it, astarLoop adj h ⟨none, tb⟩ (fun _ => false) goal f
            ⟨bp.openSet, bp.gScores, bp.cameFrom, bp.nodesExpanded, it⟩ = some res) ∧
      (done = false →
        bp2.status = bp.status ∧
        CostInv h goal bp2.openSet bp2.gScores ∧
        ∀ res : PathResult N C,
          (∃ f, ∀ it, astarLoop adj h ⟨none, tb⟩ (fun _ => false) goal f
            ⟨bp2.openSet, bp2.gScores, bp2.cameFrom, bp2.nodesExpanded, it⟩ = some res) →
          ∃ f, ∀ it, astarLoop adj h ⟨none, tb⟩ (fun _ => false) goal f
            ⟨bp.openSet, bp.gScores, bp.cameFrom, bp.nodesExpanded, it⟩ = some res) := by
  intro fuel
  induction fuel with
  | zero =>
    intro bp done bp2 hcfg hinv hrun
    exact Option.noConfusion hrun
  | succ fuel ih =>
    intro bp done bp2 hcfg hinv hrun
    rw [budgetStepLoop] at hrun
    cases hpop : popMax bp.openSet with
    | none =>
      rw [hpop] at hrun
      dsimp only at hrun
      simp only [Option.some.injEq, Prod.mk.injEq] at hrun
      obtain ⟨hdone, hbp2⟩ := hrun
      subst hdone
      subst hbp2
      refine ⟨rfl, rfl, ?_, ?_⟩
      · intro _
        refine ⟨⟨[], 0, bp.nodesExpanded, .notFound⟩, rfl, fuel + 1, fun it => ?_⟩
        exact astarLoop_step_empty adj h ⟨none, tb⟩ (fun _ => false) goal fuel
          ⟨bp.openSet, bp.gScores, bp.cameFrom, bp.nodesExpanded, it⟩ hpop
      · intro hc; exact Bool.noConfusion hc
    | some sr =>
      obtain ⟨s, rest⟩ := sr
      rw [hpop] at hrun
      rw [hcfg] at hrun
      dsimp only at hrun
      by_cases hbud :
          (((bp.iterations + 1) % 10 == 0) && budgetHit (bp.iterations + 1)) = true
      · rw [if_pos hbud] at hrun
        cases hrec : budgetReconstruct (C := C) bp.gScores bp.cameFrom s.node
            bp.nodesExpanded PathStatus.partTimeout (fuel + 1) with
        | none => rw [hrec] at hrun; exact Option.noConfusion hrun
        | some pr =>
          rw [hrec] at hrun
          dsimp only at hrun
          simp only [Option.some.injEq, Prod.mk.injEq] at hrun
          obtain ⟨hdone, hbp2⟩ := hrun
          subst hdone
          subst hbp2
          refine ⟨hcfg.symm, rfl, ?_, ?_⟩
          · intro hc; exact Bool.noConfusion hc
          · intro _
            refine ⟨rfl, costInv_perm (popMax_perm hpop) hinv, ?_⟩
            intro res hex
            obtain ⟨f, hf⟩ := hex
            refine ⟨f, fun it => ?_⟩
            rw [← hf it]
            exact (astarLoop_pop_aligned adj h tb goal hpop f bp.gScores bp.cameFrom
              bp.nodesExpanded it).symm
      · rw [if_neg hbud] at hrun
        by_cases hgoal : s.node = goal
        · rw [if_pos hgoal] at hrun
          cases hrec : budgetReconstruct (C := C) bp.gScores bp.cameFrom s.node
              bp.nodesExpanded PathStatus.found (fuel + 1) with
          | none => rw [hrec] at hrun; exact Option.noConfusion hrun
          | some res =>
            rw [hrec] at hrun
            dsimp only at hrun
            simp only [Option.some.injEq, Prod.mk.injEq] at hrun
            obtain ⟨hdone, hbp2⟩ := hrun
            subst hdone
            subst hbp2
            refine ⟨hcfg.symm, rfl, ?_, ?_⟩
            · intro _
              refine ⟨res, rfl, fuel + 1, fun it => ?_⟩
              rw [astarLoop_step_expand adj h tb goal fuel
                ⟨bp.openSet, bp.gScores, bp.cameFrom, bp.nodesExpanded, it⟩ hpop]
              rw [if_pos hgoal]
              rw [budgetReconstruct] at hrec
              cases hch : ancestorChain bp.cameFrom (fuel + 1) s.node with
              | none => rw [hch] at hrec; exact Option.noConfusion hrec
              | some chain =>
                rw [hch, Option.map_some'] at hrec
                simp only [Option.some.injEq] at hrec
                have hhead := (ancestorChain_spec bp.cameFrom (fuel + 1) s.node
                  chain hch).1
                have hg : bp.gScores goal = some s.gScore :=
                  costInv_found_gScore hpop hgoal hinv
                have hcost : ((chain.reverse.getLast?).bind bp.gScores).getD 0 =
                    s.gScore := by
                  rw [List.getLast?_reverse, hhead]
                  show (bp.gScores s.node).getD 0 = s.gScore
                  rw [hgoal, hg]
                  rfl
                rw [reconstructPath, hch, Option.map_some', ← hrec, hcost]
            · intro hc; exact Bool.noConfusion hc
        · rw [if_neg hgoal] at hrun
          by_cases hstale : isStale bp.gScores s = true
          · rw [if_pos hstale] at hrun
            have hinv2 : CostInv h goal rest bp.gScores :=
              costInv_pop hpop hgoal hinv
            obtain ⟨hc2, hg2, htrue, hfalse⟩ := ih _ done bp2 rfl hinv2 hrun
            refine ⟨hc2.trans hcfg.symm, hg2, ?_, ?_⟩
            · intro hd
              obtain ⟨res, hst, f, hf⟩ := htrue hd
              refine ⟨res, hst, f + 1, fun it => ?_⟩
              rw [astarLoop_step_expand adj h tb goal f
                ⟨bp.openSet, bp.gScores, bp.cameFrom, bp.nodesExpanded, it⟩ hpop]
              rw [if_neg hgoal, if_pos hstale]
              exact hf (it + 1)
            · intro hd
              obtain ⟨hst, hCI, htr⟩ := hfalse hd
              refine ⟨hst, hCI, ?_⟩
              intro res hex
              obtain ⟨f, hf⟩ := htr res hex
              refine ⟨f + 1, fun it => ?_⟩
              rw [astarLoop_step_expand adj h tb goal f
                ⟨bp.openSet, bp.gScores, bp.cameFrom, bp.nodesExpanded, it⟩ hpop]
              rw [if_neg hgoal, if_pos hstale]
              exact hf (it + 1)
          · rw [if_neg hstale] at hrun
            have hinv2 : CostInv h goal rest bp.gScores :=
              costInv_pop hpop hgoal hinv
            have hinv3 : CostInv h goal
                ((adj s.node).foldl (relax h ⟨none, tb⟩ goal s.node s.gScore)
                  ⟨rest, bp.gScores, bp.cameFrom, bp.nodesExpanded + 1,
                    bp.iterations + 1⟩).openSet
                ((adj s.node).foldl (relax h ⟨none, tb⟩ goal s.node s.gScore)
                  ⟨rest, bp.gScores, bp.cameFrom, bp.nodesExpanded + 1,
                    bp.iterations + 1⟩).gScores :=
              foldl_relax_preserves_costInv (adj s.node)
                ⟨rest, bp.gScores, bp.cameFrom, bp.nodesExpanded + 1,
                  bp.iterations + 1⟩ hinv2
            obtain ⟨hc2, hg2, htrue, hfalse⟩ := ih _ done bp2 rfl hinv3 hrun
            refine ⟨hc2.trans hcfg.symm, hg2, ?_, ?_⟩
            · intro hd
              obtain ⟨res, hst, f, hf⟩ := htrue hd
              refine ⟨res, hst, f + 1, fun it => ?_⟩
              rw [astarLoop_step_expand adj h tb goal f
                ⟨bp.openSet, bp.gScores, bp.cameFrom, bp.nodesExpanded, it⟩ hpop]
              rw [if_neg hgoal, if_neg hstale]
              rw [foldl_relax_setIter h ⟨none, tb⟩ goal s.node s.gScore
                (adj s.node) rest bp.gScores bp.cameFrom (bp.nodesExpanded + 1)
                (it + 1) (bp.iterations + 1)]
              exact hf (it + 1)
            · intro hd
              obtain ⟨hst, hCI, htr⟩ := hfalse hd
              refine ⟨hst, hCI, ?_⟩
              intro res hex
              obtain ⟨f, hf⟩ := htr res hex
              refine ⟨f + 1, fun it => ?_⟩
              rw [astarLoop_step_expand adj h tb goal f
                ⟨bp.openSet, bp.gScores, bp.cameFrom, bp.nodesExpanded, it⟩ hpop]
              rw [if_neg hgoal, if_neg hstale]
              rw [foldl_relax_setIter h ⟨none, tb⟩ goal s.node s.gScore
                (adj s.node) rest bp.gScores bp.cameFrom (bp.nodesExpanded + 1)
                (it + 1) (bp.iterations + 1)]
              exact hf (it + 1)

theorem driveSteps_sim [DecidableEq N] [LinearOrderedAddCommGroup C]
    (adj : N → List (N × C)) (h : N → N → C) (goal : N) (tb : TieBreaking)
    (oracle : Nat → Nat → Bool) (innerFuel : Nat) :
    ∀ (K : Nat) (bp bpF : BudgetedPathfinder N C) (res : PathResult N C),
      bp.config = ⟨none, tb⟩ →
      bp.goal = some goal →
      bp.status = ComputeStatus.inProgress →
      CostInv h goal bp.openSet bp.gScores →
      driveSteps adj h oracle innerFuel K bp = some bpF →
      bpF.takeResult = some res →
      ∃ f, ∀ it, astarLoop adj h ⟨none, tb⟩ (fun _ => false) goal f
        ⟨bp.openSet, bp.gScores, bp.cameFrom, bp.nodesExpanded, it⟩ = some res := by
  intro K
  induction K with
  | zero => intro bp bpF res _ _ _ _ hd _; exact Option.noConfusion hd
  | succ K ih =>
    intro bp bpF res hcfg hgoal hst hinv hd hres
    rw [driveSteps] at hd
    unfold budgetStep at hd
    rw [hst, hgoal] at hd
    dsimp only at hd
    cases hstep : budgetStepLoop adj h (oracle K) goal innerFuel bp with
    | none => rw [hstep] at hd; exact Option.noConfusion hd
    | some db =>
      obtain ⟨done, bp2⟩ := db
      rw [hstep] at hd
      obtain ⟨hc2, hg2, htrue, hfalse⟩ :=
        budgetStepLoop_sim adj h (oracle K) goal tb innerFuel bp done bp2 hcfg
          hinv hstep
      cases done with
      | true =>
        dsimp only at hd
        simp only [Option.some.injEq] at hd
        subst hd
        obtain ⟨res2, hst2, f, hf⟩ := htrue rfl
        rw [BudgetedPathfinder.takeResult, hst2] at hres
        simp only [Option.some.injEq] at hres
        subst hres
        exact ⟨f, hf⟩
      | false =>
        dsimp only at hd
        obtain ⟨hst2, hCI, htr⟩ := hfalse rfl
        exact htr res (ih bp2 bpF res (hc2.trans hcfg) (hg2.trans hgoal)
          (hst2.trans hst) hCI hd hres)

/-- Under a SHARED determinized heap tie order (`popMax`, with the
suspension re-push restored at the front of its tie class), driving the
budgeted pathfinder to completion yields, via `take_result`, exactly
the result (path, cost, nodes expanded and status) of a single blocking
`astar` call on the same inputs.  This supports the tie-resolution-
conditional half of the amended C2; the unconditional equality claimed
originally fails, see `budgeted_steps_tie_order_counterexample`. -/
theorem budgeted_steps_equiv_astar [DecidableEq N] [LinearOrderedAddCommGroup C]
    (adj : N → List (N × C)) (h : N → N → C) (start goal : N) (tb : TieBreaking)
    (oracle : Nat → Nat → Bool) (innerFuel K : Nat)
    (bpF : BudgetedPathfinder N C) (res : PathResult N C)
    (hdrive : driveSteps adj h oracle innerFuel K
      ((BudgetedPathfinder.new ⟨none, tb⟩).start start goal h) = some bpF)
    (hres : bpF.takeResult = some res) :
    ∃ fuel, astar adj h start goal ⟨none, tb⟩ (fun _ => false) fuel = some res := by
  have hinit : CostInv h goal
      ((BudgetedPathfinder.new (N := N) (C := C) ⟨none, tb⟩).start start goal
        h).openSet
      ((BudgetedPathfinder.new (N := N) (C := C) ⟨none, tb⟩).start start goal
        h).gScores := by
    constructor
    · intro e he
      simp only [BudgetedPathfinder.start, List.mem_singleton] at he
      subst he
      exact ⟨0, MapF.insert_lookup_eq _ _ _, le_refl 0⟩
    · intro v hv
      by_cases hgs : goal = start
      · rw [show ((BudgetedPathfinder.new (N := N) (C := C) ⟨none, tb⟩).start
            start goal h).gScores = MapF.empty.insert start 0 from rfl, hgs,
          MapF.insert_lookup_eq] at hv
        refine ⟨⟨start, h start goal, 0, 0⟩, List.mem_singleton_self _, hgs.symm, ?_⟩
        exact Option.some_injective _ hv
      · rw [show ((BudgetedPathfinder.new (N := N) (C := C) ⟨none, tb⟩).start
            start goal h).gScores = MapF.empty.insert start 0 from rfl,
          MapF.insert_lookup_ne _ _ _ hgs] at hv
        exact Option.noConfusion hv
    · intro e he hen
      simp only [BudgetedPathfinder.start, List.mem_singleton] at he
      subst he
      dsimp only at hen ⊢
      rw [hen, zero_add]
  obtain ⟨f, hf⟩ := driveSteps_sim adj h goal tb oracle innerFuel K _ bpF res
    rfl rfl rfl hinit hdrive hres
  exact ⟨f, hf 0⟩

/-- Witness for the determinized-tie-order equivalence on the 11-node
path graph 0 → 1 → ... → 10 with zero heuristic: the per-step budget
oracle suspends the first step at iteration 10, the second step resumes
and completes, and the blocking astar returns the very same result. -/
theorem budgeted_steps_equiv_astar_witness :
    ((driveSteps (fun i => if i < 10 then [(i + 1, (1 : ℤ))] else [])
        (fun _ _ => (0 : ℤ)) (fun _ it => it == 10) 30 3
        ((BudgetedPathfinder.new ⟨none, .noTie⟩).start 0 10
          (fun _ _ => (0 : ℤ)))).bind BudgetedPathfinder.takeResult =
      some ⟨[0, 1, 2, 3, 4, 5, 6, 7, 8, 9, 10], 10, 10, .found⟩) ∧
    ∃ fuel, astar (fun i => if i < 10 then [(i + 1, (1 : ℤ))] else [])
      (fun _ _ => (0 : ℤ)) 0 10 ⟨none, .noTie⟩ (fun _ => false) fuel =
      some ⟨[0, 1, 2, 3, 4, 5, 6, 7, 8, 9, 10], 10, 10, .found⟩ := by
  have hb : (driveSteps (fun i => if i < 10 then [(i + 1, (1 : ℤ))] else [])
      (fun _ _ => (0 : ℤ)) (fun _ it => it == 10) 30 3
      ((BudgetedPathfinder.new ⟨none, .noTie⟩).start 0 10
        (fun _ _ => (0 : ℤ)))).bind BudgetedPathfinder.takeResult =
      some ⟨[0, 1, 2, 3, 4, 5, 6, 7, 8, 9, 10], 10, 10, .found⟩ := by decide
  refine ⟨hb, ?_⟩
  cases hd : driveSteps (fun i => if i < 10 then [(i + 1, (1 : ℤ))] else [])
      (fun _ _ => (0 : ℤ)) (fun _ it => it == 10) 30 3
      ((BudgetedPathfinder.new ⟨none, .noTie⟩).start 0 10
        (fun _ _ => (0 : ℤ))) with
  | none => rw [hd] at hb; exact Option.noConfusion hb
  | some bpF =>
    rw [hd] at hb
    exact budgeted_steps_equiv_astar (fun i => if i < 10 then [(i + 1, (1 : ℤ))]
      else []) (fun _ _ => (0 : ℤ)) 0 10 .noTie (fun _ it => it == 10) 30 3 bpF
      ⟨[0, 1, 2, 3, 4, 5, 6, 7, 8, 9, 10], 10, 10, .found⟩ hd hb

/-! ### Theta* run analysis (C7) -/

theorem thetaLoop_step_empty [DecidableEq N] [LinearOrderedAddCommGroup C]
    (adj : N → List (N × C)) (h : N → N → C) (canTrav : N → N → Bool)
    (cfg : AStarConfig) (timeoutHit : Nat → Bool) (goal : N) (fuel : Nat)
    (st : SearchState N C) (hpop : popMax st.openSet = none) :
    thetaLoop adj h canTrav cfg timeoutHit goal (fuel + 1) st =
      some ⟨[], 0, st.nodesExpanded, .notFound⟩ := by
  rw [thetaLoop, hpop]

theorem thetaLoop_step [DecidableEq N] [LinearOrderedAddCommGroup C]
    (adj : N → List (N × C)) (h : N → N → C) (canTrav : N → N → Bool)
    (tb : TieBreaking) (goal : N) (fuel : Nat) (st : SearchState N C)
    {s : HState N C} {rest : List (HState N C)}
    (hpop : popMax st.openSet = some (s, rest)) :
    thetaLoop adj h canTrav ⟨none, tb⟩ (fun _ => false) goal (fuel + 1) st =
      (if s.node = goal then
        thetaReconstruct st.cameFrom s.node s.gScore st.nodesExpanded .found
          (fuel + 1)
      else if isStale st.gScores s then
        thetaLoop adj h canTrav ⟨none, tb⟩ (fun _ => false) goal fuel
          ⟨rest, st.gScores, st.cameFrom, st.nodesExpanded, st.iterations + 1⟩
      else
        thetaLoop adj h canTrav ⟨none, tb⟩ (fun _ => false) goal fuel
          ((adj s.node).foldl
            (thetaRelax h canTrav ⟨none, tb⟩ goal s.node
              ((st.cameFrom s.node).getD s.node) s.gScore)
            ⟨rest, st.gScores, st.cameFrom, st.nodesExpanded + 1,
              st.iterations + 1⟩)) := by
  rw [thetaLoop, hpop]
  rfl

theorem filter_unrec_insert [DecidableEq N] {V : Type} (g : MapF N V) (k : N)
    (v : V) (hnone : g k = none) :
    ∀ (S : List N), S.Nodup → k ∈ S →
      ((S.filter (fun n => (MapF.insert g k v n).isNone)).length + 1 =
        (S.filter (fun n => (g n).isNone)).length)
  | [], _, hk => absurd hk (List.not_mem_nil k)
  | a :: tl, hnd, hk => by
    have hnd2 := List.nodup_cons.mp hnd
    by_cases hak : a = k
    · subst hak
      have h1 : (MapF.insert g a v a).isNone = false := by
        rw [MapF.insert_lookup_eq]; rfl
      have h2 : (g a).isNone = true := by rw [hnone]; rfl
      have h3 : tl.filter (fun n => (MapF.insert g a v n).isNone) =
          tl.filter (fun n => (g n).isNone) := by
        apply List.filter_congr
        intro n hn
        rw [MapF.insert_lookup_ne g a v (fun e => hnd2.1 (e ▸ hn))]
      rw [List.filter_cons, List.filter_cons, h1, h2, if_neg Bool.false_ne_true,
        if_pos rfl, h3, List.length_cons]
    · have hk2 : k ∈ tl := by
        rcases List.mem_cons.mp hk with h1 | h1
        · exact absurd h1.symm hak
        · exact h1
      have h1 : (MapF.insert g k v a).isNone = (g a).isNone := by
        rw [MapF.insert_lookup_ne g k v hak]
      rw [List.filter_cons, List.filter_cons, h1]
      by_cases hpa : (g a).isNone = true
      · rw [hpa, if_pos rfl, if_pos rfl, List.length_cons, List.length_cons]
        have := filter_unrec_insert g k v hnone tl hnd2.2 hk2
        omega
      · rw [eq_false_of_ne_true hpa, if_neg Bool.false_ne_true,
          if_neg Bool.false_ne_true]
        exact filter_unrec_insert g k v hnone tl hnd2.2 hk2

theorem thetaRelax_step [DecidableEq N] [LinearOrderedAddCommGroup C]
    (h : N → N → C) (canTrav : N → N → Bool) (cfg : AStarConfig)
    (goal start cur : N) (curG : C) (st : SearchState N C) (nc : N × C)
    (hgstart : st.gScores start = some 0)
    (hgval : ∀ n v, st.gScores n = some v → v = h start n)
    (hlos : cur ≠ start → canTrav start nc.1 = true)
    (hadj : cur = start → h start nc.1 = nc.2)
    (hcur0 : cur = start → curG = 0) :
    ∃ v, v = h start nc.1 ∧
      ((st.gScores nc.1 = none ∧
        thetaRelax h canTrav cfg goal cur start curG st nc =
          { st with
            cameFrom := st.cameFrom.insert nc.1 start
            gScores := st.gScores.insert nc.1 v
            openSet := ⟨nc.1, v + h nc.1 goal, v,
              tieValue cfg.tieBreaking v⟩ :: st.openSet }) ∨
      (st.gScores nc.1 ≠ none ∧
        thetaRelax h canTrav cfg goal cur start curG st nc = st)) := by
  by_cases hbr : (start ≠ cur ∧ canTrav start nc.1 = true)
  · refine ⟨(st.gScores start).getD 0 + h start nc.1, ?_, ?_⟩
    · rw [hgstart]
      exact zero_add _
    · simp only [thetaRelax]
      rw [if_pos hbr]
      cases hgn : st.gScores nc.1 with
      | none =>
        dsimp only
        rw [if_pos rfl]
        exact Or.inl ⟨rfl, rfl⟩
      | some v0 =>
        dsimp only
        have hv0 : v0 = h start nc.1 := hgval nc.1 v0 hgn
        have hlt : ¬ ((st.gScores start).getD 0 + h start nc.1 < v0) := by
          rw [hgstart, hv0]
          exact not_lt.mpr (le_of_eq (zero_add _).symm)
        rw [if_neg (by simpa using hlt)]
        exact Or.inr ⟨fun hc => Option.noConfusion hc, rfl⟩
  · have hcs : cur = start := by
      by_contra hne
      exact hbr ⟨fun e => hne e.symm, hlos hne⟩
    subst hcs
    refine ⟨curG + nc.2, ?_, ?_⟩
    · rw [hcur0 rfl, zero_add]
      exact (hadj rfl).symm
    · simp only [thetaRelax]
      rw [if_neg hbr]
      cases hgn : st.gScores nc.1 with
      | none =>
        dsimp only
        rw [if_pos rfl]
        exact Or.inl ⟨rfl, rfl⟩
      | some v0 =>
        dsimp only
        have hv0 : v0 = h cur nc.1 := hgval nc.1 v0 hgn
        have hlt : ¬ (curG + nc.2 < v0) := by
          rw [hv0, hcur0 rfl, zero_add]
          exact not_lt.mpr (le_of_eq (hadj rfl))
        rw [if_neg (by simpa using hlt)]
        exact Or.inr ⟨fun hc => Option.noConfusion hc, rfl⟩

theorem thetaFold_inv [DecidableEq N] [LinearOrderedAddCommGroup C]
    (adj : N → List (N × C)) (h : N → N → C) (canTrav : N → N → Bool)
    (cfg : AStarConfig) (start goal : N) (S : List N) (hnd : S.Nodup)
    (hclosure : ∀ p nc, nc ∈ adj p → nc.1 ∈ S) (cur : N) (curG : C)
    (hcur0 : cur = start → curG = 0) :
    ∀ (todo : List (N × C)), ∀ (st : SearchState N C),
      (∀ nc ∈ todo, nc ∈ adj cur) →
      (cur ≠ start → ∀ nc ∈ todo, canTrav start nc.1 = true) →
      (cur = start → ∀ nc ∈ todo, h start nc.1 = nc.2) →
      ThetaExpInv adj h start goal S cur st →
      ThetaExpInv adj h start goal S cur
        (todo.foldl (thetaRelax h canTrav cfg goal cur start curG) st) ∧
      (∀ nc ∈ todo,
        (todo.foldl (thetaRelax h canTrav cfg goal cur start curG)
          st).gScores nc.1 ≠ none) ∧
      (∀ n, st.gScores n ≠ none →
        (todo.foldl (thetaRelax h canTrav cfg goal cur start curG)
          st).gScores n ≠ none) ∧
      thetaMeasure S (todo.foldl (thetaRelax h canTrav cfg goal cur start curG)
        st) ≤ thetaMeasure S st := by
  intro todo
  induction todo with
  | nil =>
    intro st _ _ _ inv
    exact ⟨inv, fun nc hnc => absurd hnc (List.not_mem_nil nc),
      fun n hn => hn, le_refl _⟩
  | cons nc tl ih =>
    intro st hsub hlosT hadjT inv
    obtain ⟨v, hv, hcase⟩ := thetaRelax_step h canTrav cfg goal start cur curG
      st nc inv.gStart inv.gVal
      (fun hne => hlosT hne nc (List.mem_cons_self nc tl))
      (fun he => hadjT he nc (List.mem_cons_self nc tl)) hcur0
    rcases hcase with ⟨hnone, heq⟩ | ⟨hsome, heq⟩
    · have hkns : nc.1 ≠ start := by
        intro he
        rw [he, inv.gStart] at hnone
        exact Option.noConfusion hnone
      have hkS : nc.1 ∈ S := hclosure cur nc (hsub nc (List.mem_cons_self nc tl))
      have inv2 : ThetaExpInv adj h start goal S cur
          { st with
            cameFrom := st.cameFrom.insert nc.1 start
            gScores := st.gScores.insert nc.1 v
            openSet := ⟨nc.1, v + h nc.1 goal, v,
              tieValue cfg.tieBreaking v⟩ :: st.openSet } := by
        refine ⟨?_, ?_, ?_, ?_, ?_, ?_, ?_, ?_⟩ <;> dsimp only
        · rw [MapF.insert_lookup_ne _ _ _ (fun e => hkns e.symm)]
          exact inv.cameStart
        · rw [MapF.insert_lookup_ne _ _ _ (fun e => hkns e.symm)]
          exact inv.gStart
        · intro n w hw
          by_cases hn : n = nc.1
          · rw [hn, MapF.insert_lookup_eq] at hw
            rw [hn, ← hv]
            exact (Option.some_injective _ hw).symm
          · rw [MapF.insert_lookup_ne _ _ _ hn] at hw
            exact inv.gVal n w hw
        · intro n hn
          by_cases hne : n = nc.1
          · rw [hne, MapF.insert_lookup_eq]
          · rw [MapF.insert_lookup_ne _ _ _ hne] at hn
            rw [MapF.insert_lookup_ne _ _ _ hne]
            exact inv.cameDom n hn
        · intro e he
          rcases List.mem_cons.mp he with rfl | he2
          · dsimp only
            rw [MapF.insert_lookup_eq]
          · have hen : e.node ≠ nc.1 := by
              intro hc
              have hog := inv.openG e he2
              rw [hc, hnone] at hog
              exact Option.noConfusion hog
            rw [MapF.insert_lookup_ne _ _ _ hen]
            exact inv.openG e he2
        · intro n hn
          by_cases hne : n = nc.1
          · rw [hne]; exact hkS
          · rw [MapF.insert_lookup_ne _ _ _ hne] at hn
            exact inv.gInS n hn
        · intro hg
          by_cases hgk : goal = nc.1
          · refine ⟨_, List.mem_cons_self _ _, hgk.symm⟩
          · rw [MapF.insert_lookup_ne _ _ _ hgk] at hg
            obtain ⟨e, he, hen⟩ := inv.goalW hg
            exact ⟨e, List.mem_cons_of_mem _ he, hen⟩
        · intro n hn
          by_cases hne : n = nc.1
          · right; left
            exact ⟨_, List.mem_cons_self _ _, hne.symm⟩
          · rw [MapF.insert_lookup_ne _ _ _ hne] at hn
            rcases inv.closedOrOpen n hn with h1 | ⟨e, he, hen⟩ | h3
            · exact Or.inl h1
            · exact Or.inr (Or.inl ⟨e, List.mem_cons_of_mem _ he, hen⟩)
            · refine Or.inr (Or.inr ?_)
              intro mc hmc
              by_cases hmk : mc.1 = nc.1
              · rw [hmk, MapF.insert_lookup_eq]
                exact fun hc => Option.noConfusion hc
              · rw [MapF.insert_lookup_ne _ _ _ hmk]
                exact h3 mc hmc
      rw [List.foldl_cons, heq]
      obtain ⟨inv3, hdone3, hmono3, hmeas3⟩ := ih _
        (fun x hx => hsub x (List.mem_cons_of_mem nc hx))
        (fun hne x hx => hlosT hne x (List.mem_cons_of_mem nc hx))
        (fun he x hx => hadjT he x (List.mem_cons_of_mem nc hx)) inv2
      refine ⟨inv3, ?_, ?_, ?_⟩
      · intro x hx
        rcases List.mem_cons.mp hx with rfl | hx2
        · refine hmono3 x.1 ?_
          dsimp only
          rw [MapF.insert_lookup_eq]
          exact fun hc => Option.noConfusion hc
        · exact hdone3 x hx2
      · intro n hn
        refine hmono3 n ?_
        dsimp only
        by_cases hne : n = nc.1
        · rw [hne, MapF.insert_lookup_eq]
          exact fun hc => Option.noConfusion hc
        · rw [MapF.insert_lookup_ne _ _ _ hne]
          exact hn
      · have hcount := filter_unrec_insert st.gScores nc.1 v hnone S hnd hkS
        have hm2 : thetaMeasure S
            { st with
              cameFrom := st.cameFrom.insert nc.1 start
              gScores := st.gScores.insert nc.1 v
              openSet := ⟨nc.1, v + h nc.1 goal, v,
                tieValue cfg.tieBreaking v⟩ :: st.openSet } + 1 =
            thetaMeasure S st := by
          unfold thetaMeasure
          dsimp only
          rw [List.length_cons]
          omega
        omega
    · rw [List.foldl_cons, heq]
      obtain ⟨inv3, hdone3, hmono3, hmeas3⟩ := ih st
        (fun x hx => hsub x (List.mem_cons_of_mem nc hx))
        (fun hne x hx => hlosT hne x (List.mem_cons_of_mem nc hx))
        (fun he x hx => hadjT he x (List.mem_cons_of_mem nc hx)) inv
      refine ⟨inv3, ?_, hmono3, hmeas3⟩
      intro x hx
      rcases List.mem_cons.mp hx with rfl | hx2
      · exact hmono3 x.1 hsome
      · exact hdone3 x hx2

theorem thetaInv_drain_false [DecidableEq N] [LinearOrderedAddCommGroup C]
    (adj : N → List (N × C)) (h : N → N → C) (start goal : N) (S : List N)
    (w : List N)
    (hchain : List.Chain (fun a b => ∃ c, (b, c) ∈ adj a) start w)
    (hlast : (start :: w).getLast? = some goal)
    (st : SearchState N C)
    (inv : ThetaInv adj h start goal S st)
    (hempty : st.openSet = []) : False := by
  have hrecorded : ∀ (l : List N) (a : N), st.gScores a ≠ none →
      List.Chain (fun x y => ∃ c, (y, c) ∈ adj x) a l →
      ∀ b ∈ l, st.gScores b ≠ none := by
    intro l
    induction l with
    | nil => intro a _ _ b hb; exact absurd hb (List.not_mem_nil b)
    | cons x tl ihl =>
      intro a ha hch b hb
      cases hch with
      | cons hr hch2 =>
        obtain ⟨c, hc⟩ := hr
        have hx : st.gScores x ≠ none := by
          rcases inv.closedOrOpen a ha with ⟨e, he, -⟩ | hfull
          · rw [hempty] at he
            exact absurd he (List.not_mem_nil e)
          · exact hfull (x, c) hc
        rcases List.mem_cons.mp hb with rfl | hb2
        · exact hx
        · exact ihl x hx hch2 b hb2
  have hstartRec : st.gScores start ≠ none := by
    rw [inv.gStart]
    exact fun hc => Option.noConfusion hc
  have hgoalmem : goal ∈ start :: w := by
    obtain ⟨hne, heq⟩ := List.mem_getLast?_eq_getLast (l := start :: w)
      (x := goal) (by rw [Option.mem_def]; exact hlast)
    rw [heq]
    exact List.getLast_mem hne
  have hgrec : st.gScores goal ≠ none := by
    rcases List.mem_cons.mp hgoalmem with rfl | hmem
    · exact hstartRec
    · exact hrecorded w start hstartRec hchain goal hmem
  obtain ⟨e, he, -⟩ := inv.goalW hgrec
  rw [hempty] at he
  exact absurd he (List.not_mem_nil e)

theorem thetaLoop_inv_found [DecidableEq N] [LinearOrderedAddCommGroup C]
    (adj : N → List (N × C)) (h : N → N → C) (canTrav : N → N → Bool)
    (tb : TieBreaking) (start goal : N) (S : List N) (hnd : S.Nodup)
    (hgs : goal ≠ start)
    (hclosure : ∀ p nc, nc ∈ adj p → nc.1 ∈ S)
    (hlos : ∀ p nc, nc ∈ adj p → canTrav start nc.1 = true)
    (hstartAdj : ∀ nc ∈ adj start, h start nc.1 = nc.2)
    (w : List N)
    (hchain : List.Chain (fun a b => ∃ c, (b, c) ∈ adj a) start w)
    (hlast : (start :: w).getLast? = some goal) :
    ∀ (k : Nat) (st : SearchState N C), thetaMeasure S st ≤ k →
      ThetaInv adj h start goal S st →
      ∃ fuel ne, thetaLoop adj h canTrav ⟨none, tb⟩ (fun _ => false) goal fuel
        st = some ⟨[start, goal], h start goal, ne, .found⟩ := by
  intro k
  induction k with
  | zero =>
    intro st hm inv
    have hempty : st.openSet = [] := by
      unfold thetaMeasure at hm
      exact List.length_eq_zero.mp (by omega)
    exact (thetaInv_drain_false adj h start goal S w hchain hlast st inv
      hempty).elim
  | succ k ihk =>
    intro st hm inv
    cases hpop : popMax st.openSet with
    | none =>
      have hempty : st.openSet = [] := (popMax_eq_none_iff _).mp hpop
      exact (thetaInv_drain_false adj h start goal S w hchain hlast st inv
        hempty).elim
    | some sr =>
      obtain ⟨s, rest⟩ := sr
      have hsmem := popMax_mem hpop
      have hsg : st.gScores s.node = some s.gScore := inv.openG s hsmem
      have hsrec : st.gScores s.node ≠ none := by
        rw [hsg]
        exact fun hc => Option.noConfusion hc
      have hcame : st.cameFrom s.node = some start := inv.cameDom s.node hsrec
      by_cases hgoal : s.node = goal
      · refine ⟨2, st.nodesExpanded, ?_⟩
        rw [thetaLoop_step adj h canTrav tb goal 1 st hpop, if_pos hgoal]
        have hsns : s.node ≠ start := by rw [hgoal]; exact hgs
        have hch : thetaChain st.cameFrom (1 + 1) s.node =
            some [s.node, start] := by
          rw [thetaChain, hcame]
          dsimp only
          rw [if_neg (fun e : start = s.node => hsns e.symm)]
          rw [show (1 : Nat) = 0 + 1 from rfl, thetaChain, inv.cameStart]
          dsimp only
          rw [if_pos rfl]
          rfl
        unfold thetaReconstruct
        rw [hch, Option.map_some']
        have hrev : [s.node, start].reverse = [start, goal] := by
          rw [hgoal]
          rfl
        have hcost : s.gScore = h start goal := by
          rw [inv.gVal s.node s.gScore hsg, hgoal]
        rw [hrev, hcost]
      · have hnstale : isStale st.gScores s = false := by
          unfold isStale
          rw [hsg]
          simp
        have hinvE : ThetaExpInv adj h start goal S s.node
            ⟨rest, st.gScores, st.cameFrom, st.nodesExpanded + 1,
              st.iterations + 1⟩ := by
          refine ⟨inv.cameStart, inv.gStart, inv.gVal, inv.cameDom, ?_,
            inv.gInS, ?_, ?_⟩
          · intro e he
            exact inv.openG e (popMax_rest_mem hpop e he)
          · intro hg
            obtain ⟨e, he, hen⟩ := inv.goalW hg
            have he2 : e ∈ s :: rest := (popMax_perm hpop).mem_iff.mp he
            rcases List.mem_cons.mp he2 with rfl | he3
            · exact absurd hen hgoal
            · exact ⟨e, he3, hen⟩
          · intro n hn
            rcases inv.closedOrOpen n hn with ⟨e, he, hen⟩ | hfull
            · have he2 : e ∈ s :: rest := (popMax_perm hpop).mem_iff.mp he
              rcases List.mem_cons.mp he2 with rfl | he3
              · exact Or.inl hen.symm
              · exact Or.inr (Or.inl ⟨e, he3, hen⟩)
            · exact Or.inr (Or.inr hfull)
        obtain ⟨invF, hdoneF, hmonoF, hmeasF⟩ := thetaFold_inv adj h canTrav
          ⟨none, tb⟩ start goal S hnd hclosure s.node s.gScore
          (fun he => by
            rw [he] at hsg
            rw [inv.gStart] at hsg
            exact (Option.some_injective _ hsg).symm)
          (adj s.node)
          ⟨rest, st.gScores, st.cameFrom, st.nodesExpanded + 1,
            st.iterations + 1⟩
          (fun x hx => hx)
          (fun _ x hx => hlos s.node x hx)
          (fun he x hx => hstartAdj x (he ▸ hx))
          hinvE
        have hinv2 : ThetaInv adj h start goal S
            ((adj s.node).foldl
              (thetaRelax h canTrav ⟨none, tb⟩ goal s.node start s.gScore)
              ⟨rest, st.gScores, st.cameFrom, st.nodesExpanded + 1,
                st.iterations + 1⟩) := by
          refine ⟨invF.cameStart, invF.gStart, invF.gVal, invF.cameDom,
            invF.openG, invF.gInS, invF.goalW, ?_⟩
          intro n hn
          rcases invF.closedOrOpen n hn with rfl | h2 | h3
          · exact Or.inr (fun mc hmc => hdoneF mc hmc)
          · exact Or.inl h2
          · exact Or.inr h3
        have hlen : st.openSet.length = rest.length + 1 := by
          have hl := (popMax_perm hpop).length_eq
          simpa using hl
        have hmeas1 : thetaMeasure S (⟨rest, st.gScores, st.cameFrom,
            st.nodesExpanded + 1, st.iterations + 1⟩ : SearchState N C) + 1 =
            thetaMeasure S st := by
          unfold thetaMeasure
          dsimp only
          omega
        obtain ⟨fuel, ne, hrun⟩ := ihk _ (by omega) hinv2
        refine ⟨fuel + 1, ne, ?_⟩
        rw [thetaLoop_step adj h canTrav tb goal fuel st hpop, if_neg hgoal,
          hnstale, if_neg Bool.false_ne_true, hcame]
        dsimp only [Option.getD]
        exact hrun

/-- On a graph whose start has line of sight to every emitted neighbor
(and whose heuristic gives the exact start-edge costs), `theta_star`
terminates with the two-point path `[start, goal]` at cost
`h start goal`. -/
theorem thetaStar_all_los_found [DecidableEq N] [LinearOrderedAddCommGroup C]
    (adj : N → List (N × C)) (h : N → N → C) (canTrav : N → N → Bool)
    (tb : TieBreaking) (start goal : N) (S : List N) (hnd : S.Nodup)
    (hgs : goal ≠ start) (hstartS : start ∈ S) (hss : h start start = 0)
    (hclosure : ∀ p nc, nc ∈ adj p → nc.1 ∈ S)
    (hlos : ∀ p nc, nc ∈ adj p → canTrav start nc.1 = true)
    (hstartAdj : ∀ nc ∈ adj start, h start nc.1 = nc.2)
    (w : List N)
    (hchain : List.Chain (fun a b => ∃ c, (b, c) ∈ adj a) start w)
    (hlast : (start :: w).getLast? = some goal) :
    ∃ fuel ne, thetaStar adj h canTrav start goal ⟨none, tb⟩ (fun _ => false)
      fuel = some ⟨[start, goal], h start goal, ne, .found⟩ := by
  have hinit : ThetaInv adj h start goal S (thetaInit h start goal) := by
    unfold thetaInit
    refine ⟨?_, ?_, ?_, ?_, ?_, ?_, ?_, ?_⟩ <;> dsimp only
    · exact MapF.insert_lookup_eq _ _ _
    · exact MapF.insert_lookup_eq _ _ _
    · intro n v hv
      by_cases hn : n = start
      · rw [hn, MapF.insert_lookup_eq] at hv
        rw [hn, hss]
        exact (Option.some_injective _ hv).symm
      · rw [MapF.insert_lookup_ne _ _ _ hn] at hv
        exact Option.noConfusion hv
    · intro n hn
      by_cases hne : n = start
      · rw [hne, MapF.insert_lookup_eq]
      · rw [MapF.insert_lookup_ne _ _ _ hne] at hn
        exact absurd rfl hn
    · intro e he
      rcases List.mem_cons.mp he with rfl | he2
      · exact MapF.insert_lookup_eq _ _ _
      · exact absurd he2 (List.not_mem_nil e)
    · intro n hn
      by_cases hne : n = start
      · rw [hne]
        exact hstartS
      · rw [MapF.insert_lookup_ne _ _ _ hne] at hn
        exact absurd rfl hn
    · intro hg
      by_cases hne : goal = start
      · exact absurd hne hgs
      · rw [MapF.insert_lookup_ne _ _ _ hne] at hg
        exact absurd rfl hg
    · intro n hn
      by_cases hne : n = start
      · exact Or.inl ⟨⟨start, h start goal, 0, 0⟩, List.mem_cons_self _ _,
          hne.symm⟩
      · rw [MapF.insert_lookup_ne _ _ _ hne] at hn
        exact absurd rfl hn
  obtain ⟨fuel, ne, hrun⟩ := thetaLoop_inv_found adj h canTrav tb start goal S
    hnd hgs hclosure hlos hstartAdj w hchain hlast
    (thetaMeasure S (thetaInit h start goal)) _ (le_refl _) hinit
  exact ⟨fuel, ne, hrun⟩

/-- In-bounds characterisation of `is_blocked` on a fresh grid. -/
theorem isBlocked_new_iff [One C] (w h : Nat) (dm : DiagonalMode) (x y : Int) :
    (Grid2D.new (C := C) w h dm).isBlocked x y = false ↔
      0 ≤ x ∧ 0 ≤ y ∧ x < (w : Int) ∧ y < (h : Int) := by
  unfold Grid2D.isBlocked Grid2D.cellAt
  by_cases h1 : x < 0 ∨ y < 0
  · rw [if_pos h1]
    constructor
    · intro hc; exact Bool.noConfusion hc
    · rintro ⟨hx, hy, -, -⟩
      rcases h1 with h1 | h1
      · exact absurd h1 (not_lt.mpr hx)
      · exact absurd h1 (not_lt.mpr hy)
  · rw [if_neg h1]
    push_neg at h1
    obtain ⟨hx, hy⟩ := h1
    by_cases h2 : (Grid2D.new (C := C) w h dm).width ≤ x.toNat ∨
        (Grid2D.new (C := C) w h dm).height ≤ y.toNat
    · rw [if_pos h2]
      constructor
      · intro hc; exact Bool.noConfusion hc
      · rintro ⟨-, -, hxw, hyh⟩
        rcases h2 with h2 | h2
        · have : (w : Int) ≤ x := by
            rw [show (Grid2D.new (C := C) w h dm).width = w from rfl] at h2
            omega
          exact absurd hxw (not_lt.mpr this)
        · have : (h : Int) ≤ y := by
            rw [show (Grid2D.new (C := C) w h dm).height = h from rfl] at h2
            omega
          exact absurd hyh (not_lt.mpr this)
    · rw [if_neg h2]
      push_neg at h2
      obtain ⟨h2w, h2h⟩ := h2
      rw [show (Grid2D.new (C := C) w h dm).width = w from rfl] at h2w
      rw [show (Grid2D.new (C := C) w h dm).height = h from rfl] at h2h
      have hidx : y.toNat * w + x.toNat < w * h := by
        calc y.toNat * w + x.toNat < y.toNat * w + w := by omega
          _ = (y.toNat + 1) * w := by ring
          _ ≤ h * w := Nat.mul_le_mul_right w (by omega)
          _ = w * h := Nat.mul_comm h w
      rw [show (Grid2D.new (C := C) w h dm).cells =
        List.replicate (w * h) (CellType.passable 1) from rfl,
        show (Grid2D.new (C := C) w h dm).width = w from rfl]
      rw [replicate_getD (w * h) (y.toNat * w + x.toNat) (CellType.passable 1)
        CellType.blocked hidx]
      constructor
      · intro _
        omega
      · intro _
        rfl

theorem neighborsList_mem_of_dir [Zero C] [Mul C] (g : Grid2D C) (sqrt2 : C)
    (p : GridPos) (d : Int × Int) (hd : d ∈ cardinalDirs)
    (hnb : g.isBlocked (p.x + d.1) (p.y + d.2) = false) :
    (⟨p.x + d.1, p.y + d.2⟩, g.costMult (p.x + d.1) (p.y + d.2)) ∈
      g.neighborsList sqrt2 p := by
  unfold Grid2D.neighborsList
  refine List.mem_append.mpr (Or.inl ?_)
  refine List.mem_filterMap.mpr ⟨d, hd, ?_⟩
  dsimp only
  rw [hnb]
  rfl

set_option maxRecDepth 100000 in
set_option maxHeartbeats 2000000 in
/-- C7: on an obstacle-free 20x20 grid, theta_star with the Euclidean
heuristic from (0,0) to (10,5) (default config) returns Found with path
exactly [(0,0),(10,5)] and cost sqrt 125. -/
theorem theta_star_empty_grid_direct :
    ∃ fuel ne,
      thetaStar ((Grid2D.new (C := ℝ) 20 20 .always).neighborsList (Real.sqrt 2))
        (fun a b : GridPos => Real.sqrt
        ((((a.x : ℝ)) - ((b.x : ℝ))) * (((a.x : ℝ)) - ((b.x : ℝ))) +
          (((a.y : ℝ)) - ((b.y : ℝ))) * (((a.y : ℝ)) - ((b.y : ℝ)))))
        ((Grid2D.new (C := ℝ) 20 20 .always).canTraverse)
        ⟨0, 0⟩ ⟨10, 5⟩ ⟨none, .preferHigherG⟩ (fun _ => false) fuel =
      some ⟨[⟨0, 0⟩, ⟨10, 5⟩], Real.sqrt 125, ne, .found⟩ := by
  have hnd : (((List.range 400).map (fun i => (⟨(((i % 20 : Nat)) : Int), (((i / 20 : Nat)) : Int)⟩ : GridPos))) : List GridPos).Nodup := by
    refine List.Nodup.map_on ?_ (List.nodup_range 400)
    intro i hi j hj hij
    rw [List.mem_range] at hi hj
    have hx : ((i % 20 : Nat) : Int) = ((j % 20 : Nat) : Int) :=
      congrArg GridPos.x hij
    have hy : ((i / 20 : Nat) : Int) = ((j / 20 : Nat) : Int) :=
      congrArg GridPos.y hij
    omega
  have hgs : (⟨10, 5⟩ : GridPos) ≠ ⟨0, 0⟩ := by decide
  have hstartS : (⟨0, 0⟩ : GridPos) ∈ (((List.range 400).map (fun i => (⟨(((i % 20 : Nat)) : Int), (((i / 20 : Nat)) : Int)⟩ : GridPos))) : List GridPos) :=
    List.mem_map.mpr ⟨0, List.mem_range.mpr (by norm_num), rfl⟩
  have hss : (fun a b : GridPos => Real.sqrt
        ((((a.x : ℝ)) - ((b.x : ℝ))) * (((a.x : ℝ)) - ((b.x : ℝ))) +
          (((a.y : ℝ)) - ((b.y : ℝ))) * (((a.y : ℝ)) - ((b.y : ℝ))))) ⟨0, 0⟩ ⟨0, 0⟩ = 0 := by
    norm_num [Real.sqrt_zero]
  have hclosure : ∀ (p : GridPos), ∀ nc ∈ ((Grid2D.new (C := ℝ) 20 20 .always).neighborsList (Real.sqrt 2)) p,
      nc.1 ∈ (((List.range 400).map (fun i => (⟨(((i % 20 : Nat)) : Int), (((i / 20 : Nat)) : Int)⟩ : GridPos))) : List GridPos) := by
    intro p nc hm
    have hb := neighborsList_not_blocked hm
    rw [isBlocked_new_iff] at hb
    obtain ⟨hx, hy, hxw, hyh⟩ := hb
    refine List.mem_map.mpr ⟨nc.1.y.toNat * 20 + nc.1.x.toNat, ?_, ?_⟩
    · refine List.mem_range.mpr ?_
      omega
    · have hxx : ((nc.1.y.toNat * 20 + nc.1.x.toNat) % 20) = nc.1.x.toNat := by
        omega
      have hyy : ((nc.1.y.toNat * 20 + nc.1.x.toNat) / 20) = nc.1.y.toNat := by
        omega
      rw [hxx, hyy, Int.toNat_of_nonneg hx, Int.toNat_of_nonneg hy]
  have hct : ∀ a : Nat, a < 20 → ∀ b : Nat, b < 20 →
      (Grid2D.new (C := ℝ) 20 20 .always).canTraverse ⟨0, 0⟩
        ⟨(a : Int), (b : Int)⟩ = true := by decide
  have hlos : ∀ (p : GridPos), ∀ nc ∈ ((Grid2D.new (C := ℝ) 20 20 .always).neighborsList (Real.sqrt 2)) p,
      (Grid2D.new (C := ℝ) 20 20 .always).canTraverse ⟨0, 0⟩ nc.1 = true := by
    intro p nc hm
    have hb := neighborsList_not_blocked hm
    rw [isBlocked_new_iff] at hb
    obtain ⟨hx, hy, hxw, hyh⟩ := hb
    have hc := hct nc.1.x.toNat (by omega) nc.1.y.toNat (by omega)
    rw [Int.toNat_of_nonneg hx, Int.toNat_of_nonneg hy] at hc
    exact hc
  have hn00 : ((Grid2D.new (C := ℝ) 20 20 .always).neighborsList (Real.sqrt 2)) ⟨0, 0⟩ =
      [(⟨0, 1⟩, 1), (⟨1, 0⟩, 1), (⟨1, 1⟩, 1 * Real.sqrt 2)] := rfl
  have hstartAdj : ∀ nc ∈ ((Grid2D.new (C := ℝ) 20 20 .always).neighborsList (Real.sqrt 2)) ⟨0, 0⟩,
      (fun a b : GridPos => Real.sqrt
        ((((a.x : ℝ)) - ((b.x : ℝ))) * (((a.x : ℝ)) - ((b.x : ℝ))) +
          (((a.y : ℝ)) - ((b.y : ℝ))) * (((a.y : ℝ)) - ((b.y : ℝ))))) ⟨0, 0⟩ nc.1 = nc.2 := by
    intro nc hm
    rw [hn00] at hm
    fin_cases hm
    · norm_num [Real.sqrt_one]
    · norm_num [Real.sqrt_one]
    · norm_num
  have hchain : List.Chain (fun a b => ∃ c, (b, c) ∈ ((Grid2D.new (C := ℝ) 20 20 .always).neighborsList (Real.sqrt 2)) a) ⟨0, 0⟩
      ([⟨1, 0⟩, ⟨2, 0⟩, ⟨3, 0⟩, ⟨4, 0⟩, ⟨5, 0⟩, ⟨6, 0⟩, ⟨7, 0⟩, ⟨8, 0⟩, ⟨9, 0⟩, ⟨10, 0⟩, ⟨10, 1⟩, ⟨10, 2⟩, ⟨10, 3⟩, ⟨10, 4⟩, ⟨10, 5⟩] : List GridPos) :=
    List.Chain.cons
      ⟨_, neighborsList_mem_of_dir (Grid2D.new (C := ℝ) 20 20 .always) (Real.sqrt 2) ⟨0, 0⟩ (1, 0) (by simp [cardinalDirs]) (by decide)⟩
      (List.Chain.cons
      ⟨_, neighborsList_mem_of_dir (Grid2D.new (C := ℝ) 20 20 .always) (Real.sqrt 2) ⟨1, 0⟩ (1, 0) (by simp [cardinalDirs]) (by decide)⟩
      (List.Chain.cons
      ⟨_, neighborsList_mem_of_dir (Grid2D.new (C := ℝ) 20 20 .always) (Real.sqrt 2) ⟨2, 0⟩ (1, 0) (by simp [cardinalDirs]) (by decide)⟩
      (List.Chain.cons
      ⟨_, neighborsList_mem_of_dir (Grid2D.new (C := ℝ) 20 20 .always) (Real.sqrt 2) ⟨3, 0⟩ (1, 0) (by simp [cardinalDirs]) (by decide)⟩
      (List.Chain.cons
      ⟨_, neighborsList_mem_of_dir (Grid2D.new (C := ℝ) 20 20 .always) (Real.sqrt 2) ⟨4, 0⟩ (1, 0) (by simp [cardinalDirs]) (by decide)⟩
      (List.Chain.cons
      ⟨_, neighborsList_mem_of_dir (Grid2D.new (C := ℝ) 20 20 .always) (Real.sqrt 2) ⟨5, 0⟩ (1, 0) (by simp [cardinalDirs]) (by decide)⟩
      (List.Chain.cons
      ⟨_, neighborsList_mem_of_dir (Grid2D.new (C := ℝ) 20 20 .always) (Real.sqrt 2) ⟨6, 0⟩ (1, 0) (by simp [cardinalDirs]) (by decide)⟩
      (List.Chain.cons
      ⟨_, neighborsList_mem_of_dir (Grid2D.new (C := ℝ) 20 20 .always) (Real.sqrt 2) ⟨7, 0⟩ (1, 0) (by simp [cardinalDirs]) (by decide)⟩
      (List.Chain.cons
      ⟨_, neighborsList_mem_of_dir (Grid2D.new (C := ℝ) 20 20 .always) (Real.sqrt 2) ⟨8, 0⟩ (1, 0) (by simp [cardinalDirs]) (by decide)⟩
      (List.Chain.cons
      ⟨_, neighborsList_mem_of_dir (Grid2D.new (C := ℝ) 20 20 .always) (Real.sqrt 2) ⟨9, 0⟩ (1, 0) (by simp [cardinalDirs]) (by decide)⟩
      (List.Chain.cons
      ⟨_, neighborsList_mem_of_dir (Grid2D.new (C := ℝ) 20 20 .always) (Real.sqrt 2) ⟨10, 0⟩ (0, 1) (by simp [cardinalDirs]) (by decide)⟩
      (List.Chain.cons
      ⟨_, neighborsList_mem_of_dir (Grid2D.new (C := ℝ) 20 20 .always) (Real.sqrt 2) ⟨10, 1⟩ (0, 1) (by simp [cardinalDirs]) (by decide)⟩
      (List.Chain.cons
      ⟨_, neighborsList_mem_of_dir (Grid2D.new (C := ℝ) 20 20 .always) (Real.sqrt 2) ⟨10, 2⟩ (0, 1) (by simp [cardinalDirs]) (by decide)⟩
      (List.Chain.cons
      ⟨_, neighborsList_mem_of_dir (Grid2D.new (C := ℝ) 20 20 .always) (Real.sqrt 2) ⟨10, 3⟩ (0, 1) (by simp [cardinalDirs]) (by decide)⟩
      (List.Chain.cons
      ⟨_, neighborsList_mem_of_dir (Grid2D.new (C := ℝ) 20 20 .always) (Real.sqrt 2) ⟨10, 4⟩ (0, 1) (by simp [cardinalDirs]) (by decide)⟩
      (List.Chain.nil)))))))))))))))
  have hlast : ((⟨0, 0⟩ : GridPos) :: ([⟨1, 0⟩, ⟨2, 0⟩, ⟨3, 0⟩, ⟨4, 0⟩, ⟨5, 0⟩, ⟨6, 0⟩, ⟨7, 0⟩, ⟨8, 0⟩, ⟨9, 0⟩, ⟨10, 0⟩, ⟨10, 1⟩, ⟨10, 2⟩, ⟨10, 3⟩, ⟨10, 4⟩, ⟨10, 5⟩] : List GridPos)).getLast? =
      some ⟨10, 5⟩ := rfl
  obtain ⟨fuel, ne, hrun⟩ := thetaStar_all_los_found ((Grid2D.new (C := ℝ) 20 20 .always).neighborsList (Real.sqrt 2))
    (fun a b : GridPos => Real.sqrt
        ((((a.x : ℝ)) - ((b.x : ℝ))) * (((a.x : ℝ)) - ((b.x : ℝ))) +
          (((a.y : ℝ)) - ((b.y : ℝ))) * (((a.y : ℝ)) - ((b.y : ℝ)))))
    ((Grid2D.new (C := ℝ) 20 20 .always).canTraverse) .preferHigherG
    ⟨0, 0⟩ ⟨10, 5⟩ ((List.range 400).map (fun i => (⟨(((i % 20 : Nat)) : Int), (((i / 20 : Nat)) : Int)⟩ : GridPos))) hnd hgs hstartS hss hclosure hlos hstartAdj
    [⟨1, 0⟩, ⟨2, 0⟩, ⟨3, 0⟩, ⟨4, 0⟩, ⟨5, 0⟩, ⟨6, 0⟩, ⟨7, 0⟩, ⟨8, 0⟩, ⟨9, 0⟩, ⟨10, 0⟩, ⟨10, 1⟩, ⟨10, 2⟩, ⟨10, 3⟩, ⟨10, 4⟩, ⟨10, 5⟩] hchain hlast
  refine ⟨fuel, ne, ?_⟩
  rw [hrun]
  simp only [Option.some.injEq, PathResult.mk.injEq]
  norm_num

/-! ### Nondeterministic-heap lemmas (C2, revised) -/

theorem perm_cons_eraseIdx {α : Type} :
    ∀ (l : List α) (i : Nat) (a : α), l[i]? = some a →
      l.Perm (a :: l.eraseIdx i)
  | [], i, a, h => by simp at h
  | b :: t, 0, a, h => by
    simp only [List.getElem?_cons_zero, Option.some.injEq] at h
    subst h
    exact List.Perm.refl _
  | b :: t, i + 1, a, h => by
    simp only [List.getElem?_cons_succ] at h
    have ih := perm_cons_eraseIdx t i a h
    exact (ih.cons b).trans (List.Perm.swap a b _)

theorem popND_some [LinearOrder C] {l : List (HState N C)} {c : Nat}
    {s : HState N C} {rest : List (HState N C)}
    (h : popND l c = some (s, rest)) :
    s ∈ l ∧ (∀ x ∈ l, higherPriority x s ≠ true) ∧ l.Perm (s :: rest) := by
  unfold popND popAt at h
  cases hg : l[c]? with
  | none =>
    rw [hg] at h
    dsimp only at h
    exact ⟨popMax_mem h, popMax_max h, popMax_perm h⟩
  | some a =>
    rw [hg] at h
    dsimp only at h
    by_cases hm : maxOk l a = true
    · rw [if_pos hm] at h
      simp only [Option.some.injEq, Prod.mk.injEq] at h
      obtain ⟨rfl, rfl⟩ := h
      refine ⟨?_, ?_, perm_cons_eraseIdx l c a hg⟩
      · exact (perm_cons_eraseIdx l c a hg).mem_iff.mpr (List.mem_cons_self _ _)
      · intro x hx
        have hx2 := List.all_eq_true.mp hm x hx
        simpa using hx2
    · rw [if_neg hm] at h
      exact ⟨popMax_mem h, popMax_max h, popMax_perm h⟩

theorem popND_none_iff [LinearOrder C] (l : List (HState N C)) (c : Nat) :
    popND l c = none ↔ l = [] := by
  unfold popND popAt
  cases hg : l[c]? with
  | none =>
    dsimp only
    exact popMax_eq_none_iff l
  | some a =>
    dsimp only
    by_cases hm : maxOk l a = true
    · rw [if_pos hm]
      constructor
      · intro hc; exact Option.noConfusion hc
      · intro hl; subst hl; simp at hg
    · rw [if_neg hm]
      exact popMax_eq_none_iff l

theorem exists_popND_choice [LinearOrder C] {l : List (HState N C)}
    {s : HState N C} (hs : s ∈ l)
    (hmax : ∀ x ∈ l, higherPriority x s ≠ true) :
    ∃ c rest, popND l c = some (s, rest) ∧ l.Perm (s :: rest) := by
  obtain ⟨i, hlt, hgi⟩ := List.mem_iff_getElem.mp hs
  have hq : l[i]? = some s := by
    rw [List.getElem?_eq_getElem hlt, hgi]
  have hm : maxOk l s = true := by
    rw [maxOk, List.all_eq_true]
    intro x hx
    simpa using hmax x hx
  refine ⟨i, l.eraseIdx i, ?_, perm_cons_eraseIdx l i s hq⟩
  unfold popND popAt
  rw [hq]
  dsimp only
  rw [if_pos hm]

theorem costInv_tail [DecidableEq N] [LinearOrderedAddCommGroup C]
    {h : N → N → C} {goal : N} {s : HState N C} {rest : List (HState N C)}
    {g : MapF N C} (hne : s.node ≠ goal)
    (inv : CostInv h goal (s :: rest) g) : CostInv h goal rest g := by
  refine ⟨?_, ?_, ?_⟩
  · intro e he; exact inv.heapDom e (List.mem_cons_of_mem s he)
  · intro v hv
    rcases inv.goalWitness v hv with ⟨e, he, hen, heg⟩
    rcases List.mem_cons.mp he with rfl | he2
    · exact absurd hen hne
    · exact ⟨e, he2, hen, heg⟩
  · intro e he hen; exact inv.goalCost e (List.mem_cons_of_mem s he) hen

/-- `costInv_found_gScore` for any maximal popped element (the
nondeterministic pop only guarantees maximality). -/
theorem costInv_found_max_gScore [DecidableEq N] [LinearOrderedAddCommGroup C]
    {h : N → N → C} {goal : N} {l : List (HState N C)} {s : HState N C}
    {g : MapF N C} (hmem : s ∈ l)
    (hmax : ∀ x ∈ l, higherPriority x s ≠ true) (hgoal : s.node = goal)
    (inv : CostInv h goal l g) : g goal = some s.gScore := by
  rcases inv.heapDom s hmem with ⟨v, hv, hle⟩
  rw [hgoal] at hv
  rcases inv.goalWitness v hv with ⟨e, he, hen, heg⟩
  have hmaxe := hmax e he
  have hce := inv.goalCost e he hen
  have hcs := inv.goalCost s hmem hgoal
  rw [Ne, higherPriority_iff] at hmaxe
  push_neg at hmaxe
  obtain ⟨hc1, -⟩ := hmaxe
  rw [hce, hcs, heg] at hc1
  have hle2 : s.gScore ≤ v := le_of_add_le_add_right hc1
  rw [hv]
  exact congrArg some (le_antisymm hle hle2)

/-- The relaxation fold prepends a fixed block of pushes and rewrites
the maps in a way that depends only on the maps, not on the frontier
list or the iteration counter. -/
theorem foldl_relax_decompose [DecidableEq N] [LinearOrderedAddCommGroup C]
    (h : N → N → C) (cfg : AStarConfig) (goal cur : N) (curG : C) :
    ∀ (lst : List (N × C)) (g : MapF N C) (came : MapF N N) (n : Nat),
      ∃ P G Cm k, ∀ (l : List (HState N C)) (i : Nat),
        lst.foldl (relax h cfg goal cur curG) ⟨l, g, came, n, i⟩ =
          ⟨P ++ l, G, Cm, k, i⟩
  | [], g, came, n => ⟨[], g, came, n, fun l i => rfl⟩
  | nc :: tl, g, came, n => by
    by_cases hp : pushCond (⟨[], g, came, n, 0⟩ : SearchState N C) nc.1
        (curG + nc.2)
    · obtain ⟨P, G, Cm, k, hIH⟩ := foldl_relax_decompose h cfg goal cur curG tl
        (g.insert nc.1 (curG + nc.2)) (came.insert nc.1 cur) n
      refine ⟨P ++ [⟨nc.1, curG + nc.2 + h nc.1 goal, curG + nc.2,
        tieValue cfg.tieBreaking (curG + nc.2)⟩], G, Cm, k, ?_⟩
      intro l i
      rw [List.foldl_cons]
      rcases relax_case_split h cfg goal cur curG ⟨l, g, came, n, i⟩ nc with
        ⟨-, heq⟩ | ⟨hnp, -⟩
      · rw [heq]
        dsimp only
        rw [hIH, List.append_assoc]
        rfl
      · exact absurd hp hnp
    · obtain ⟨P, G, Cm, k, hIH⟩ :=
        foldl_relax_decompose h cfg goal cur curG tl g came n
      refine ⟨P, G, Cm, k, ?_⟩
      intro l i
      rw [List.foldl_cons]
      rcases relax_case_split h cfg goal cur curG ⟨l, g, came, n, i⟩ nc with
        ⟨hp2, -⟩ | ⟨-, heq⟩
      · exact absurd hp2 hp
      · rw [heq]
        exact hIH l i

theorem astarLoopND_step_empty [DecidableEq N] [LinearOrderedAddCommGroup C]
    (adj : N → List (N × C)) (h : N → N → C) (cfg : AStarConfig)
    (timeoutHit : Nat → Bool) (goal : N) (c : Nat) (cs : List Nat)
    (st : SearchState N C) (hpop : popND st.openSet c = none) :
    astarLoopND adj h cfg timeoutHit goal (c :: cs) st =
      some ⟨[], 0, st.nodesExpanded, .notFound⟩ := by
  rw [astarLoopND, hpop]

theorem astarLoopND_step [DecidableEq N] [LinearOrderedAddCommGroup C]
    (adj : N → List (N × C)) (h : N → N → C) (tb : TieBreaking) (goal : N)
    (c : Nat) (cs : List Nat) (st : SearchState N C) {s : HState N C}
    {rest : List (HState N C)} (hpop : popND st.openSet c = some (s, rest)) :
    astarLoopND adj h ⟨none, tb⟩ (fun _ => false) goal (c :: cs) st =
      (if s.node = goal then
        reconstructPath st.cameFrom s.node s.gScore st.nodesExpanded .found
          (cs.length + 1)
      else if isStale st.gScores s then
        astarLoopND adj h ⟨none, tb⟩ (fun _ => false) goal cs
          ⟨rest, st.gScores, st.cameFrom, st.nodesExpanded, st.iterations + 1⟩
      else
        astarLoopND adj h ⟨none, tb⟩ (fun _ => false) goal cs
          ((adj s.node).foldl (relax h ⟨none, tb⟩ goal s.node s.gScore)
            ⟨rest, st.gScores, st.cameFrom, st.nodesExpanded + 1,
              st.iterations + 1⟩)) := by
  rw [astarLoopND, hpop]
  rfl

/-- One nondeterministic `step` call refines the nondeterministic
blocking loop: a completing call returns a result that `astarLoopND`
produces from the same search state under some tie choices, and a
suspending call leaves a state whose runs transfer back to the pre-call
state (frontiers tracked up to permutation, as the suspension re-push
only preserves the heap's multiset). -/
theorem budgetStepLoopND_sim [DecidableEq N] [LinearOrderedAddCommGroup C]
    (adj : N → List (N × C)) (h : N → N → C) (budgetHit : Nat → Bool) (goal : N)
    (tb : TieBreaking) :
    ∀ (chB : List Nat) (bp : BudgetedPathfinder N C) (done : Bool)
      (bp2 : BudgetedPathfinder N C),
      bp.config = ⟨none, tb⟩ →
      CostInv h goal bp.openSet bp.gScores →
      budgetStepLoopND adj h budgetHit goal chB bp = some (done, bp2) →
      bp2.config = bp.config ∧ bp2.goal = bp.goal ∧
      (done = true →
        ∃ res, bp2.status = ComputeStatus.complete res ∧
          ∀ l', bp.openSet.Perm l' → ∀ it, ∃ ch,
            astarLoopND adj h ⟨none, tb⟩ (fun _ => false) goal ch
              ⟨l', bp.gScores, bp.cameFrom, bp.nodesExpanded, it⟩ = some res) ∧
      (done = false →
        bp2.status = bp.status ∧
        CostInv h goal bp2.openSet bp2.gScores ∧
        ∀ res : PathResult N C,
          (∀ l2, bp2.openSet.Perm l2 → ∀ it, ∃ ch,
            astarLoopND adj h ⟨none, tb⟩ (fun _ => false) goal ch
              ⟨l2, bp2.gScores, bp2.cameFrom, bp2.nodesExpanded, it⟩ = some res) →
          ∀ l', bp.openSet.Perm l' → ∀ it, ∃ ch,
            astarLoopND adj h ⟨none, tb⟩ (fun _ => false) goal ch
              ⟨l', bp.gScores, bp.cameFrom, bp.nodesExpanded, it⟩ = some res) := by
  intro chB
  induction chB with
  | nil => intro bp done bp2 hcfg hinv hrun; exact Option.noConfusion hrun
  | cons c cs ih =>
    intro bp done bp2 hcfg hinv hrun
    rw [budgetStepLoopND] at hrun
    cases hpop : popND bp.openSet c with
    | none =>
      rw [hpop] at hrun
      dsimp only at hrun
      simp only [Option.some.injEq, Prod.mk.injEq] at hrun
      obtain ⟨hdone, hbp2⟩ := hrun
      subst hdone
      subst hbp2
      have hempty : bp.openSet = [] := (popND_none_iff _ _).mp hpop
      refine ⟨rfl, rfl, ?_, ?_⟩
      · intro _
        refine ⟨⟨[], 0, bp.nodesExpanded, .notFound⟩, rfl, ?_⟩
        intro l' hl' it
        have hl2 : l' = [] := by
          rw [hempty] at hl'
          exact hl'.symm.eq_nil
        subst hl2
        exact ⟨[0], astarLoopND_step_empty adj h ⟨none, tb⟩ (fun _ => false)
          goal 0 [] ⟨[], bp.gScores, bp.cameFrom, bp.nodesExpanded, it⟩ rfl⟩
      · intro hc; exact Bool.noConfusion hc
    | some sr =>
      obtain ⟨s, rest⟩ := sr
      obtain ⟨hmem, hmax, hperm⟩ := popND_some hpop
      rw [hpop] at hrun
      rw [hcfg] at hrun
      dsimp only at hrun
      by_cases hbud :
          (((bp.iterations + 1) % 10 == 0) && budgetHit (bp.iterations + 1)) = true
      · rw [if_pos hbud] at hrun
        cases hrec : budgetReconstruct (C := C) bp.gScores bp.cameFrom s.node
            bp.nodesExpanded PathStatus.partTimeout (cs.length + 1) with
        | none => rw [hrec] at hrun; exact Option.noConfusion hrun
        | some pr =>
          rw [hrec] at hrun
          dsimp only at hrun
          simp only [Option.some.injEq, Prod.mk.injEq] at hrun
          obtain ⟨hdone, hbp2⟩ := hrun
          subst hdone
          subst hbp2
          refine ⟨hcfg.symm, rfl, ?_, ?_⟩
          · intro hc; exact Bool.noConfusion hc
          · intro _
            refine ⟨rfl, costInv_perm hperm hinv, ?_⟩
            intro res htr l' hl' it
            exact htr l' (hperm.symm.trans hl') it
      · rw [if_neg hbud] at hrun
        by_cases hgoal : s.node = goal
        · rw [if_pos hgoal] at hrun
          cases hrec : budgetReconstruct (C := C) bp.gScores bp.cameFrom s.node
              bp.nodesExpanded PathStatus.found (cs.length + 1) with
          | none => rw [hrec] at hrun; exact Option.noConfusion hrun
          | some res =>
            rw [hrec] at hrun
            dsimp only at hrun
            simp only [Option.some.injEq, Prod.mk.injEq] at hrun
            obtain ⟨hdone, hbp2⟩ := hrun
            subst hdone
            subst hbp2
            refine ⟨hcfg.symm, rfl, ?_, ?_⟩
            · intro _
              refine ⟨res, rfl, ?_⟩
              intro l' hl' it
              have hmem2 : s ∈ l' := hl'.mem_iff.mp hmem
              have hmax2 : ∀ x ∈ l', higherPriority x s ≠ true :=
                fun x hx => hmax x (hl'.mem_iff.mpr hx)
              obtain ⟨c2, rest2, hpop2, hperm2⟩ :=
                exists_popND_choice hmem2 hmax2
              refine ⟨c2 :: List.replicate cs.length 0, ?_⟩
              rw [astarLoopND_step adj h tb goal c2 (List.replicate cs.length 0)
                ⟨l', bp.gScores, bp.cameFrom, bp.nodesExpanded, it⟩ hpop2]
              rw [if_pos hgoal, List.length_replicate]
              rw [budgetReconstruct] at hrec
              cases hch : ancestorChain bp.cameFrom (cs.length + 1) s.node with
              | none => rw [hch] at hrec; exact Option.noConfusion hrec
              | some chain =>
                rw [hch, Option.map_some'] at hrec
                simp only [Option.some.injEq] at hrec
                have hhead := (ancestorChain_spec bp.cameFrom (cs.length + 1)
                  s.node chain hch).1
                have hg : bp.gScores goal = some s.gScore :=
                  costInv_found_max_gScore hmem hmax hgoal hinv
                have hcost : ((chain.reverse.getLast?).bind bp.gScores).getD 0 =
                    s.gScore := by
                  rw [List.getLast?_reverse, hhead]
                  show (bp.gScores s.node).getD 0 = s.gScore
                  rw [hgoal, hg]
                  rfl
                rw [reconstructPath, hch, Option.map_some', ← hrec, hcost]
            · intro hc; exact Bool.noConfusion hc
        · rw [if_neg hgoal] at hrun
          by_cases hstale : isStale bp.gScores s = true
          · rw [if_pos hstale] at hrun
            have hinv2 : CostInv h goal rest bp.gScores :=
              costInv_tail hgoal (costInv_perm hperm hinv)
            obtain ⟨hc2, hg2, htrue, hfalse⟩ := ih _ done bp2 rfl hinv2 hrun
            refine ⟨hc2.trans hcfg.symm, hg2, ?_, ?_⟩
            · intro hd
              obtain ⟨res, hst, hrunAll⟩ := htrue hd
              refine ⟨res, hst, ?_⟩
              intro l' hl' it
              have hmem2 : s ∈ l' := hl'.mem_iff.mp hmem
              have hmax2 : ∀ x ∈ l', higherPriority x s ≠ true :=
                fun x hx => hmax x (hl'.mem_iff.mpr hx)
              obtain ⟨c2, rest2, hpop2, hperm2⟩ :=
                exists_popND_choice hmem2 hmax2
              have hrr : rest.Perm rest2 :=
                (((hperm.symm.trans hl').trans hperm2) :
                  (s :: rest).Perm (s :: rest2)).cons_inv
              obtain ⟨ch2, hch2⟩ := hrunAll rest2 hrr (it + 1)
              refine ⟨c2 :: ch2, ?_⟩
              rw [astarLoopND_step adj h tb goal c2 ch2
                ⟨l', bp.gScores, bp.cameFrom, bp.nodesExpanded, it⟩ hpop2]
              rw [if_neg hgoal, if_pos hstale]
              exact hch2
            · intro hd
              obtain ⟨hst, hCI, htr⟩ := hfalse hd
              refine ⟨hst, hCI, ?_⟩
              intro res hgiven l' hl' it
              have IH2 := htr res hgiven
              have hmem2 : s ∈ l' := hl'.mem_iff.mp hmem
              have hmax2 : ∀ x ∈ l', higherPriority x s ≠ true :=
                fun x hx => hmax x (hl'.mem_iff.mpr hx)
              obtain ⟨c2, rest2, hpop2, hperm2⟩ :=
                exists_popND_choice hmem2 hmax2
              have hrr : rest.Perm rest2 :=
                (((hperm.symm.trans hl').trans hperm2) :
                  (s :: rest).Perm (s :: rest2)).cons_inv
              obtain ⟨ch2, hch2⟩ := IH2 rest2 hrr (it + 1)
              refine ⟨c2 :: ch2, ?_⟩
              rw [astarLoopND_step adj h tb goal c2 ch2
                ⟨l', bp.gScores, bp.cameFrom, bp.nodesExpanded, it⟩ hpop2]
              rw [if_neg hgoal, if_pos hstale]
              exact hch2
          · rw [if_neg hstale] at hrun
            have hinv2 : CostInv h goal rest bp.gScores :=
              costInv_tail hgoal (costInv_perm hperm hinv)
            obtain ⟨P, G, Cm, k, hdec⟩ := foldl_relax_decompose h ⟨none, tb⟩
              goal s.node s.gScore (adj s.node) bp.gScores bp.cameFrom
              (bp.nodesExpanded + 1)
            rw [hdec rest (bp.iterations + 1)] at hrun
            have hfold : CostInv h goal
                ((adj s.node).foldl (relax h ⟨none, tb⟩ goal s.node s.gScore)
                  ⟨rest, bp.gScores, bp.cameFrom, bp.nodesExpanded + 1,
                    bp.iterations + 1⟩).openSet
                ((adj s.node).foldl (relax h ⟨none, tb⟩ goal s.node s.gScore)
                  ⟨rest, bp.gScores, bp.cameFrom, bp.nodesExpanded + 1,
                    bp.iterations + 1⟩).gScores :=
              foldl_relax_preserves_costInv (adj s.node)
                ⟨rest, bp.gScores, bp.cameFrom, bp.nodesExpanded + 1,
                  bp.iterations + 1⟩ hinv2
            have hinv3 : CostInv h goal (P ++ rest) G := by
              rw [hdec rest (bp.iterations + 1)] at hfold
              exact hfold
            obtain ⟨hc2, hg2, htrue, hfalse⟩ := ih _ done bp2 rfl hinv3 hrun
            refine ⟨hc2.trans hcfg.symm, hg2, ?_, ?_⟩
            · intro hd
              obtain ⟨res, hst, hrunAll⟩ := htrue hd
              refine ⟨res, hst, ?_⟩
              intro l' hl' it
              have hmem2 : s ∈ l' := hl'.mem_iff.mp hmem
              have hmax2 : ∀ x ∈ l', higherPriority x s ≠ true :=
                fun x hx => hmax x (hl'.mem_iff.mpr hx)
              obtain ⟨c2, rest2, hpop2, hperm2⟩ :=
                exists_popND_choice hmem2 hmax2
              have hrr : rest.Perm rest2 :=
                (((hperm.symm.trans hl').trans hperm2) :
                  (s :: rest).Perm (s :: rest2)).cons_inv
              obtain ⟨ch2, hch2⟩ := hrunAll (P ++ rest2)
                (List.Perm.append_left P hrr) (it + 1)
              refine ⟨c2 :: ch2, ?_⟩
              rw [astarLoopND_step adj h tb goal c2 ch2
                ⟨l', bp.gScores, bp.cameFrom, bp.nodesExpanded, it⟩ hpop2]
              rw [if_neg hgoal, if_neg hstale]
              rw [hdec rest2 (it + 1)]
              exact hch2
            · intro hd
              obtain ⟨hst, hCI, htr⟩ := hfalse hd
              refine ⟨hst, hCI, ?_⟩
              intro res hgiven l' hl' it
              have IH2 := htr res hgiven
              have hmem2 : s ∈ l' := hl'.mem_iff.mp hmem
              have hmax2 : ∀ x ∈ l', higherPriority x s ≠ true :=
                fun x hx => hmax x (hl'.mem_iff.mpr hx)
              obtain ⟨c2, rest2, hpop2, hperm2⟩ :=
                exists_popND_choice hmem2 hmax2
              have hrr : rest.Perm rest2 :=
                (((hperm.symm.trans hl').trans hperm2) :
                  (s :: rest).Perm (s :: rest2)).cons_inv
              obtain ⟨ch2, hch2⟩ := IH2 (P ++ rest2)
                (List.Perm.append_left P hrr) (it + 1)
              refine ⟨c2 :: ch2, ?_⟩
              rw [astarLoopND_step adj h tb goal c2 ch2
                ⟨l', bp.gScores, bp.cameFrom, bp.nodesExpanded, it⟩ hpop2]
              rw [if_neg hgoal, if_neg hstale]
              rw [hdec rest2 (it + 1)]
              exact hch2

theorem driveStepsND_sim [DecidableEq N] [LinearOrderedAddCommGroup C]
    (adj : N → List (N × C)) (h : N → N → C) (goal : N) (tb : TieBreaking)
    (oracle : Nat → List Nat) (budgetOracle : Nat → Nat → Bool) :
    ∀ (K : Nat) (bp bpF : BudgetedPathfinder N C) (res : PathResult N C),
      bp.config = ⟨none, tb⟩ →
      bp.goal = some goal →
      bp.status = ComputeStatus.inProgress →
      CostInv h goal bp.openSet bp.gScores →
      driveStepsND adj h oracle budgetOracle K bp = some bpF →
      bpF.takeResult = some res →
      ∀ l', bp.openSet.Perm l' → ∀ it, ∃ ch,
        astarLoopND adj h ⟨none, tb⟩ (fun _ => false) goal ch
          ⟨l', bp.gScores, bp.cameFrom, bp.nodesExpanded, it⟩ = some res := by
  intro K
  induction K with
  | zero => intro bp bpF res _ _ _ _ hd _; exact Option.noConfusion hd
  | succ K ih =>
    intro bp bpF res hcfg hgoal hst hinv hd hres
    rw [driveStepsND] at hd
    unfold budgetStepND at hd
    rw [hst, hgoal] at hd
    dsimp only at hd
    cases hstep : budgetStepLoopND adj h (budgetOracle K) goal (oracle K) bp with
    | none => rw [hstep] at hd; exact Option.noConfusion hd
    | some db =>
      obtain ⟨done, bp2⟩ := db
      rw [hstep] at hd
      obtain ⟨hc2, hg2, htrue, hfalse⟩ := budgetStepLoopND_sim adj h
        (budgetOracle K) goal tb (oracle K) bp done bp2 hcfg hinv hstep
      cases done with
      | true =>
        dsimp only at hd
        simp only [Option.some.injEq] at hd
        subst hd
        obtain ⟨res2, hst2, hruns⟩ := htrue rfl
        rw [BudgetedPathfinder.takeResult, hst2] at hres
        simp only [Option.some.injEq] at hres
        subst hres
        exact hruns
      | false =>
        dsimp only at hd
        obtain ⟨hst2, hCI, htr⟩ := hfalse rfl
        exact htr res (ih bp2 bpF res (hc2.trans hcfg) (hg2.trans hgoal)
          (hst2.trans hst) hCI hd hres)

/-- C2 (amended): with `BinaryHeap::pop` modelled faithfully as a
choice of any maximal-priority element (its tie order depends on the
heap's internal arrangement), a completed `start`/`step` run — with any
per-step budgets, including suspending and resuming steps — yields via
`take_result` a result that the blocking `astar` produces on the same
inputs under some admissible heap tie order: the budgeted search
refines blocking `astar` up to equal-priority tie resolution.  Exact
equality of the two runs' paths for every budget schedule does NOT
hold: a suspension's pop-then-push can demote the suspended node below
an equal-priority peer, after which the runs record different
`came_from` parents (see the counterexample). -/
theorem budgeted_stepsND_refines_astar [DecidableEq N]
    [LinearOrderedAddCommGroup C]
    (adj : N → List (N × C)) (h : N → N → C) (start goal : N) (tb : TieBreaking)
    (oracle : Nat → List Nat) (budgetOracle : Nat → Nat → Bool) (K : Nat)
    (bpF : BudgetedPathfinder N C) (res : PathResult N C)
    (hdrive : driveStepsND adj h oracle budgetOracle K
      ((BudgetedPathfinder.new ⟨none, tb⟩).start start goal h) = some bpF)
    (hres : bpF.takeResult = some res) :
    ∃ choices, astarND adj h start goal ⟨none, tb⟩ (fun _ => false) choices =
      some res := by
  have hinit : CostInv h goal
      ((BudgetedPathfinder.new (N := N) (C := C) ⟨none, tb⟩).start start goal
        h).openSet
      ((BudgetedPathfinder.new (N := N) (C := C) ⟨none, tb⟩).start start goal
        h).gScores := by
    constructor
    · intro e he
      simp only [BudgetedPathfinder.start, List.mem_singleton] at he
      subst he
      exact ⟨0, MapF.insert_lookup_eq _ _ _, le_refl 0⟩
    · intro v hv
      by_cases hgs : goal = start
      · rw [show ((BudgetedPathfinder.new (N := N) (C := C) ⟨none, tb⟩).start
            start goal h).gScores = MapF.empty.insert start 0 from rfl, hgs,
          MapF.insert_lookup_eq] at hv
        refine ⟨⟨start, h start goal, 0, 0⟩, List.mem_singleton_self _,
          hgs.symm, ?_⟩
        exact Option.some_injective _ hv
      · rw [show ((BudgetedPathfinder.new (N := N) (C := C) ⟨none, tb⟩).start
            start goal h).gScores = MapF.empty.insert start 0 from rfl,
          MapF.insert_lookup_ne _ _ _ hgs] at hv
        exact Option.noConfusion hv
    · intro e he hen
      simp only [BudgetedPathfinder.start, List.mem_singleton] at he
      subst he
      dsimp only at hen ⊢
      rw [hen, zero_add]
  have hruns := driveStepsND_sim adj h goal tb oracle budgetOracle K _ bpF res
    rfl rfl rfl hinit hdrive hres
  obtain ⟨ch, hch⟩ := hruns _ (List.Perm.refl _) 0
  exact ⟨ch, hch⟩

/-- Witness for the amended C2: the graph is a 9-node chain followed by
a fork through two equal-priority nodes that rejoin; the first step
suspends at iteration 10 (re-pushing the popped node), the resumed step
pops the equal-priority peer first, and the completed result is still
one that blocking astar produces under some tie order. -/
theorem budgeted_stepsND_refines_astar_witness :
    ((driveStepsND (fun i => if i < 8 then [(i + 1, (1 : ℤ))] else if i = 8 then
        [(9, 1), (10, 1)] else if i = 9 then [(11, 1)] else if i = 10 then
        [(11, 1)] else if i = 11 then [(12, 1)] else [])
      (fun _ _ => (0 : ℤ)) (fun k => if k = 2 then [0, 0, 0, 0, 0, 0, 0, 0, 0, 1, 0, 0, 0, 0, 0, 0, 0, 0, 0, 0] else
        if k = 1 then [1, 1, 0, 0, 0, 0, 0, 0, 0, 0, 0, 0, 0, 0, 0, 0] else [0])
      (fun _ it => it == 10) 3
      ((BudgetedPathfinder.new ⟨none, .noTie⟩).start 0 12
        (fun _ _ => (0 : ℤ)))).bind BudgetedPathfinder.takeResult =
      some ⟨[0, 1, 2, 3, 4, 5, 6, 7, 8, 10, 11, 12], 11, 12, .found⟩) ∧
    ∃ choices, astarND (fun i => if i < 8 then [(i + 1, (1 : ℤ))] else if i = 8 then
        [(9, 1), (10, 1)] else if i = 9 then [(11, 1)] else if i = 10 then
        [(11, 1)] else if i = 11 then [(12, 1)] else [])
      (fun _ _ => (0 : ℤ)) 0 12 ⟨none, .noTie⟩ (fun _ => false) choices =
      some ⟨[0, 1, 2, 3, 4, 5, 6, 7, 8, 10, 11, 12], 11, 12, .found⟩ := by
  have hb : (driveStepsND (fun i => if i < 8 then [(i + 1, (1 : ℤ))] else if i = 8 then
        [(9, 1), (10, 1)] else if i = 9 then [(11, 1)] else if i = 10 then
        [(11, 1)] else if i = 11 then [(12, 1)] else [])
      (fun _ _ => (0 : ℤ)) (fun k => if k = 2 then [0, 0, 0, 0, 0, 0, 0, 0, 0, 1, 0, 0, 0, 0, 0, 0, 0, 0, 0, 0] else
        if k = 1 then [1, 1, 0, 0, 0, 0, 0, 0, 0, 0, 0, 0, 0, 0, 0, 0] else [0])
      (fun _ it => it == 10) 3
      ((BudgetedPathfinder.new ⟨none, .noTie⟩).start 0 12
        (fun _ _ => (0 : ℤ)))).bind BudgetedPathfinder.takeResult =
      some ⟨[0, 1, 2, 3, 4, 5, 6, 7, 8, 10, 11, 12], 11, 12, .found⟩ := by
    decide
  refine ⟨hb, ?_⟩
  cases hd : driveStepsND (fun i => if i < 8 then [(i + 1, (1 : ℤ))] else if i = 8 then
        [(9, 1), (10, 1)] else if i = 9 then [(11, 1)] else if i = 10 then
        [(11, 1)] else if i = 11 then [(12, 1)] else [])
      (fun _ _ => (0 : ℤ)) (fun k => if k = 2 then [0, 0, 0, 0, 0, 0, 0, 0, 0, 1, 0, 0, 0, 0, 0, 0, 0, 0, 0, 0] else
        if k = 1 then [1, 1, 0, 0, 0, 0, 0, 0, 0, 0, 0, 0, 0, 0, 0, 0] else [0])
      (fun _ it => it == 10) 3
      ((BudgetedPathfinder.new ⟨none, .noTie⟩).start 0 12
        (fun _ _ => (0 : ℤ))) with
  | none => rw [hd] at hb; exact Option.noConfusion hb
  | some bpF =>
    rw [hd] at hb
    exact budgeted_stepsND_refines_astar (fun i => if i < 8 then [(i + 1, (1 : ℤ))] else if i = 8 then
        [(9, 1), (10, 1)] else if i = 9 then [(11, 1)] else if i = 10 then
        [(11, 1)] else if i = 11 then [(12, 1)] else [])
      (fun _ _ => (0 : ℤ)) 0 12 .noTie (fun k => if k = 2 then [0, 0, 0, 0, 0, 0, 0, 0, 0, 1, 0, 0, 0, 0, 0, 0, 0, 0, 0, 0] else
        if k = 1 then [1, 1, 0, 0, 0, 0, 0, 0, 0, 0, 0, 0, 0, 0, 0, 0] else [0])
      (fun _ it => it == 10) 3 bpF
      ⟨[0, 1, 2, 3, 4, 5, 6, 7, 8, 10, 11, 12], 11, 12, .found⟩ hd hb

/-- Counterexample to C2 as stated: on a 9-node chain followed by a
fork through two equal-priority nodes (equal f and tie_breaker, zero
heuristic) that rejoin, a budget schedule that suspends the first step
at iteration 10 re-pushes the popped fork node; the resumed pop may
return its equal-priority peer — exactly what `BinaryHeap`'s
`sift_up`-on-strict-comparison does to a re-pushed element — and the
completed budgeted run then returns the path through node 10, while the
blocking run (which pops the fork node first and expands it
immediately) returns the path through node 9.  Same cost and status,
different paths, so "the same path" fails. -/
theorem budgeted_steps_tie_order_counterexample :
    ((driveStepsND (fun i => if i < 8 then [(i + 1, (1 : ℤ))] else if i = 8 then
        [(9, 1), (10, 1)] else if i = 9 then [(11, 1)] else if i = 10 then
        [(11, 1)] else if i = 11 then [(12, 1)] else [])
        (fun _ _ => (0 : ℤ)) (fun k => if k = 2 then [0, 0, 0, 0, 0, 0, 0, 0, 0, 1, 0, 0, 0, 0, 0, 0, 0, 0, 0, 0] else
        if k = 1 then [1, 1, 0, 0, 0, 0, 0, 0, 0, 0, 0, 0, 0, 0, 0, 0] else [0])
        (fun _ it => it == 10) 3
        ((BudgetedPathfinder.new ⟨none, .noTie⟩).start 0 12
          (fun _ _ => (0 : ℤ)))).bind BudgetedPathfinder.takeResult).map
        (fun r => (r.path, r.cost, r.status)) =
      some ([0, 1, 2, 3, 4, 5, 6, 7, 8, 10, 11, 12], (11 : ℤ), .found) ∧
    (astarND (fun i => if i < 8 then [(i + 1, (1 : ℤ))] else if i = 8 then
        [(9, 1), (10, 1)] else if i = 9 then [(11, 1)] else if i = 10 then
        [(11, 1)] else if i = 11 then [(12, 1)] else [])
        (fun _ _ => (0 : ℤ)) 0 12 ⟨none, .noTie⟩ (fun _ => false)
        [0, 0, 0, 0, 0, 0, 0, 0, 0, 1, 1, 0, 0, 0, 0, 0, 0, 0, 0, 0, 0, 0, 0, 0, 0]).map
        (fun r => (r.path, r.cost, r.status)) =
      some ([0, 1, 2, 3, 4, 5, 6, 7, 8, 9, 11, 12], (11 : ℤ), .found) ∧
    ([0, 1, 2, 3, 4, 5, 6, 7, 8, 10, 11, 12] : List Nat) ≠
      [0, 1, 2, 3, 4, 5, 6, 7, 8, 9, 11, 12] := by
  refine ⟨by decide, by decide, by decide⟩

end Pathforge
